import Mathlib

/-!
# smart-math integrators: a shallow embedding

The C++ template parameter `T` and the `double` used for times are both read as one
linearly ordered field `K` (exact arithmetic).  `std::vector<T>` is `List K`.
A call that can throw, or that can index a vector out of range, returns in
`Except Fault`.  Output arguments passed by reference are modelled as a prior value that
goes in and a new value that comes out.  The last section of the definitions reads the
drivers once more with the operations between `double` times rounded to binary64.
-/

/-! ## Failure outcomes, vectors and loops -/

/-- The ways a call can fail: an exception raised by `smart_throw` /
`smartmath_throw`, or an `operator[]` access beyond the size of a vector; a division by
zero is reported only where a computation is read with its divisions guarded. -/
inductive Fault where
  | thrown (msg : String)
  | outOfRange
  | divisionByZero
deriving DecidableEq, Repr

/-- Read `v[i]`. -/
def vget {K : Type} (v : List K) (i : Nat) : Except Fault K :=
  match v[i]? with
  | some a => .ok a
  | none => .error Fault.outOfRange

/-- Write `v[i] = a`. -/
def vset {K : Type} (v : List K) (i : Nat) (a : K) : Except Fault (List K) :=
  if i < v.length then .ok (v.set i a) else .error Fault.outOfRange

/-- The loop `for (i = 0; i < n; i++) body`, threading the variables the body changes. -/
def forLoop {σ : Type} : Nat → (Nat → σ → Except Fault σ) → σ → Except Fault σ
  | 0, _, s => .ok s
  | n + 1, body, s => forLoop n body s >>= body n

/-- The capability `m_dyn->evaluate(t, state, dstate)` seen from an integrator: the value
left in `dstate`, or the exception raised. -/
abbrev Dyn (K : Type) := K → List K → Except Fault (List K)

/-- A dynamics that never throws, given by the derivative it returns. -/
def Dyn.total {K : Type} (g : K → List K → List K) : Dyn K :=
  fun t x => .ok (g t x)

/-! ## Vector algebra used to write the textbook formulas -/

/-- Componentwise sum. -/
def vadd {K : Type} [Add K] (a b : List K) : List K := List.zipWith (· + ·) a b

/-- Componentwise difference. -/
def vsub {K : Type} [Sub K] (a b : List K) : List K := List.zipWith (· - ·) a b

/-- The call `v.clear()`. -/
def vclear {K : Type} (_v : List K) : List K := []

/-- The assignment `v = w` of whole vectors. -/
def vassign {K : Type} (_v w : List K) : List K := w

/-- Multiplication of every component by a scalar. -/
def vsmul {K : Type} [Mul K] (c : K) (a : List K) : List K := a.map (c * ·)

/-! ## rk4.cpp -/

namespace rk4

/-- The vectors declared before the step loop of `rk4<T>::integrate`. -/
structure Locals (K : Type) where
  x : List K
  xtemp : List K
  k1 : List K
  k2 : List K
  k3 : List K
  k4 : List K

/-- One pass through the body of the step loop of `rk4<T>::integrate`. -/
def loopBody {K : Type} [LinearOrderedField K] (m_dyn : Dyn K) (ti h : K) (n : Nat)
    (i : Nat) (s : Locals K) : Except Fault (Locals K) := do
  let t1 := ti + (i : K) * h
  let t2 := t1 + h / 2
  let t3 := t1 + h / 2
  let t4 := ti + ((i + 1 : Nat) : K) * h
  let k1 ← m_dyn t1 s.x
  let xtemp ← forLoop n
    (fun j xt => do vset xt j ((← vget s.x j) + (← vget k1 j) * h / 2)) s.xtemp
  let k2 ← m_dyn t2 xtemp
  let xtemp ← forLoop n
    (fun j xt => do vset xt j ((← vget s.x j) + (← vget k2 j) * h / 2)) xtemp
  let k3 ← m_dyn t3 xtemp
  let xtemp ← forLoop n
    (fun j xt => do vset xt j ((← vget s.x j) + (← vget k3 j) * h)) xtemp
  let k4 ← m_dyn t4 xtemp
  let x ← forLoop n
    (fun j x => do
      vset x j ((← vget x j)
        + ((← vget k1 j) + 2 * (← vget k2 j) + 2 * (← vget k3 j) + (← vget k4 j)) * h / 6))
    s.x
  pure { x := x, xtemp := xtemp, k1 := k1, k2 := k2, k3 := k3, k4 := k4 }

/-- The method `rk4<T>::integrate(ti, tend, nsteps, x0, xfinal)`; the last argument is the
content of `xfinal` at entry, the result is its content at exit. -/
def integrate {K : Type} [LinearOrderedField K] (m_dyn : Dyn K) (ti tend : K) (nsteps : Int)
    (x0 : List K) (xfinal : List K) : Except Fault (List K) := do
  let xfinal : List K := vclear xfinal
  let n := x0.length
  let s0 : Locals K := { x := x0, xtemp := x0, k1 := x0, k2 := x0, k3 := x0, k4 := x0 }
  let h := (tend - ti) / (nsteps : K)
  let s ← forLoop nsteps.toNat (loopBody m_dyn ti h n) s0
  forLoop x0.length (fun i xf => do pure (xf ++ [← vget s.x i])) xfinal

end rk4

/-! ## rk3.cpp -/

/-- The primitive `integration_step(t, h, x0, xfinal)` of a fixed-step scheme: the fourth
argument is the content of `xfinal` at entry, the result its content at exit. -/
abbrev Step (K : Type) := K → K → List K → List K → Except Fault (List K)

namespace rk3

/-- The method `rk3<T>::integration_step(t, h, x0, xfinal)`. -/
def integration_step {K : Type} [LinearOrderedField K] (m_dyn : Dyn K) (t h : K)
    (x0 : List K) (xfinal : List K) : Except Fault (List K) := do
  let x_temp := x0
  let l := x0.length
  let t1 := t + h
  let t2 := t1 + h / 2
  let t3 := t1 + h * 3 / 4
  let k1 ← m_dyn t1 x0
  let x_temp ← forLoop l
    (fun j xt => do vset xt j ((← vget x0 j) + (← vget k1 j) * h / 2)) x_temp
  let k2 ← m_dyn t2 x_temp
  let x_temp ← forLoop l
    (fun j xt => do vset xt j ((← vget x0 j) + (← vget k2 j) * h * 3 / 4)) x_temp
  let k3 ← m_dyn t3 x_temp
  let xfinal := vassign xfinal x0
  forLoop l
    (fun j xf => do
      vset xf j ((← vget xf j)
        + (2 * (← vget k1 j) + 3 * (← vget k2 j) + 4 * (← vget k3 j)) * h / 9))
    xfinal

end rk3

/-! ## base_rungekutta.h -/

/-- The result of a history-recording `integrate`: the contents of the output arguments
`x_history` and `t_history` at exit.  The field `calls` is not a variable of the program: it
lists the arguments `(t, h, x)` of every call of `integration_step`, in order. -/
structure History (K : Type) where
  x_history : List (List K)
  t_history : List K
  calls : List (K × K × List K)

/-- The variables of the step loop of a history-recording `integrate`. -/
structure DriverVars (K : Type) where
  t : K
  x : List K
  x_temp : List K
  out : History K

namespace base_rungekutta

/-- One pass through the body of the loop of `base_rungekutta::integrate`. -/
def loopBody {K : Type} [LinearOrderedField K] (integration_step : Step K) (h : K) (_i : Nat)
    (s : DriverVars K) : Except Fault (DriverVars K) := do
  let x_temp ← integration_step s.t h s.x s.x_temp
  let t := s.t + h
  let x := vassign s.x x_temp
  pure { t := t, x := x, x_temp := x_temp,
         out := { t_history := s.out.t_history ++ [t],
                  x_history := s.out.x_history ++ [x],
                  calls := s.out.calls ++ [(s.t, h, s.x)] } }

/-- The method `base_rungekutta::integrate(ti, tend, nsteps, x0, x_history, t_history)` for
the scheme whose primitive is `integration_step`. -/
def integrate {K : Type} [LinearOrderedField K] (integration_step : Step K) (ti tend : K)
    (nsteps : Int) (x0 : List K) (x_history : List (List K)) (t_history : List K) :
    Except Fault (History K) := do
  let t_history := vclear t_history
  let x_history := vclear x_history
  let h := (tend - ti) / (nsteps : K)
  let s ← forLoop nsteps.toNat (loopBody integration_step h)
    { t := ti, x := x0, x_temp := x0,
      out := { t_history := t_history, x_history := x_history, calls := [] } }
  pure s.out

end base_rungekutta

/-- The method `rk3<T>::integrate(ti, tend, nsteps, x0, x_history, t_history)`. -/
def rk3.integrate {K : Type} [LinearOrderedField K] (m_dyn : Dyn K) (ti tend : K)
    (nsteps : Int) (x0 : List K) (x_history : List (List K)) (t_history : List K) :
    Except Fault (History K) := do
  let t_history := vclear t_history
  let x_history := vclear x_history
  let h := (tend - ti) / (nsteps : K)
  let s ← forLoop nsteps.toNat
    (fun _i (s : DriverVars K) => do
      let x_temp ← rk3.integration_step m_dyn s.t h s.x s.x_temp
      let t := s.t + h
      let x := vassign s.x x_temp
      pure { t := t, x := x, x_temp := x_temp,
             out := { t_history := s.out.t_history ++ [t],
                      x_history := s.out.x_history ++ [x],
                      calls := s.out.calls ++ [(s.t, h, s.x)] } })
    { t := ti, x := x0, x_temp := x0,
      out := { t_history := t_history, x_history := x_history, calls := [] } }
  pure s.out

/-! ## base_symplectic.h -/

/-- The members of `base_hamiltonian` that the symplectic integrators call on `m_dyn`; the
results of `DHq(t, q, p, dH)` and `DHp(t, q, p, dH)` are the values left in `dH`. -/
structure base_hamiltonian (K : Type) where
  get_dim : Int
  DHq : K → List K → List K → Except Fault (List K)
  DHp : K → List K → List K → Except Fault (List K)

/-- The data members of `base_symplectic`; `m_name` is read by none of its methods. -/
structure base_symplectic (K : Type) where
  m_name : String := ""
  m_dyn : base_hamiltonian K
  m_order : Int
  m_c : List K
  m_d : List K

namespace base_symplectic

/-- The vectors declared in `base_symplectic::integration_step`. -/
structure Locals (K : Type) where
  q0 : List K
  p0 : List K
  q : List K
  p : List K
  dq : List K
  dp : List K

/-- The first loop of `integration_step`: it splits `x0` into `q0` and `p0`. -/
def split {K : Type} (n : Nat) (x0 : List K) : Except Fault (List K × List K) :=
  forLoop n
    (fun i (qp : List K × List K) => do
      let q0 := qp.1 ++ [← vget x0 i]
      let p0 := qp.2 ++ [← vget x0 (i + n)]
      pure (q0, p0))
    ([], [])

/-- The last two loops of `integration_step`: they store `q` and then `p` in `xfinal`. -/
def join {K : Type} (n : Nat) (q p xfinal : List K) : Except Fault (List K) := do
  let xfinal := vclear xfinal
  let xfinal ← forLoop n (fun i xf => do pure (xf ++ [← vget q i])) xfinal
  forLoop n (fun i xf => do pure (xf ++ [← vget p i])) xfinal

/-- One pass through the body of the loop over the sub-stages `j`. -/
def stageBody {K : Type} [LinearOrderedField K] (self : base_symplectic K) (ti tau : K)
    (n : Nat) (j : Nat) (s : Locals K) : Except Fault (Locals K) := do
  let dp ← self.m_dyn.DHp ti s.q0 s.p0
  let q ← forLoop n
    (fun i q => do vset q i ((← vget q i) + (← vget self.m_c j) * tau * (← vget dp i))) s.q
  let dq ← self.m_dyn.DHq ti q s.p0
  let p ← forLoop n
    (fun i p => do vset p i ((← vget p i) - (← vget self.m_d j) * tau * (← vget dq i))) s.p
  pure { q0 := q, p0 := p, q := q, p := p, dq := dq, dp := dp }

/-- The method `base_symplectic::integration_step(ti, tau, x0, xfinal)`. -/
def integration_step {K : Type} [LinearOrderedField K] (self : base_symplectic K)
    (ti tau : K) (x0 : List K) (xfinal : List K) : Except Fault (List K) := do
  let n := self.m_dyn.get_dim.toNat
  let (q0, p0) ← split n x0
  let s ← forLoop self.m_order.toNat (stageBody self ti tau n)
    { q0 := q0, p0 := p0, q := q0, p := p0, dq := q0, dp := p0 }
  join n s.q s.p xfinal

/-- The method `base_symplectic::integrate(ti, tend, nsteps, x0, x_history, t_history)`. -/
def integrate {K : Type} [LinearOrderedField K] (self : base_symplectic K) (ti tend : K)
    (nsteps : Int) (x0 : List K) (x_history : List (List K)) (t_history : List K) :
    Except Fault (History K) := do
  let t_history := vclear t_history
  let x_history := vclear x_history
  let h := (tend - ti) / (nsteps : K)
  let s ← forLoop nsteps.toNat
    (fun _i (s : DriverVars K) => do
      let x_temp ← integration_step self s.t h s.x s.x_temp
      let t := s.t + h
      let x := vassign s.x x_temp
      pure { t := t, x := x, x_temp := x_temp,
             out := { t_history := s.out.t_history ++ [t],
                      x_history := s.out.x_history ++ [x],
                      calls := s.out.calls ++ [(s.t, h, s.x)] } })
    { t := ti, x := x0, x_temp := x0,
      out := { t_history := t_history, x_history := x_history, calls := [] } }
  pure s.out

end base_symplectic

/-! ## leapfrog_mixedvar.h -/

/-- The members of `hamiltonian_mixedvar` that `leapfrog_mixedvar` calls on `m_dyn`; the
result of `conversion(q, p, q2, p2)` is the pair of values left in `q2` and `p2`, likewise
for `conversion2`. -/
structure hamiltonian_mixedvar (K : Type) where
  get_dim : Int
  is_separable : Bool
  DHq : K → List K → List K → Except Fault (List K)
  DHp2 : K → List K → List K → Except Fault (List K)
  conversion : List K → List K → Except Fault (List K × List K)
  conversion2 : List K → List K → Except Fault (List K × List K)

/-- The data members of `leapfrog_mixedvar` read by its methods. -/
structure leapfrog_mixedvar (K : Type) where
  m_dyn : hamiltonian_mixedvar K
  m_flag : Bool

namespace leapfrog_mixedvar

/-- The loop `for i < n: q[i] += tau * dp[i] / 2.0`. -/
def driftHalf {K : Type} [LinearOrderedField K] (n : Nat) (tau : K) (dp q : List K) :
    Except Fault (List K) :=
  forLoop n (fun i q => do vset q i ((← vget q i) + tau * (← vget dp i) / 2)) q

/-- The loop `for i < n: q[i] += tau * dp[i]`. -/
def driftFull {K : Type} [LinearOrderedField K] (n : Nat) (tau : K) (dp q : List K) :
    Except Fault (List K) :=
  forLoop n (fun i q => do vset q i ((← vget q i) + tau * (← vget dp i))) q

/-- The loop `for i < n: p[i] -= tau * dq[i] / 2.0`. -/
def kickHalf {K : Type} [LinearOrderedField K] (n : Nat) (tau : K) (dq p : List K) :
    Except Fault (List K) :=
  forLoop n (fun i p => do vset p i ((← vget p i) - tau * (← vget dq i) / 2)) p

/-- The loop `for i < n: p[i] -= tau * dq[i]`. -/
def kickFull {K : Type} [LinearOrderedField K] (n : Nat) (tau : K) (dq p : List K) :
    Except Fault (List K) :=
  forLoop n (fun i p => do vset p i ((← vget p i) - tau * (← vget dq i))) p

/-- The method `leapfrog_mixedvar::integration_step(ti, tau, x0, xfinal)`. -/
def integration_step {K : Type} [LinearOrderedField K] (self : leapfrog_mixedvar K)
    (ti tau : K) (x0 : List K) (xfinal : List K) : Except Fault (List K) := do
  let n := self.m_dyn.get_dim.toNat
  let (q0, p0) ← base_symplectic.split n x0
  let q := q0
  let p := p0
  if self.m_flag then
    let (q0, p0) ← self.m_dyn.conversion q p
    let q := q0
    let p := p0
    let dp ← self.m_dyn.DHp2 ti q0 p0
    let q ← driftHalf n tau dp q
    let (q0, p0) ← self.m_dyn.conversion2 q p
    let q := q0
    let p := p0
    let dq ← self.m_dyn.DHq ti q p0
    let p ← kickFull n tau dq p
    let (q0, p0) ← self.m_dyn.conversion q p
    let q := q0
    let p := p0
    let dp ← self.m_dyn.DHp2 ti q0 p0
    let q ← driftHalf n tau dp q
    let (q0, p0) ← self.m_dyn.conversion2 q p
    let q := q0
    let p := p0
    base_symplectic.join n q p xfinal
  else
    let dq ← self.m_dyn.DHq ti q p0
    let p ← kickHalf n tau dq p
    let (q0, p0) ← self.m_dyn.conversion q p
    let q := q0
    let p := p0
    let dp ← self.m_dyn.DHp2 ti q0 p0
    let q ← driftFull n tau dp q
    let (q0, p0) ← self.m_dyn.conversion2 q p
    let q := q0
    let p := p0
    let dq ← self.m_dyn.DHq ti q p0
    let p ← kickHalf n tau dq p
    base_symplectic.join n q p xfinal

end leapfrog_mixedvar

/-! ## rkf45.h -/

namespace rkf45

/-- The variables changed by the last loop of `rkf45::integration_step`. -/
structure Acc (K : Type) where
  xbar : List K
  xfinal : List K
  er : K

/-- One pass through the body of the last loop of `rkf45::integration_step`, which updates
`xbar[j]`, `xfinal[j]` and `er`. -/
def updateBody {K : Type} [LinearOrderedField K] (h : K) (k1 k3 k4 k5 k6 : List K) (j : Nat)
    (s : Acc K) : Except Fault (Acc K) := do
  let xbar ← vset s.xbar j ((← vget s.xbar j)
    + ((← vget k1 j) * 16 / 135 + (← vget k3 j) * 6656 / 12825
      + (← vget k4 j) * 28561 / 56430 - (← vget k5 j) * 9 / 50 + (← vget k6 j) * 2 / 55) * h)
  let xfinal ← vset s.xfinal j ((← vget s.xfinal j)
    + ((← vget k1 j) * 25 / 216 + (← vget k3 j) * 1408 / 2565
      + (← vget k4 j) * 2197 / 4104 - (← vget k5 j) / 5) * h)
  let er := s.er + ((← vget xbar j) - (← vget xfinal j)) ^ 2
  pure { xbar := xbar, xfinal := xfinal, er := er }

/-- The method `rkf45::integration_step(ti, m, h, x0, f, xfinal, er)`; `xfinal` and `er`
are the contents of the two output arguments at entry, the result is the pair of their
contents at exit.  `sqrtT` is the square root of the component type `T`. -/
def integration_step {K : Type} [LinearOrderedField K] (sqrtT : K → K) (m_dyn : Dyn K)
    (ti : K) (_m : Nat) (h : K) (x0 : List K) (_f : List (List K)) (xfinal : List K)
    (_er : K) : Except Fault (List K × K) := do
  let n := x0.length
  let xbar := x0
  let xtemp := x0
  let xfinal := vassign xfinal x0
  let t1 := ti
  let t2 := t1 + h / 4
  let t3 := t1 + h * 3 / 8
  let t4 := t1 + h * 12 / 13
  let t5 := t1 + h
  let t6 := t1 + h / 2
  let k1 ← m_dyn t1 x0
  let xtemp ← forLoop n
    (fun j xt => do vset xt j ((← vget x0 j) + (← vget k1 j) * h / 4)) xtemp
  let k2 ← m_dyn t2 xtemp
  let xtemp ← forLoop n
    (fun j xt => do
      vset xt j ((← vget x0 j) + (← vget k1 j) * h * 3 / 32 + (← vget k2 j) * h * 9 / 32))
    xtemp
  let k3 ← m_dyn t3 xtemp
  let xtemp ← forLoop n
    (fun j xt => do
      vset xt j ((← vget x0 j) + (← vget k1 j) * h * 1932 / 2197
        - (← vget k2 j) * h * 7200 / 2197 + (← vget k3 j) * h * 7296 / 2197))
    xtemp
  let k4 ← m_dyn t4 xtemp
  let xtemp ← forLoop n
    (fun j xt => do
      vset xt j ((← vget x0 j) + (← vget k1 j) * h * 439 / 216 - (← vget k2 j) * h * 8
        + (← vget k3 j) * h * 3680 / 513 - (← vget k4 j) * h * 845 / 4104))
    xtemp
  let k5 ← m_dyn t5 xtemp
  let xtemp ← forLoop n
    (fun j xt => do
      vset xt j ((← vget x0 j) - (← vget k1 j) * h * 8 / 27 + (← vget k2 j) * h * 2
        - (← vget k3 j) * h * 3544 / 2565 + (← vget k4 j) * h * 1859 / 4104
        - (← vget k5 j) * h * 11 / 40))
    xtemp
  let k6 ← m_dyn t6 xtemp
  let er := 0 * (← vget x0 0)
  let s ← forLoop n
    (updateBody h k1 k3 k4 k5 k6)
    ({ xbar := xbar, xfinal := xfinal, er := er } : Acc K)
  let er := sqrtT s.er
  pure (s.xfinal, er)

end rkf45

/-! ## The textbook schemes, written from their tableaux -/

/-- The six stage derivatives of the Runge-Kutta-Fehlberg 4(5) tableau. -/
structure FehlbergStages (K : Type) where
  k1 : List K
  k2 : List K
  k3 : List K
  k4 : List K
  k5 : List K
  k6 : List K

/-- The stages of the Runge-Kutta-Fehlberg 4(5) tableau for `g` from `(t, x)` with step `h`:
nodes 0, 1/4, 3/8, 12/13, 1, 1/2 and the standard coupling coefficients. -/
def fehlbergStages {K : Type} [LinearOrderedField K] (g : K → List K → List K) (h t : K)
    (x : List K) : FehlbergStages K :=
  let k1 := g t x
  let k2 := g (t + h / 4) (vadd x (vsmul h (vsmul (1 / 4) k1)))
  let k3 := g (t + 3 * h / 8) (vadd x (vsmul h (vadd (vsmul (3 / 32) k1) (vsmul (9 / 32) k2))))
  let k4 := g (t + 12 * h / 13) (vadd x (vsmul h
    (vadd (vadd (vsmul (1932 / 2197) k1) (vsmul (-7200 / 2197) k2)) (vsmul (7296 / 2197) k3))))
  let k5 := g (t + h) (vadd x (vsmul h
    (vadd (vadd (vadd (vsmul (439 / 216) k1) (vsmul (-8) k2)) (vsmul (3680 / 513) k3))
      (vsmul (-845 / 4104) k4))))
  let k6 := g (t + h / 2) (vadd x (vsmul h
    (vadd (vadd (vadd (vadd (vsmul (-8 / 27) k1) (vsmul 2 k2)) (vsmul (-3544 / 2565) k3))
      (vsmul (1859 / 4104) k4)) (vsmul (-11 / 40) k5))))
  { k1 := k1, k2 := k2, k3 := k3, k4 := k4, k5 := k5, k6 := k6 }

/-- The fourth-order update of the Fehlberg pair. -/
def fehlbergOrder4 {K : Type} [LinearOrderedField K] (g : K → List K → List K) (h t : K)
    (x : List K) : List K :=
  let s := fehlbergStages g h t x
  vadd x (vsmul h (vadd (vadd (vadd (vsmul (25 / 216) s.k1) (vsmul (1408 / 2565) s.k3))
    (vsmul (2197 / 4104) s.k4)) (vsmul (-1 / 5) s.k5)))

/-- The fifth-order update of the Fehlberg pair. -/
def fehlbergOrder5 {K : Type} [LinearOrderedField K] (g : K → List K → List K) (h t : K)
    (x : List K) : List K :=
  let s := fehlbergStages g h t x
  vadd x (vsmul h (vadd (vadd (vadd (vadd (vsmul (16 / 135) s.k1) (vsmul (6656 / 12825) s.k3))
    (vsmul (28561 / 56430) s.k4)) (vsmul (-9 / 50) s.k5)) (vsmul (2 / 55) s.k6)))

/-- The sum of the squares of the components of `a - b`. -/
def sqDist {K : Type} [LinearOrderedField K] (a b : List K) : K :=
  ((vsub a b).map (· ^ 2)).sum


/-- One step of the textbook 3-stage third-order Runge-Kutta scheme for `g`, from `(t, x)`
with step `h`: stages at `t`, `t + h/2`, `t + 3h/4`, weights 2, 3, 4 over 9. -/
def rk3TextbookStep {K : Type} [LinearOrderedField K] (g : K → List K → List K) (h t : K)
    (x : List K) : List K :=
  let k1 := g t x
  let k2 := g (t + h / 2) (vadd x (vsmul (h / 2) k1))
  let k3 := g (t + 3 * h / 4) (vadd x (vsmul (3 * h / 4) k2))
  vadd x (vsmul (h / 9) (vadd (vadd (vsmul 2 k1) (vsmul 3 k2)) (vsmul 4 k3)))


/-- One step of the classical fourth-order Runge-Kutta scheme for `g`, from `(t, x)` with
step `h`. -/
def rk4ClassicalStep {K : Type} [LinearOrderedField K] (g : K → List K → List K) (h t : K)
    (x : List K) : List K :=
  let k1 := g t x
  let k2 := g (t + h / 2) (vadd x (vsmul (h / 2) k1))
  let k3 := g (t + h / 2) (vadd x (vsmul (h / 2) k2))
  let k4 := g (t + h) (vadd x (vsmul h k3))
  vadd x (vsmul (h / 6) (vadd (vadd (vadd k1 (vsmul 2 k2)) (vsmul 2 k3)) k4))

/-- The classical scheme iterated `m` times from `x`, step `i` starting at `ti + i*h`. -/
def rk4Classical {K : Type} [LinearOrderedField K] (g : K → List K → List K) (ti h : K) :
    Nat → List K → List K
  | 0, x => x
  | i + 1, x => rk4ClassicalStep g h (ti + (i : K) * h) (rk4Classical g ti h i x)


/-- A Hamiltonian dynamics of dimension `n` whose partial derivatives never throw. -/
def base_hamiltonian.total {K : Type} (n : Nat) (DHq DHp : K → List K → List K → List K) :
    base_hamiltonian K :=
  { get_dim := (n : Int),
    DHq := fun t q p => .ok (DHq t q p),
    DHp := fun t q p => .ok (DHp t q p) }

/-- One sub-stage of a symplectic scheme with coefficients `c`, `d`, at time `ti` with step
`tau`: the position is advanced with the derivative of `H` in `p`, then the momentum with
the derivative of `H` in `q` at the new position. -/
def symplecticSubstage {K : Type} [LinearOrderedField K]
    (DHq DHp : K → List K → List K → List K) (ti tau c d : K) (qp : List K × List K) :
    List K × List K :=
  let q1 := vadd qp.1 (vsmul (c * tau) (DHp ti qp.1 qp.2))
  let p1 := vsub qp.2 (vsmul (d * tau) (DHq ti q1 qp.2))
  (q1, p1)

/-- The sub-stages `0, ..., m-1` applied in order to `(q, p)`. -/
def symplecticFold {K : Type} [LinearOrderedField K]
    (DHq DHp : K → List K → List K → List K) (ti tau : K) (c d : List K) :
    Nat → List K × List K → List K × List K
  | 0, qp => qp
  | j + 1, qp =>
    symplecticSubstage DHq DHp ti tau (c.getD j 0) (d.getD j 0)
      (symplecticFold DHq DHp ti tau c d j qp)

/-- A mixed-variable Hamiltonian dynamics of dimension `n` whose members never throw. -/
def hamiltonian_mixedvar.total {K : Type} (n : Nat) (separable : Bool)
    (DHq DHp2 : K → List K → List K → List K)
    (conversion conversion2 : List K → List K → List K × List K) : hamiltonian_mixedvar K :=
  { get_dim := (n : Int),
    is_separable := separable,
    DHq := fun t q p => .ok (DHq t q p),
    DHp2 := fun t q p => .ok (DHp2 t q p),
    conversion := fun q p => .ok (conversion q p),
    conversion2 := fun q p => .ok (conversion2 q p) }

/-- The drift `q += s * DHp2(ti, q, p)`. -/
def leapfrogDrift {K : Type} [LinearOrderedField K] (DHp2 : K → List K → List K → List K)
    (ti s : K) (qp : List K × List K) : List K × List K :=
  (vadd qp.1 (vsmul s (DHp2 ti qp.1 qp.2)), qp.2)

/-- The kick `p -= s * DHq(ti, q, p)`. -/
def leapfrogKick {K : Type} [LinearOrderedField K] (DHq : K → List K → List K → List K)
    (ti s : K) (qp : List K × List K) : List K × List K :=
  (qp.1, vsub qp.2 (vsmul s (DHq ti qp.1 qp.2)))

/-- The drift-kick-drift ordering: conversion, drift over `tau/2`, second conversion, kick
over `tau`, conversion, drift over `tau/2`, second conversion. -/
def leapfrogDKD {K : Type} [LinearOrderedField K] (DHq DHp2 : K → List K → List K → List K)
    (conversion conversion2 : List K → List K → List K × List K) (ti tau : K)
    (qp : List K × List K) : List K × List K :=
  let s1 := conversion qp.1 qp.2
  let s2 := leapfrogDrift DHp2 ti (tau / 2) s1
  let s3 := conversion2 s2.1 s2.2
  let s4 := leapfrogKick DHq ti tau s3
  let s5 := conversion s4.1 s4.2
  let s6 := leapfrogDrift DHp2 ti (tau / 2) s5
  conversion2 s6.1 s6.2

/-- The kick-drift-kick ordering: kick over `tau/2`, conversion, drift over `tau`, second
conversion, kick over `tau/2`. -/
def leapfrogKDK {K : Type} [LinearOrderedField K] (DHq DHp2 : K → List K → List K → List K)
    (conversion conversion2 : List K → List K → List K × List K) (ti tau : K)
    (qp : List K × List K) : List K × List K :=
  let s1 := leapfrogKick DHq ti (tau / 2) qp
  let s2 := conversion s1.1 s1.2
  let s3 := leapfrogDrift DHp2 ti tau s2
  let s4 := conversion2 s3.1 s3.2
  leapfrogKick DHq ti (tau / 2) s4

/-- The state after `i` successive calls of the step primitive from `x0` with step `h`, call
number `j` (from 0) being made at time `ti + j*h` on the state left by the previous one. -/
def stepIterate {K : Type} [LinearOrderedField K] (step : Step K) (ti h : K) :
    Nat → List K → Except Fault (List K)
  | 0, x0 => .ok x0
  | i + 1, x0 => stepIterate step ti h i x0 >>= fun x => step (ti + (i : K) * h) h x x

/-! ## lotkavolterra.cpp -/

/-- The data member of `lotkavolterra` read by `evaluate`. -/
structure lotkavolterra (K : Type) where
  m_param : List K

namespace lotkavolterra

/-- The constructor `lotkavolterra<T>::lotkavolterra(param)`; the constructor of the parent
`base_dynamics`, whose source is not part of the repository files read here, is taken to
store the name only. -/
def new {K : Type} (param : List K) : Except Fault (lotkavolterra K) :=
  let self : lotkavolterra K := { m_param := param }
  if self.m_param.length ≠ 4 then
    .error (Fault.thrown "the size of the parameters vector need to be 4")
  else .ok self

/-- The method `lotkavolterra<T>::evaluate(t, state, dstate)`: the outcome of the call and
the content of `dstate` after it, from the content of `dstate` before it. -/
def evaluate {K : Type} [LinearOrderedField K] (self : lotkavolterra K) (t : K)
    (state : List K) (dstate : List K) : Except Fault Int × List K :=
  if t < 0 then
    (.error (Fault.thrown "negative time supplied in evaluation of the dynamical system"),
      dstate)
  else if state.length ≠ 2 then
    (.error (Fault.thrown "the state dimension needs to be 2"), dstate)
  else
    let dstate := vclear dstate
    match (do
      let xy := (← vget state 0) * (← vget state 1)
      let d0 := (← vget self.m_param 0) * (← vget state 0) - (← vget self.m_param 1) * xy
      let d1 := -(← vget self.m_param 2) * (← vget state 1) + (← vget self.m_param 3) * xy
      pure (d0, d1) : Except Fault (K × K)) with
    | .ok (d0, d1) => (.ok 0, (dstate ++ [d0]) ++ [d1])
    | .error e => (.error e, dstate)

end lotkavolterra

/-- A call `m_dyn->evaluate(t, state, dstate)` as an integrator sees it: the value left in
`dstate` when the call returns, the exception when it throws. -/
def asDyn {K : Type} (evaluate : K → List K → List K → Except Fault Int × List K) : Dyn K :=
  fun t state =>
    match evaluate t state [] with
    | (.ok _, dstate) => .ok dstate
    | (.error e, _) => .error e

/-! ## twobody.h -/

/-- The data members of `twobody` read by `evaluate`. -/
structure twobody (K : Type) where
  m_param : List K
  m_t_scale : K
  m_r_scale : K

namespace twobody

/-- The constructor `twobody(param, t_scale, r_scale)`; the constructor of the parent
`base_dynamics` is taken to store the name only. -/
def new {K : Type} (param : List K) (t_scale r_scale : K) : Except Fault (twobody K) :=
  let self : twobody K := { m_param := param, m_t_scale := t_scale, m_r_scale := r_scale }
  if self.m_param.length ≠ 10 then
    .error (Fault.thrown "the parameters list need to be of size 10")
  else .ok self

/-- The default arguments of the constructor: `std::vector<T>(10)`, `t_scale = 1`,
`r_scale = 1`. -/
def newDefault {K : Type} [LinearOrderedField K] : Except Fault (twobody K) :=
  new (List.replicate 10 (0 : K)) 1 1

/-- The derivative computed by `twobody::evaluate` after its checks; `sqrtT` and `expT` are
`sqrt` and `exp` of the component type. -/
def derivative {K : Type} [LinearOrderedField K] (sqrtT expT : K → K) (self : twobody K)
    (state : List K) : Except Fault (List K) := do
  let radius_earth : K := 6378 * 10 ^ 3 / self.m_r_scale
  let mu_earth : K := (3986004415 / 10000) * 10 ^ 9 / (self.m_r_scale ^ 3 / self.m_t_scale ^ 2)
  let omega_earth : K := (72921150 / 10000000) * (1 / 10 ^ 5) * self.m_t_scale
  let H0_atmosphere : K := 900000 / self.m_r_scale
  let r := sqrtT ((← vget state 0) * (← vget state 0) + (← vget state 1) * (← vget state 1)
    + (← vget state 2) * (← vget state 2))
  let tmp_3D := mu_earth / r ^ 3
  let rho := (← vget self.m_param 4)
    * expT (-(r - radius_earth - H0_atmosphere) / (← vget self.m_param 5))
  let rel_v_x := (← vget state 3) - omega_earth * (← vget state 1)
  let rel_v_y := (← vget state 4) + omega_earth * (← vget state 0)
  let mod_rel_v := sqrtT (rel_v_x * rel_v_x + rel_v_y * rel_v_y
    + (← vget state 5) * (← vget state 5))
  let tmp_drag := (1 / 2) * rho * (← vget self.m_param 6) * mod_rel_v / (← vget state 6)
  let dstate : List K := []
  let dstate := dstate ++ [← vget state 3]
  let dstate := dstate ++ [← vget state 4]
  let dstate := dstate ++ [← vget state 5]
  let dstate := dstate ++ [-tmp_3D * (← vget state 0)
    + (← vget self.m_param 0) / (← vget state 6) + (← vget self.m_param 7)
    - tmp_drag * rel_v_x]
  let dstate := dstate ++ [-tmp_3D * (← vget state 1)
    + (← vget self.m_param 1) / (← vget state 6) + (← vget self.m_param 8)
    - tmp_drag * rel_v_y]
  let dstate := dstate ++ [-tmp_3D * (← vget state 2)
    + (← vget self.m_param 2) / (← vget state 6) + (← vget self.m_param 9)
    - tmp_drag * (← vget state 5)]
  let dstate := dstate ++ [-(← vget self.m_param 3)
    * sqrtT ((← vget self.m_param 0) * (← vget self.m_param 0)
      + (← vget self.m_param 1) * (← vget self.m_param 1)
      + (← vget self.m_param 2) * (← vget self.m_param 2))]
  pure dstate

/-- The method `twobody::evaluate(t, state, dstate)`: the outcome of the call and the content
of `dstate` after it, from the content of `dstate` before it. -/
def evaluate {K : Type} [LinearOrderedField K] (sqrtT expT : K → K) (self : twobody K) (t : K)
    (state : List K) (dstate : List K) : Except Fault Int × List K :=
  if t < 0 then
    (.error (Fault.thrown "negative time supplied in evaluation of the dynamical system"),
      dstate)
  else if state.length ≠ 7 then
    (.error (Fault.thrown "the state dimension needs to be 7"), dstate)
  else
    let dstate := vclear dstate
    match derivative sqrtT expT self state with
    | .ok d => (.ok 0, dstate ++ d)
    | .error e => (.error e, dstate)

end twobody

/-! ## Constructors and the remaining entry points of the integrators -/

/-- The constructor `leapfrog_mixedvar(dyn, flag)`; the constructor of the parent
`symplectic_mixedvar`, whose source is not part of the repository files read here, is taken
to store the name and the dynamics, as the constructor of `base_symplectic` does. -/
def leapfrog_mixedvar.new {K : Type} (dyn : hamiltonian_mixedvar K) (flag : Bool) :
    Except Fault (leapfrog_mixedvar K) :=
  let self : leapfrog_mixedvar K := { m_dyn := dyn, m_flag := flag }
  if dyn.is_separable == false then
    .error (Fault.thrown
      "LEAPFROG_MIXEDVAR: symplectic integrator cannot operate on non-separable Hamiltonian")
  else .ok self

/-- The data members that `base_integrationwevent` adds to `base_integrator`. -/
structure base_integrationwevent (K : Type) where
  m_minstep_events : K
  m_maxstep_events : K

/-- The result of the event-aware `integrate`: the final time written through the reference
`tend`, the states written through the reference `x_history`, and the content, when the call
returns, of its own copy of `t_history` (this argument is passed by value). -/
structure EventRun (K : Type) where
  tend : K
  x_history : List (List K)
  t_history : List K

/-- The pure virtual method `integrate(ti, tend, nsteps, x0, x_history, t_history, g)` of
`base_integrationwevent`, implemented by the concrete event-aware schemes. -/
abbrev EventIntegrate (K : Type) :=
  K → K → Int → List K → List (List K) → List K → (List K → K → List Int) →
    Except Fault (EventRun K)

namespace base_integrationwevent

/-- The constructor `base_integrationwevent(name, dyn, minstep_events, maxstep_events)`; the
constructor of the parent `base_integrator` is taken to store the name and the dynamics. -/
def new {K : Type} [LinearOrderedField K] (minstep_events maxstep_events : K) :
    Except Fault (base_integrationwevent K) :=
  let self : base_integrationwevent K :=
    { m_minstep_events := minstep_events, m_maxstep_events := maxstep_events }
  if minstep_events ≤ 0 then
    .error (Fault.thrown "minimum step-size for events must be non negative")
  else if maxstep_events < 0 then
    .error (Fault.thrown "maximum step-size for events must be positive")
  else .ok self

/-- The static method `dummy_event(x, d)`. -/
def dummy_event {K : Type} (_x : List K) (_d : K) : List Int :=
  List.replicate 1 0

/-- The six-argument method `integrate(ti, tend, nsteps, x0, x_history, t_history)`: the
contents of the caller's `x_history` and `t_history` when it returns.  `integrate_events` is
the event-aware overload it calls; the local `double n = nsteps` is converted back to the
same `int` at the call. -/
def integrate {K : Type} (integrate_events : EventIntegrate K) (ti tend : K) (nsteps : Int)
    (x0 : List K) (x_history : List (List K)) (t_history : List K) :
    Except Fault (List (List K) × List K) := do
  let t0 := ti
  let tf := tend
  let n := nsteps
  let x := x0
  let run ← integrate_events t0 tf n x x_history t_history dummy_event
  let x_history := vassign x_history run.x_history
  pure (x_history, t_history)

end base_integrationwevent

/-- The default arguments `minstep_events = 1.0e-4`, `maxstep_events = 0.0` of the
constructor of `rkf45`, as handed to the constructor of `base_integrationwevent`. -/
def rkf45.newDefaultEvents {K : Type} [LinearOrderedField K] :
    Except Fault (base_integrationwevent K) :=
  base_integrationwevent.new (1 / 10 ^ 4) 0

/-- The call `v.back()`. -/
def vback {α : Type} (v : List α) : Except Fault α :=
  match v.getLast? with
  | some a => .ok a
  | none => .error Fault.outOfRange

/-- The overload `rk3<T>::integrate(ti, tend, nsteps, x0, xfinal)`. -/
def rk3.integrate_final {K : Type} [LinearOrderedField K] (m_dyn : Dyn K) (ti tend : K)
    (nsteps : Int) (x0 : List K) (xfinal : List K) : Except Fault (List K) := do
  let x_history : List (List K) := []
  let t_history : List K := []
  let r ← rk3.integrate m_dyn ti tend nsteps x0 x_history t_history
  let xfinal := vassign xfinal (← vback r.x_history)
  pure xfinal

/-- The overload `base_symplectic::integrate(ti, tend, nsteps, x0, xfinal)`. -/
def base_symplectic.integrate_final {K : Type} [LinearOrderedField K]
    (self : base_symplectic K) (ti tend : K) (nsteps : Int) (x0 : List K)
    (xfinal : List K) : Except Fault (List K) := do
  let x_history : List (List K) := []
  let t_history : List K := []
  let r ← base_symplectic.integrate self ti tend nsteps x0 x_history t_history
  let xfinal := vassign xfinal (← vback r.x_history)
  pure xfinal

/-- The right-hand side of the Lotka-Volterra equations with parameters `p`, on the first two
components of `x`. -/
def lotkaVolterraField {K : Type} [LinearOrderedField K] (p : List K) (x : List K) : List K :=
  [p.getD 0 0 * x.getD 0 0 - p.getD 1 0 * (x.getD 0 0 * x.getD 1 0),
   -p.getD 2 0 * x.getD 1 0 + p.getD 3 0 * (x.getD 0 0 * x.getD 1 0)]

/-- A 2x2 matrix acting on `(q, p)`: `q' = a11*q + a12*p`, `p' = a21*q + a22*p`. -/
structure Mat2 (K : Type) where
  a11 : K
  a12 : K
  a21 : K
  a22 : K

/-- The determinant of a 2x2 matrix. -/
def Mat2.det {K : Type} [LinearOrderedField K] (m : Mat2 K) : K :=
  m.a11 * m.a22 - m.a12 * m.a21

/-- The matrix of the first `j` sub-stages of a symplectic step of size `tau` with
coefficients `c`, `d` for the harmonic oscillator (`DHp = p`, `DHq = q`): each sub-stage
maps `(q, p)` to `q' = q + c_j*tau*p`, `p' = p - d_j*tau*q'`. -/
def oscillatorMatrix {K : Type} [LinearOrderedField K] (tau : K) (c d : List K) :
    Nat → Mat2 K
  | 0 => { a11 := 1, a12 := 0, a21 := 0, a22 := 1 }
  | j + 1 =>
    let m := oscillatorMatrix tau c d j
    let cj := c.getD j 0 * tau
    let dj := d.getD j 0 * tau
    { a11 := m.a11 + cj * m.a21,
      a12 := m.a12 + cj * m.a22,
      a21 := m.a21 - dj * (m.a11 + cj * m.a21),
      a22 := m.a22 - dj * (m.a12 + cj * m.a22) }

/-- The equations of motion in the class documentation of `twobody`, on a state
`(x, y, z, v_x, v_y, v_z, m)`: `dx/dt = v`,
`dv/dt = -(mu/r^3)*x + T/m + (1/2)*rho*(C_D A/m)*|v_rel|*v_rel + epsilon` with
`v_rel = (v_x - omega*y, v_y + omega*x, v_z)`, thrust `T = param[0..2]`,
`C_D A = param[6]`, `epsilon = param[7..9]`, and `dm/dt = -alpha*|T|` with
`alpha = param[3]`; the gravitational parameter `mu`, the rotation rate `omega` and the
density `rho` are given. -/
def twobodyEquations {K : Type} [LinearOrderedField K] (sqrtT : K → K) (mu omega rho : K)
    (param state : List K) : List K :=
  let x := state.getD 0 0
  let y := state.getD 1 0
  let z := state.getD 2 0
  let vx := state.getD 3 0
  let vy := state.getD 4 0
  let vz := state.getD 5 0
  let m := state.getD 6 0
  let r := sqrtT (x * x + y * y + z * z)
  let relx := vx - omega * y
  let rely := vy + omega * x
  let relz := vz
  let nrel := sqrtT (relx * relx + rely * rely + relz * relz)
  [vx, vy, vz,
   -(mu / r ^ 3) * x + param.getD 0 0 / m + (1 / 2) * rho * (param.getD 6 0 / m) * nrel * relx
     + param.getD 7 0,
   -(mu / r ^ 3) * y + param.getD 1 0 / m + (1 / 2) * rho * (param.getD 6 0 / m) * nrel * rely
     + param.getD 8 0,
   -(mu / r ^ 3) * z + param.getD 2 0 / m + (1 / 2) * rho * (param.getD 6 0 / m) * nrel * relz
     + param.getD 9 0,
   -param.getD 3 0 * sqrtT (param.getD 0 0 * param.getD 0 0 + param.getD 1 0 * param.getD 1 0
     + param.getD 2 0 * param.getD 2 0)]

/-- The constructor `base_symplectic(name, dyn, order)`: its initialiser list is
`m_name(name), m_dyn(dyn), m_order(order)` and its body is empty, so `m_c` and `m_d` are
default-constructed vectors. -/
def base_symplectic.new {K : Type} (name : String) (dyn : base_hamiltonian K) (order : Int) :
    base_symplectic K :=
  { m_name := name, m_dyn := dyn, m_order := order, m_c := [], m_d := [] }

/-- The quotient `a / b` with the divisor guarded: a zero divisor is reported. -/
def vdiv {K : Type} [LinearOrderedField K] (a b : K) : Except Fault K :=
  if b = 0 then .error Fault.divisionByZero else .ok (a / b)

/-- The computation of `twobody::evaluate` after its checks, statement by statement as in
`twobody.derivative`, with the divisor of every `/` guarded: the outcome is
`Fault.divisionByZero` at the first statement that divides by zero. -/
def twobody.derivative_guarded {K : Type} [LinearOrderedField K] (sqrtT expT : K → K)
    (self : twobody K) (state : List K) : Except Fault (List K) := do
  let radius_earth : K ← vdiv (6378 * 10 ^ 3) self.m_r_scale
  let mu_earth : K ← vdiv ((3986004415 / 10000) * 10 ^ 9)
    (← vdiv (self.m_r_scale ^ 3) (self.m_t_scale ^ 2))
  let omega_earth : K := (72921150 / 10000000) * (1 / 10 ^ 5) * self.m_t_scale
  let H0_atmosphere : K ← vdiv 900000 self.m_r_scale
  let r := sqrtT ((← vget state 0) * (← vget state 0) + (← vget state 1) * (← vget state 1)
    + (← vget state 2) * (← vget state 2))
  let tmp_3D ← vdiv mu_earth (r ^ 3)
  let rho := (← vget self.m_param 4)
    * expT (← vdiv (-(r - radius_earth - H0_atmosphere)) (← vget self.m_param 5))
  let rel_v_x := (← vget state 3) - omega_earth * (← vget state 1)
  let rel_v_y := (← vget state 4) + omega_earth * (← vget state 0)
  let mod_rel_v := sqrtT (rel_v_x * rel_v_x + rel_v_y * rel_v_y
    + (← vget state 5) * (← vget state 5))
  let tmp_drag ← vdiv ((1 / 2) * rho * (← vget self.m_param 6) * mod_rel_v) (← vget state 6)
  let dstate : List K := []
  let dstate := dstate ++ [← vget state 3]
  let dstate := dstate ++ [← vget state 4]
  let dstate := dstate ++ [← vget state 5]
  let dstate := dstate ++ [-tmp_3D * (← vget state 0)
    + (← vdiv (← vget self.m_param 0) (← vget state 6)) + (← vget self.m_param 7)
    - tmp_drag * rel_v_x]
  let dstate := dstate ++ [-tmp_3D * (← vget state 1)
    + (← vdiv (← vget self.m_param 1) (← vget state 6)) + (← vget self.m_param 8)
    - tmp_drag * rel_v_y]
  let dstate := dstate ++ [-tmp_3D * (← vget state 2)
    + (← vdiv (← vget self.m_param 2) (← vget state 6)) + (← vget self.m_param 9)
    - tmp_drag * (← vget state 5)]
  let dstate := dstate ++ [-(← vget self.m_param 3)
    * sqrtT ((← vget self.m_param 0) * (← vget self.m_param 0)
      + (← vget self.m_param 1) * (← vget self.m_param 1)
      + (← vget self.m_param 2) * (← vget self.m_param 2))]
  pure dstate

/-! ## The arithmetic of `double` on times

In every instantiation of the templates the times `ti`, `tend`, `t`, `h` are `double`s,
whatever the component type `T` is.  The definitions below read the same source lines with
the result of every operation between `double`s rounded; the arithmetic of `T` stays exact. -/

/-- The method `rk3<T>::integration_step(t, h, x0, xfinal)` with the operations between
`double`s (`t + h`, `h/2.0`, `h*3.0`, `.../4.0`, `t1 + ...`) rounded by `fl`. -/
def rk3.integration_step_rounded {K : Type} [LinearOrderedField K] (fl : K → K)
    (m_dyn : Dyn K) (t h : K) (x0 : List K) (xfinal : List K) : Except Fault (List K) := do
  let x_temp := x0
  let l := x0.length
  let t1 := fl (t + h)
  let t2 := fl (t1 + fl (h / 2))
  let t3 := fl (t1 + fl (fl (h * 3) / 4))
  let k1 ← m_dyn t1 x0
  let x_temp ← forLoop l
    (fun j xt => do vset xt j ((← vget x0 j) + (← vget k1 j) * h / 2)) x_temp
  let k2 ← m_dyn t2 x_temp
  let x_temp ← forLoop l
    (fun j xt => do vset xt j ((← vget x0 j) + (← vget k2 j) * h * 3 / 4)) x_temp
  let k3 ← m_dyn t3 x_temp
  let xfinal := vassign xfinal x0
  forLoop l
    (fun j xf => do
      vset xf j ((← vget xf j)
        + (2 * (← vget k1 j) + 3 * (← vget k2 j) + 4 * (← vget k3 j)) * h / 9))
    xfinal

/-- One pass through the body of the loop of `base_rungekutta::integrate`, the sum `t += h`
rounded by `fl`. -/
def base_rungekutta.loopBody_rounded {K : Type} [LinearOrderedField K] (fl : K → K)
    (integration_step : Step K) (h : K) (_i : Nat) (s : DriverVars K) :
    Except Fault (DriverVars K) := do
  let x_temp ← integration_step s.t h s.x s.x_temp
  let t := fl (s.t + h)
  let x := vassign s.x x_temp
  pure { t := t, x := x, x_temp := x_temp,
         out := { t_history := s.out.t_history ++ [t],
                  x_history := s.out.x_history ++ [x],
                  calls := s.out.calls ++ [(s.t, h, s.x)] } }

/-- The method `base_rungekutta::integrate(ti, tend, nsteps, x0, x_history, t_history)` with
the operations between `double`s (`tend - ti`, the quotient by `nsteps`, `t += h`) rounded by
`fl`; the conversion of the `int` `nsteps` to `double` is exact. -/
def base_rungekutta.integrate_rounded {K : Type} [LinearOrderedField K] (fl : K → K)
    (integration_step : Step K) (ti tend : K) (nsteps : Int) (x0 : List K)
    (x_history : List (List K)) (t_history : List K) : Except Fault (History K) := do
  let t_history := vclear t_history
  let x_history := vclear x_history
  let h := fl (fl (tend - ti) / (nsteps : K))
  let s ← forLoop nsteps.toNat (base_rungekutta.loopBody_rounded fl integration_step h)
    { t := ti, x := x0, x_temp := x0,
      out := { t_history := t_history, x_history := x_history, calls := [] } }
  pure s.out

/-- One pass through the body of the step loop of `rk4<T>::integrate`, the operations between
`double`s (`i*h`, `ti + ...`, `h/2.0`, `t1 + ...`, `(i+1)*h`) rounded by `fl`; the conversion
of the `int`s `i` and `i+1` to `double` is exact. -/
def rk4.loopBody_rounded {K : Type} [LinearOrderedField K] (fl : K → K) (m_dyn : Dyn K)
    (ti h : K) (n : Nat) (i : Nat) (s : rk4.Locals K) : Except Fault (rk4.Locals K) := do
  let t1 := fl (ti + fl ((i : K) * h))
  let t2 := fl (t1 + fl (h / 2))
  let t3 := fl (t1 + fl (h / 2))
  let t4 := fl (ti + fl (((i + 1 : Nat) : K) * h))
  let k1 ← m_dyn t1 s.x
  let xtemp ← forLoop n
    (fun j xt => do vset xt j ((← vget s.x j) + (← vget k1 j) * h / 2)) s.xtemp
  let k2 ← m_dyn t2 xtemp
  let xtemp ← forLoop n
    (fun j xt => do vset xt j ((← vget s.x j) + (← vget k2 j) * h / 2)) xtemp
  let k3 ← m_dyn t3 xtemp
  let xtemp ← forLoop n
    (fun j xt => do vset xt j ((← vget s.x j) + (← vget k3 j) * h)) xtemp
  let k4 ← m_dyn t4 xtemp
  let x ← forLoop n
    (fun j x => do
      vset x j ((← vget x j)
        + ((← vget k1 j) + 2 * (← vget k2 j) + 2 * (← vget k3 j) + (← vget k4 j)) * h / 6))
    s.x
  pure { x := x, xtemp := xtemp, k1 := k1, k2 := k2, k3 := k3, k4 := k4 }

/-- The method `rk4<T>::integrate(ti, tend, nsteps, x0, xfinal)` with the operations between
`double`s rounded by `fl`. -/
def rk4.integrate_rounded {K : Type} [LinearOrderedField K] (fl : K → K) (m_dyn : Dyn K)
    (ti tend : K) (nsteps : Int) (x0 : List K) (xfinal : List K) :
    Except Fault (List K) := do
  let xfinal : List K := vclear xfinal
  let n := x0.length
  let s0 : rk4.Locals K :=
    { x := x0, xtemp := x0, k1 := x0, k2 := x0, k3 := x0, k4 := x0 }
  let h := fl (fl (tend - ti) / (nsteps : K))
  let s ← forLoop nsteps.toNat (rk4.loopBody_rounded fl m_dyn ti h n) s0
  forLoop x0.length (fun i xf => do pure (xf ++ [← vget s.x i])) xfinal
/-! ## Basic facts about vectors and loops -/

section Basics

variable {K : Type}

@[simp] theorem Except.ok_bind_eq {ε α β : Type} (a : α) (f : α → Except ε β) :
    (Except.ok a >>= f) = f a := rfl

@[simp] theorem Except.error_bind_eq {ε α β : Type} (e : ε) (f : α → Except ε β) :
    ((Except.error e : Except ε α) >>= f) = Except.error e := rfl

@[simp] theorem Except.pure_eq_ok {ε α : Type} (a : α) :
    (pure a : Except ε α) = Except.ok a := rfl

theorem vget_ok (v : List K) (i : Nat) (d : K) (h : i < v.length) :
    vget v i = .ok (v.getD i d) := by
  simp [vget, List.getD, List.getElem?_eq_getElem h]

theorem vset_ok (v : List K) (i : Nat) (a : K) (h : i < v.length) :
    vset v i a = .ok (v.set i a) := by
  simp [vset, h]

@[simp] theorem forLoop_zero {σ : Type} (body : Nat → σ → Except Fault σ) (s : σ) :
    forLoop 0 body s = .ok s := rfl

theorem forLoop_succ {σ : Type} (n : Nat) (body : Nat → σ → Except Fault σ) (s : σ) :
    forLoop (n + 1) body s = forLoop n body s >>= body n := rfl

/-- The vector held after `j` passes of a loop that stores `g i` at index `i`. -/
theorem partial_set (g : Nat → K) (v0 : List K) (j : Nat) (hj : j < v0.length) :
    ((List.range j).map g ++ v0.drop j).set j (g j)
      = (List.range (j + 1)).map g ++ v0.drop (j + 1) := by
  have h1 : ((List.range j).map g).length = j := by simp
  rw [List.set_append_right _ _ (by omega), h1, Nat.sub_self, List.range_succ, List.map_append,
    List.append_assoc]
  congr 1
  rw [List.drop_eq_getElem_cons hj, List.set_cons_zero]
  rfl

theorem partial_getD (g : Nat → K) (v0 : List K) (j : Nat) (d : K) :
    ((List.range j).map g ++ v0.drop j).getD j d = v0.getD j d := by
  simp [List.getD, List.getElem?_append_right]

theorem partial_length (g : Nat → K) (v0 : List K) (j : Nat) (hj : j ≤ v0.length) :
    ((List.range j).map g ++ v0.drop j).length = v0.length := by
  simp; omega

/-- A loop whose pass `j` stores `g j` at index `j` of a vector of length `n` leaves the
vector `[g 0, ..., g (n-1)]`. -/
theorem forLoop_store (n : Nat) (body : Nat → List K → Except Fault (List K)) (g : Nat → K)
    (v0 : List K) (hlen : v0.length = n)
    (hbody : ∀ j, j < n → body j ((List.range j).map g ++ v0.drop j)
      = .ok (((List.range j).map g ++ v0.drop j).set j (g j))) :
    forLoop n body v0 = .ok ((List.range n).map g) := by
  have key : ∀ m, m ≤ n → forLoop m body v0 = .ok ((List.range m).map g ++ v0.drop m) := by
    intro m
    induction m with
    | zero => intro _; simp
    | succ m ih =>
      intro hm
      rw [forLoop_succ, ih (by omega), Except.ok_bind_eq, hbody m (by omega),
        partial_set g v0 m (by omega)]
  have := key n le_rfl
  rw [this, ← hlen]
  simp


@[simp] theorem vsmul_length [Mul K] (c : K) (a : List K) : (vsmul c a).length = a.length := by
  simp [vsmul]

@[simp] theorem vadd_length [Add K] (a b : List K) :
    (vadd a b).length = min a.length b.length := by
  simp [vadd]

@[simp] theorem vsub_length [Sub K] (a b : List K) :
    (vsub a b).length = min a.length b.length := by
  simp [vsub]

theorem vsmul_getD [MulZeroClass K] (c : K) (a : List K) (j : Nat) :
    (vsmul c a).getD j 0 = c * a.getD j 0 := by
  simp only [vsmul, List.getD_eq_getElem?_getD, List.getElem?_map]
  cases a[j]? <;> simp

theorem vadd_getD [AddZeroClass K] (a b : List K) (j : Nat) (h : a.length = b.length) :
    (vadd a b).getD j 0 = a.getD j 0 + b.getD j 0 := by
  simp only [vadd, List.getD_eq_getElem?_getD, List.getElem?_zipWith]
  by_cases hj : j < a.length
  · have hb : j < b.length := h ▸ hj
    simp [List.getElem?_eq_getElem hj, List.getElem?_eq_getElem hb]
  · have hb : ¬ j < b.length := h ▸ hj
    simp [List.getElem?_eq_none (not_lt.mp hj), List.getElem?_eq_none (not_lt.mp hb)]

/-- A vector of length `n` is the list of its components. -/
theorem range_map_getD [Zero K] (n : Nat) (F : Nat → K) (L : List K) (hL : L.length = n)
    (h : ∀ j, j < n → F j = L.getD j 0) : (List.range n).map F = L := by
  apply List.ext_getElem
  · simp [hL]
  · intro j h1 h2
    simp only [List.getElem_map, List.getElem_range]
    rw [h j (by simpa using h1), List.getD_eq_getElem _ _ h2]

theorem forLoop_store_eq {K : Type} [Zero K] (n : Nat) (body : Nat → List K → Except Fault (List K))
    (L v0 : List K) (hlen : v0.length = n) (hL : L.length = n)
    (hbody : ∀ j, j < n → ∀ v : List K, v.length = n → v.getD j 0 = v0.getD j 0 →
      body j v = .ok (v.set j (L.getD j 0))) :
    forLoop n body v0 = .ok L := by
  rw [forLoop_store n body (fun j => L.getD j 0) v0 hlen]
  · rw [range_map_getD n _ L hL (fun _ _ => rfl)]
  · intro j hj
    exact hbody j hj _ (by rw [partial_length _ _ _ (by omega), hlen]) (partial_getD _ _ _ _)

theorem forLoop_invariant {σ : Type} (P : Nat → σ → Prop) (n : Nat)
    (body : Nat → σ → Except Fault σ) (s0 : σ) (h0 : P 0 s0)
    (hstep : ∀ j, j < n → ∀ s, P j s → ∃ s1, body j s = .ok s1 ∧ P (j + 1) s1) :
    ∃ s, forLoop n body s0 = .ok s ∧ P n s := by
  have key : ∀ m, m ≤ n → ∃ s, forLoop m body s0 = .ok s ∧ P m s := by
    intro m
    induction m with
    | zero => intro _; exact ⟨s0, rfl, h0⟩
    | succ m ih =>
      intro hm
      obtain ⟨s, hs, hP⟩ := ih (by omega)
      obtain ⟨s1, h1, hP1⟩ := hstep m (by omega) s hP
      exact ⟨s1, by rw [forLoop_succ, hs, Except.ok_bind_eq, h1], hP1⟩
  exact key n le_rfl

theorem vsub_getD [SubNegZeroMonoid K] (a b : List K) (j : Nat) (h : a.length = b.length) :
    (vsub a b).getD j 0 = a.getD j 0 - b.getD j 0 := by
  simp only [vsub, List.getD_eq_getElem?_getD, List.getElem?_zipWith]
  by_cases hj : j < a.length
  · have hb : j < b.length := h ▸ hj
    simp [List.getElem?_eq_getElem hj, List.getElem?_eq_getElem hb]
  · have hb : ¬ j < b.length := h ▸ hj
    simp [List.getElem?_eq_none (not_lt.mp hj), List.getElem?_eq_none (not_lt.mp hb)]

theorem map_getD_zero [Zero K] (f : K → K) (hf : f 0 = 0) (a : List K) (j : Nat) :
    (a.map f).getD j 0 = f (a.getD j 0) := by
  simp only [List.getD_eq_getElem?_getD, List.getElem?_map]
  cases a[j]? <;> simp [hf]

theorem vget_set_self (v : List K) (j : Nat) (a : K) (h : j < v.length) :
    vget (v.set j a) j = .ok a := by
  simp [vget, List.getElem?_set, h]

end Basics

section RK4
variable {K : Type} [LinearOrderedField K]

theorem rk4_loopBody_total (g : K → List K → List K)
    (hdim : ∀ t x, (g t x).length = x.length) (ti h : K) (i : Nat) (s : rk4.Locals K)
    (hxt : s.xtemp.length = s.x.length) :
    ∃ s1, rk4.loopBody (Dyn.total g) ti h s.x.length i s = .ok s1
      ∧ s1.x = rk4ClassicalStep g h (ti + (i : K) * h) s.x
      ∧ s1.xtemp.length = s.x.length := by
  have e1 : ∀ (k xt : List K), k.length = s.x.length → xt.length = s.x.length →
      forLoop s.x.length
      (fun j xt => do vset xt j ((← vget s.x j) + (← vget k j) * h / 2)) xt
      = .ok (vadd s.x (vsmul (h / 2) k)) := by
    intro k xt hk hxt
    apply forLoop_store_eq _ _ _ _ hxt (by simp [hk])
    intro j hj v hv hvj
    simp only [vget_ok _ _ (0 : K) hj, vget_ok _ _ (0 : K) (hk ▸ hj), Except.ok_bind_eq,
      vset_ok _ _ _ (hv ▸ hj), vadd_getD _ _ _ ((vsmul_length _ k).trans hk).symm, vsmul_getD]
    congr 2; ring
  have e2 : ∀ (k xt : List K), k.length = s.x.length → xt.length = s.x.length →
      forLoop s.x.length
      (fun j xt => do vset xt j ((← vget s.x j) + (← vget k j) * h)) xt
      = .ok (vadd s.x (vsmul h k)) := by
    intro k xt hk hxt
    apply forLoop_store_eq _ _ _ _ hxt (by simp [hk])
    intro j hj v hv hvj
    simp only [vget_ok _ _ (0 : K) hj, vget_ok _ _ (0 : K) (hk ▸ hj), Except.ok_bind_eq,
      vset_ok _ _ _ (hv ▸ hj), vadd_getD _ _ _ ((vsmul_length _ k).trans hk).symm, vsmul_getD]
    congr 2; ring
  have e3 : ∀ (k1 k2 k3 k4 : List K), k1.length = s.x.length → k2.length = s.x.length →
      k3.length = s.x.length → k4.length = s.x.length →
      forLoop s.x.length
      (fun j x => do
        vset x j ((← vget x j)
          + ((← vget k1 j) + 2 * (← vget k2 j) + 2 * (← vget k3 j) + (← vget k4 j)) * h / 6))
      s.x
      = .ok (vadd s.x (vsmul (h / 6) (vadd (vadd (vadd k1 (vsmul 2 k2)) (vsmul 2 k3)) k4))) := by
    intro k1 k2 k3 k4 h1 h2 h3 h4
    apply forLoop_store_eq _ _ _ _ rfl (by simp [h1, h2, h3, h4])
    intro j hj v hv hvj
    simp only [vget_ok _ _ (0 : K) (hv ▸ hj), vget_ok _ _ (0 : K) (h1 ▸ hj),
      vget_ok _ _ (0 : K) (h2 ▸ hj), vget_ok _ _ (0 : K) (h3 ▸ hj),
      vget_ok _ _ (0 : K) (h4 ▸ hj), Except.ok_bind_eq, vset_ok _ _ _ (hv ▸ hj), hvj]
    rw [vadd_getD _ _ _ (by simp [h1, h2, h3, h4]), vsmul_getD,
      vadd_getD _ _ _ (by simp [h1, h2, h3, h4]), vadd_getD _ _ _ (by simp [h1, h2, h3, h4]),
      vadd_getD _ _ _ (by simp [h1, h2, h3, h4]), vsmul_getD, vsmul_getD]
    congr 2; ring
  simp only [rk4.loopBody, Dyn.total, Except.ok_bind_eq]
  rw [e1 _ _ (hdim _ _) hxt]
  simp only [Except.ok_bind_eq]
  rw [e1 _ _ (by simp [hdim]) (by simp [hdim])]
  simp only [Except.ok_bind_eq]
  rw [e2 _ _ (by simp [hdim]) (by simp [hdim])]
  simp only [Except.ok_bind_eq]
  rw [e3 _ _ _ _ (by simp [hdim]) (by simp [hdim]) (by simp [hdim]) (by simp [hdim])]
  refine ⟨_, rfl, ?_, ?_⟩
  · simp only [rk4ClassicalStep]
    push_cast
    have : ti + (↑i + 1) * h = ti + ↑i * h + h := by ring
    rw [this]
  · simp [hdim]

theorem rk4ClassicalStep_length (g : K → List K → List K)
    (hdim : ∀ t x, (g t x).length = x.length) (h t : K) (x : List K) :
    (rk4ClassicalStep g h t x).length = x.length := by
  simp [rk4ClassicalStep, hdim]

theorem rk4Classical_length (g : K → List K → List K)
    (hdim : ∀ t x, (g t x).length = x.length) (ti h : K) (m : Nat) (x : List K) :
    (rk4Classical g ti h m x).length = x.length := by
  induction m with
  | zero => rfl
  | succ m ih => rw [rk4Classical, rk4ClassicalStep_length g hdim, ih]

/-- The copy loop `for (i = 0; i < n; i++) out.push_back(v[i])`. -/
theorem forLoop_push_back {K : Type} (v : List K) (n : Nat) (hn : n ≤ v.length) (acc : List K) :
    forLoop n (fun i xf => do pure (xf ++ [← vget v i])) acc = .ok (acc ++ v.take n) := by
  induction n with
  | zero => simp
  | succ n ih =>
    rw [forLoop_succ, ih (by omega), Except.ok_bind_eq]
    have hlt : n < v.length := by omega
    simp only [vget, List.getElem?_eq_getElem hlt, Except.ok_bind_eq, Except.pure_eq_ok]
    rw [List.append_assoc, List.take_succ, List.getElem?_eq_getElem hlt]
    rfl

theorem rk4_steps_total (g : K → List K → List K)
    (hdim : ∀ t x, (g t x).length = x.length) (ti h : K) (x0 : List K) (m : Nat) :
    ∃ s, forLoop m (rk4.loopBody (Dyn.total g) ti h x0.length)
        { x := x0, xtemp := x0, k1 := x0, k2 := x0, k3 := x0, k4 := x0 } = .ok s
      ∧ s.x = rk4Classical g ti h m x0 ∧ s.xtemp.length = x0.length := by
  induction m with
  | zero => exact ⟨_, rfl, rfl, rfl⟩
  | succ m ih =>
    obtain ⟨s, hs, hx, hxt⟩ := ih
    have hlen : s.x.length = x0.length := by rw [hx, rk4Classical_length g hdim]
    obtain ⟨s1, h1, h2, h3⟩ := rk4_loopBody_total g hdim ti h m s (by rw [hxt, hlen])
    refine ⟨s1, ?_, ?_, ?_⟩
    · rw [forLoop_succ, hs, Except.ok_bind_eq, ← hlen, h1]
    · rw [h2, hx, rk4Classical]
    · rw [h3, hlen]

theorem rk4_integrate_total (g : K → List K → List K)
    (hdim : ∀ t x, (g t x).length = x.length) (ti tend : K) (nsteps : Int)
    (x0 xfinal : List K) :
    rk4.integrate (Dyn.total g) ti tend nsteps x0 xfinal
      = .ok (rk4Classical g ti ((tend - ti) / (nsteps : K)) nsteps.toNat x0) := by
  obtain ⟨s, hs, hx, _⟩ :=
    rk4_steps_total g hdim ti ((tend - ti) / (nsteps : K)) x0 nsteps.toNat
  have hlen : s.x.length = x0.length := by rw [hx, rk4Classical_length g hdim]
  simp only [rk4.integrate, hs, Except.ok_bind_eq, vclear]
  rw [forLoop_push_back s.x _ (by omega), ← hlen, List.take_length, hx]
  rfl

end RK4

section RK3
variable {K : Type} [LinearOrderedField K]

theorem rk3TextbookStep_length (g : K → List K → List K)
    (hdim : ∀ t x, (g t x).length = x.length) (h t : K) (x : List K) :
    (rk3TextbookStep g h t x).length = x.length := by
  simp [rk3TextbookStep, hdim]

/-- What `rk3<T>::integration_step` computes: the textbook step with every stage time moved
forward by `h` (the first stage is evaluated at `t + h`). -/
theorem rk3_step_total (g : K → List K → List K)
    (hdim : ∀ t x, (g t x).length = x.length) (t h : K) (x0 xfinal : List K) :
    rk3.integration_step (Dyn.total g) t h x0 xfinal
      = .ok (rk3TextbookStep g h (t + h) x0) := by
  have e1 : ∀ (k xt : List K), k.length = x0.length → xt.length = x0.length →
      forLoop x0.length
      (fun j xt => do vset xt j ((← vget x0 j) + (← vget k j) * h / 2)) xt
      = .ok (vadd x0 (vsmul (h / 2) k)) := by
    intro k xt hk hxt
    apply forLoop_store_eq _ _ _ _ hxt (by simp [hk])
    intro j hj v hv hvj
    simp only [vget_ok _ _ (0 : K) hj, vget_ok _ _ (0 : K) (hk ▸ hj), Except.ok_bind_eq,
      vset_ok _ _ _ (hv ▸ hj), vadd_getD _ _ _ ((vsmul_length _ k).trans hk).symm, vsmul_getD]
    congr 2; ring
  have e2 : ∀ (k xt : List K), k.length = x0.length → xt.length = x0.length →
      forLoop x0.length
      (fun j xt => do vset xt j ((← vget x0 j) + (← vget k j) * h * 3 / 4)) xt
      = .ok (vadd x0 (vsmul (3 * h / 4) k)) := by
    intro k xt hk hxt
    apply forLoop_store_eq _ _ _ _ hxt (by simp [hk])
    intro j hj v hv hvj
    simp only [vget_ok _ _ (0 : K) hj, vget_ok _ _ (0 : K) (hk ▸ hj), Except.ok_bind_eq,
      vset_ok _ _ _ (hv ▸ hj), vadd_getD _ _ _ ((vsmul_length _ k).trans hk).symm, vsmul_getD]
    congr 2; ring
  have e3 : ∀ (k1 k2 k3 : List K), k1.length = x0.length → k2.length = x0.length →
      k3.length = x0.length →
      forLoop x0.length
      (fun j xf => do
        vset xf j ((← vget xf j)
          + (2 * (← vget k1 j) + 3 * (← vget k2 j) + 4 * (← vget k3 j)) * h / 9))
      x0
      = .ok (vadd x0 (vsmul (h / 9) (vadd (vadd (vsmul 2 k1) (vsmul 3 k2)) (vsmul 4 k3)))) := by
    intro k1 k2 k3 h1 h2 h3
    apply forLoop_store_eq _ _ _ _ rfl (by simp [h1, h2, h3])
    intro j hj v hv hvj
    simp only [vget_ok _ _ (0 : K) (hv ▸ hj), vget_ok _ _ (0 : K) (h1 ▸ hj),
      vget_ok _ _ (0 : K) (h2 ▸ hj), vget_ok _ _ (0 : K) (h3 ▸ hj),
      Except.ok_bind_eq, vset_ok _ _ _ (hv ▸ hj), hvj]
    simp only [vadd_getD, vsmul_getD, vadd_length, vsmul_length, h1, h2, h3, min_self]
    congr 2; ring
  simp only [rk3.integration_step, Dyn.total, Except.ok_bind_eq, vassign]
  rw [e1 _ _ (hdim _ _) rfl]
  simp only [Except.ok_bind_eq]
  rw [e2 _ _ (by simp [hdim]) (by simp [hdim])]
  simp only [Except.ok_bind_eq]
  rw [e3 _ _ _ (by simp [hdim]) (by simp [hdim]) (by simp [hdim])]
  simp only [rk3TextbookStep]
  have : t + h + h * 3 / 4 = t + h + 3 * h / 4 := by ring
  rw [this]

end RK3

/-- C2. On the dynamics `f(t, x) = (t)`, from `t = 0`, `x0 = (0)` with `h = 1`, the
textbook 3-stage tableau (stages at `t`, `t + h/2`, `t + 3h/4`) gives `1/2`, but
`rk3::integration_step` returns `3/2`: its three stages are evaluated at `t + h`,
`t + 3h/2` and `t + 7h/4`. -/
theorem rk3_integration_step_stage_times :
    rk3.integration_step (Dyn.total (fun (t : ℚ) _ => [t])) 0 1 [0] [] = .ok [3 / 2]
      ∧ rk3TextbookStep (fun (t : ℚ) _ => [t]) 1 0 [0] = [1 / 2] := by
  constructor
  · simp only [rk3.integration_step, Dyn.total, Except.ok_bind_eq, vassign, forLoop, vget, vset]
    norm_num
  · norm_num [rk3TextbookStep, vadd, vsmul]

section RKF45
variable {K : Type} [LinearOrderedField K]

theorem sqDist_eq_range (a b : List K) (n : Nat) (ha : a.length = n) (hb : b.length = n) :
    ((List.range n).map (fun i => (a.getD i 0 - b.getD i 0) ^ 2)).sum = sqDist a b := by
  rw [sqDist, range_map_getD n _ ((vsub a b).map (· ^ 2)) (by simp [ha, hb])]
  intro j _
  rw [map_getD_zero _ (by simp), vsub_getD _ _ _ (ha.trans hb.symm)]

theorem sqDist_cons (a b : K) (as bs : List K) :
    sqDist (a :: as) (b :: bs) = (a - b) ^ 2 + sqDist as bs := by
  simp [sqDist, vsub]

theorem sqDist_nonneg (a b : List K) : 0 ≤ sqDist a b := by
  induction a generalizing b with
  | nil => simp [sqDist, vsub]
  | cons a as ih =>
    cases b with
    | nil => simp [sqDist, vsub]
    | cons b bs =>
      rw [sqDist_cons]
      exact add_nonneg (sq_nonneg _) (ih bs)

theorem sqDist_eq_zero_iff (a b : List K) (h : a.length = b.length) :
    sqDist a b = 0 ↔ a = b := by
  induction a generalizing b with
  | nil =>
    cases b with
    | nil => simp [sqDist, vsub]
    | cons b bs => simp at h
  | cons a as ih =>
    cases b with
    | nil => simp at h
    | cons b bs =>
      have hlen : as.length = bs.length := by simpa using h
      rw [sqDist_cons, add_eq_zero_iff_of_nonneg (sq_nonneg _) (sqDist_nonneg _ _), ih bs hlen,
        List.cons.injEq, sq_eq_zero_iff, sub_eq_zero]

theorem fehlbergOrder4_length (g : K → List K → List K)
    (hdim : ∀ t x, (g t x).length = x.length) (h t : K) (x : List K) :
    (fehlbergOrder4 g h t x).length = x.length := by
  simp [fehlbergOrder4, fehlbergStages, hdim]

theorem fehlbergOrder5_length (g : K → List K → List K)
    (hdim : ∀ t x, (g t x).length = x.length) (h t : K) (x : List K) :
    (fehlbergOrder5 g h t x).length = x.length := by
  simp [fehlbergOrder5, fehlbergStages, hdim]

/-- The last loop of `rkf45::integration_step`: it leaves the two updates in `xbar` and
`xfinal` and adds the squared distance between them to `er`. -/
theorem rkf45_final_loop (h : K) (x0 k1 k3 k4 k5 k6 : List K) (er0 : K)
    (h1 : k1.length = x0.length) (h3 : k3.length = x0.length) (h4 : k4.length = x0.length)
    (h5 : k5.length = x0.length) (h6 : k6.length = x0.length) (L5 L4 : List K)
    (hL5 : L5 = vadd x0 (vsmul h (vadd (vadd (vadd (vadd (vsmul (16 / 135) k1)
      (vsmul (6656 / 12825) k3)) (vsmul (28561 / 56430) k4)) (vsmul (-9 / 50) k5))
      (vsmul (2 / 55) k6))))
    (hL4 : L4 = vadd x0 (vsmul h (vadd (vadd (vadd (vsmul (25 / 216) k1)
      (vsmul (1408 / 2565) k3)) (vsmul (2197 / 4104) k4)) (vsmul (-1 / 5) k5)))) :
    ∃ s, forLoop x0.length (rkf45.updateBody h k1 k3 k4 k5 k6)
      ({ xbar := x0, xfinal := x0, er := er0 } : rkf45.Acc K) = .ok s
      ∧ s.xfinal = L4 ∧ s.er = er0 + sqDist L5 L4 := by
  have l5 : L5.length = x0.length := by simp [hL5, h1, h3, h4, h5, h6]
  have l4 : L4.length = x0.length := by simp [hL4, h1, h3, h4, h5]
  obtain ⟨s, hs, hP⟩ := forLoop_invariant
    (fun j (s : rkf45.Acc K) =>
      s.xbar = (List.range j).map (fun i => L5.getD i 0) ++ x0.drop j
      ∧ s.xfinal = (List.range j).map (fun i => L4.getD i 0) ++ x0.drop j
      ∧ s.er = er0 + ((List.range j).map (fun i => (L5.getD i 0 - L4.getD i 0) ^ 2)).sum)
    x0.length (rkf45.updateBody h k1 k3 k4 k5 k6)
    ({ xbar := x0, xfinal := x0, er := er0 } : rkf45.Acc K)
    (by simp)
    (by
      intro j hj s hP
      obtain ⟨xb, xf, e⟩ := s
      obtain ⟨hb, hf, he⟩ := hP
      simp only at hb hf he
      subst hb hf he
      have hlb : j < ((List.range j).map (fun i => L5.getD i 0) ++ x0.drop j).length := by
        rw [partial_length _ _ _ hj.le]; exact hj
      have hlf : j < ((List.range j).map (fun i => L4.getD i 0) ++ x0.drop j).length := by
        rw [partial_length _ _ _ hj.le]; exact hj
      have v5 : x0.getD j 0 + (k1.getD j 0 * 16 / 135 + k3.getD j 0 * 6656 / 12825
          + k4.getD j 0 * 28561 / 56430 - k5.getD j 0 * 9 / 50 + k6.getD j 0 * 2 / 55) * h
          = L5.getD j 0 := by
        rw [hL5]
        simp only [vadd_getD, vsmul_getD, vadd_length, vsmul_length, h1, h3, h4, h5, h6,
          min_self]
        ring
      have v4 : x0.getD j 0 + (k1.getD j 0 * 25 / 216 + k3.getD j 0 * 1408 / 2565
          + k4.getD j 0 * 2197 / 4104 - k5.getD j 0 / 5) * h = L4.getD j 0 := by
        rw [hL4]
        simp only [vadd_getD, vsmul_getD, vadd_length, vsmul_length, h1, h3, h4, h5,
          min_self]
        ring
      simp only [rkf45.updateBody, vget_ok _ _ (0 : K) hlb, vget_ok _ _ (0 : K) hlf,
        vget_ok _ _ (0 : K) (h1 ▸ hj), vget_ok _ _ (0 : K) (h3 ▸ hj),
        vget_ok _ _ (0 : K) (h4 ▸ hj), vget_ok _ _ (0 : K) (h5 ▸ hj),
        vget_ok _ _ (0 : K) (h6 ▸ hj), Except.ok_bind_eq, vset_ok _ _ _ hlb,
        vset_ok _ _ _ hlf, partial_getD, v5, v4, vget_set_self _ _ _ hlb,
        vget_set_self _ _ _ hlf, Except.pure_eq_ok]
      refine ⟨_, rfl, ?_, ?_, ?_⟩
      · exact partial_set (fun i => L5.getD i 0) x0 j hj
      · exact partial_set (fun i => L4.getD i 0) x0 j hj
      · simp only [List.range_succ, List.map_append, List.sum_append, List.map_cons,
          List.map_nil, List.sum_cons, List.sum_nil]
        ring)
  obtain ⟨_, hf, he⟩ := hP
  refine ⟨s, hs, ?_, ?_⟩
  · rw [hf, List.drop_length, List.append_nil]
    exact range_map_getD _ _ _ l4 (fun _ _ => rfl)
  · rw [he, sqDist_eq_range _ _ _ l5 l4]

/-- What `rkf45::integration_step` returns for a total, dimension-preserving dynamics and a
non-empty state: the fourth-order update and `sqrtT` of its squared distance to the
fifth-order update. -/
theorem rkf45_step_total (sqrtT : K → K) (g : K → List K → List K)
    (hdim : ∀ t x, (g t x).length = x.length) (ti : K) (m : Nat) (h : K) (x0 : List K)
    (hx0 : x0 ≠ []) (f : List (List K)) (xfinal : List K) (er : K) :
    rkf45.integration_step sqrtT (Dyn.total g) ti m h x0 f xfinal er
      = .ok (fehlbergOrder4 g h ti x0,
          sqrtT (sqDist (fehlbergOrder5 g h ti x0) (fehlbergOrder4 g h ti x0))) := by
  have hpos : 0 < x0.length := List.length_pos.mpr hx0
  have e2 : ∀ (k1 xt : List K), k1.length = x0.length → xt.length = x0.length →
      forLoop x0.length
      (fun j xt => do vset xt j ((← vget x0 j) + (← vget k1 j) * h / 4)) xt
      = .ok (vadd x0 (vsmul h (vsmul (1 / 4) k1))) := by
    intro k1 xt h1 hxt
    apply forLoop_store_eq _ _ _ _ hxt (by simp [h1])
    intro j hj v hv hvj
    simp only [vget_ok _ _ (0 : K) hj, vget_ok _ _ (0 : K) (h1 ▸ hj), Except.ok_bind_eq,
      vset_ok _ _ _ (hv ▸ hj)]
    simp only [vadd_getD, vsmul_getD, vadd_length, vsmul_length, h1, min_self]
    congr 2; ring
  have e3 : ∀ (k1 k2 xt : List K), k1.length = x0.length → k2.length = x0.length →
      xt.length = x0.length →
      forLoop x0.length
      (fun j xt => do
        vset xt j ((← vget x0 j) + (← vget k1 j) * h * 3 / 32 + (← vget k2 j) * h * 9 / 32))
      xt
      = .ok (vadd x0 (vsmul h (vadd (vsmul (3 / 32) k1) (vsmul (9 / 32) k2)))) := by
    intro k1 k2 xt h1 h2 hxt
    apply forLoop_store_eq _ _ _ _ hxt (by simp [h1, h2])
    intro j hj v hv hvj
    simp only [vget_ok _ _ (0 : K) hj, vget_ok _ _ (0 : K) (h1 ▸ hj),
      vget_ok _ _ (0 : K) (h2 ▸ hj), Except.ok_bind_eq, vset_ok _ _ _ (hv ▸ hj)]
    simp only [vadd_getD, vsmul_getD, vadd_length, vsmul_length, h1, h2, min_self]
    congr 2; ring
  have e4 : ∀ (k1 k2 k3 xt : List K), k1.length = x0.length → k2.length = x0.length →
      k3.length = x0.length → xt.length = x0.length →
      forLoop x0.length
      (fun j xt => do
        vset xt j ((← vget x0 j) + (← vget k1 j) * h * 1932 / 2197
          - (← vget k2 j) * h * 7200 / 2197 + (← vget k3 j) * h * 7296 / 2197))
      xt
      = .ok (vadd x0 (vsmul h (vadd (vadd (vsmul (1932 / 2197) k1) (vsmul (-7200 / 2197) k2))
          (vsmul (7296 / 2197) k3)))) := by
    intro k1 k2 k3 xt h1 h2 h3 hxt
    apply forLoop_store_eq _ _ _ _ hxt (by simp [h1, h2, h3])
    intro j hj v hv hvj
    simp only [vget_ok _ _ (0 : K) hj, vget_ok _ _ (0 : K) (h1 ▸ hj),
      vget_ok _ _ (0 : K) (h2 ▸ hj), vget_ok _ _ (0 : K) (h3 ▸ hj), Except.ok_bind_eq,
      vset_ok _ _ _ (hv ▸ hj)]
    simp only [vadd_getD, vsmul_getD, vadd_length, vsmul_length, h1, h2, h3, min_self]
    congr 2; ring
  have e5 : ∀ (k1 k2 k3 k4 xt : List K), k1.length = x0.length → k2.length = x0.length →
      k3.length = x0.length → k4.length = x0.length → xt.length = x0.length →
      forLoop x0.length
      (fun j xt => do
        vset xt j ((← vget x0 j) + (← vget k1 j) * h * 439 / 216 - (← vget k2 j) * h * 8
          + (← vget k3 j) * h * 3680 / 513 - (← vget k4 j) * h * 845 / 4104))
      xt
      = .ok (vadd x0 (vsmul h (vadd (vadd (vadd (vsmul (439 / 216) k1) (vsmul (-8) k2))
          (vsmul (3680 / 513) k3)) (vsmul (-845 / 4104) k4)))) := by
    intro k1 k2 k3 k4 xt h1 h2 h3 h4 hxt
    apply forLoop_store_eq _ _ _ _ hxt (by simp [h1, h2, h3, h4])
    intro j hj v hv hvj
    simp only [vget_ok _ _ (0 : K) hj, vget_ok _ _ (0 : K) (h1 ▸ hj),
      vget_ok _ _ (0 : K) (h2 ▸ hj), vget_ok _ _ (0 : K) (h3 ▸ hj),
      vget_ok _ _ (0 : K) (h4 ▸ hj), Except.ok_bind_eq, vset_ok _ _ _ (hv ▸ hj)]
    simp only [vadd_getD, vsmul_getD, vadd_length, vsmul_length, h1, h2, h3, h4, min_self]
    congr 2; ring
  have e6 : ∀ (k1 k2 k3 k4 k5 xt : List K), k1.length = x0.length → k2.length = x0.length →
      k3.length = x0.length → k4.length = x0.length → k5.length = x0.length →
      xt.length = x0.length →
      forLoop x0.length
      (fun j xt => do
        vset xt j ((← vget x0 j) - (← vget k1 j) * h * 8 / 27 + (← vget k2 j) * h * 2
          - (← vget k3 j) * h * 3544 / 2565 + (← vget k4 j) * h * 1859 / 4104
          - (← vget k5 j) * h * 11 / 40))
      xt
      = .ok (vadd x0 (vsmul h (vadd (vadd (vadd (vadd (vsmul (-8 / 27) k1) (vsmul 2 k2))
          (vsmul (-3544 / 2565) k3)) (vsmul (1859 / 4104) k4)) (vsmul (-11 / 40) k5)))) := by
    intro k1 k2 k3 k4 k5 xt h1 h2 h3 h4 h5 hxt
    apply forLoop_store_eq _ _ _ _ hxt (by simp [h1, h2, h3, h4, h5])
    intro j hj v hv hvj
    simp only [vget_ok _ _ (0 : K) hj, vget_ok _ _ (0 : K) (h1 ▸ hj),
      vget_ok _ _ (0 : K) (h2 ▸ hj), vget_ok _ _ (0 : K) (h3 ▸ hj),
      vget_ok _ _ (0 : K) (h4 ▸ hj), vget_ok _ _ (0 : K) (h5 ▸ hj), Except.ok_bind_eq,
      vset_ok _ _ _ (hv ▸ hj)]
    simp only [vadd_getD, vsmul_getD, vadd_length, vsmul_length, h1, h2, h3, h4, h5, min_self]
    congr 2; ring
  have t3 : ti + h * 3 / 8 = ti + 3 * h / 8 := by ring
  have t4 : ti + h * 12 / 13 = ti + 12 * h / 13 := by ring
  simp only [rkf45.integration_step, Dyn.total, Except.ok_bind_eq, vassign, t3, t4]
  rw [e2 _ _ (hdim _ _) rfl]
  simp only [Except.ok_bind_eq]
  rw [e3 _ _ _ (hdim _ _) (by simp [hdim]) (by simp [hdim])]
  simp only [Except.ok_bind_eq]
  rw [e4 _ _ _ _ (hdim _ _) (by simp [hdim]) (by simp [hdim]) (by simp [hdim])]
  simp only [Except.ok_bind_eq]
  rw [e5 _ _ _ _ _ (hdim _ _) (by simp [hdim]) (by simp [hdim]) (by simp [hdim])
    (by simp [hdim])]
  simp only [Except.ok_bind_eq]
  rw [e6 _ _ _ _ _ _ (hdim _ _) (by simp [hdim]) (by simp [hdim]) (by simp [hdim])
    (by simp [hdim]) (by simp [hdim])]
  simp only [Except.ok_bind_eq, vget_ok _ _ (0 : K) hpos]
  obtain ⟨s, hs, hf, he⟩ := rkf45_final_loop h x0 (fehlbergStages g h ti x0).k1
    (fehlbergStages g h ti x0).k3 (fehlbergStages g h ti x0).k4 (fehlbergStages g h ti x0).k5
    (fehlbergStages g h ti x0).k6 (0 * x0.getD 0 0)
    (by simp [fehlbergStages, hdim]) (by simp [fehlbergStages, hdim])
    (by simp [fehlbergStages, hdim]) (by simp [fehlbergStages, hdim])
    (by simp [fehlbergStages, hdim]) (fehlbergOrder5 g h ti x0) (fehlbergOrder4 g h ti x0)
    rfl rfl
  simp only [fehlbergStages] at hs
  rw [hs]
  simp only [Except.ok_bind_eq, Except.pure_eq_ok, hf, he, zero_mul, zero_add]

end RKF45

theorem symplectic_split {K : Type} (n : Nat) (x0 : List K) (hx0 : x0.length = 2 * n) :
    base_symplectic.split n x0 = .ok (x0.take n, x0.drop n) := by
  obtain ⟨s, hs, hP⟩ := forLoop_invariant
    (fun m (qp : List K × List K) => qp = (x0.take m, (x0.drop n).take m)) n
    (fun i (qp : List K × List K) => do
      let q0 := qp.1 ++ [← vget x0 i]
      let p0 := qp.2 ++ [← vget x0 (i + n)]
      pure (q0, p0))
    ([], []) (by simp)
    (by
      intro j hj s hP
      subst hP
      have h1 : j < x0.length := by omega
      have h2 : j + n < x0.length := by omega
      have h3 : j < (x0.drop n).length := by simp; omega
      simp only [vget, List.getElem?_eq_getElem h1, List.getElem?_eq_getElem h2,
        Except.ok_bind_eq, Except.pure_eq_ok]
      refine ⟨_, rfl, ?_⟩
      rw [List.take_succ, List.take_succ, List.getElem?_eq_getElem h1,
        List.getElem?_eq_getElem h3, List.getElem_drop]
      simp [Nat.add_comm])
  rw [base_symplectic.split, hs, hP]
  congr 2
  rw [List.take_of_length_le (by simp; omega)]

theorem symplectic_join {K : Type} (n : Nat) (q p xfinal : List K) (hq : q.length = n)
    (hp : p.length = n) : base_symplectic.join n q p xfinal = .ok (q ++ p) := by
  simp only [base_symplectic.join, vclear]
  rw [forLoop_push_back q n (by omega), Except.ok_bind_eq, forLoop_push_back p n (by omega)]
  rw [← hq, List.take_length, hq, ← hp, List.take_length]
  rfl

section Symplectic
variable {K : Type} [LinearOrderedField K]

theorem symplecticSubstage_length (DHq DHp : K → List K → List K → List K) (n : Nat)
    (hhq : ∀ t q p, q.length = n → p.length = n → (DHq t q p).length = n)
    (hhp : ∀ t q p, q.length = n → p.length = n → (DHp t q p).length = n)
    (ti tau c d : K) (qp : List K × List K) (h1 : qp.1.length = n) (h2 : qp.2.length = n) :
    (symplecticSubstage DHq DHp ti tau c d qp).1.length = n
      ∧ (symplecticSubstage DHq DHp ti tau c d qp).2.length = n := by
  have a : (vadd qp.1 (vsmul (c * tau) (DHp ti qp.1 qp.2))).length = n := by
    simp [hhp _ _ _ h1 h2, h1]
  refine ⟨a, ?_⟩
  simp [symplecticSubstage, hhq _ _ _ a h2, h2]

theorem symplecticFold_length (DHq DHp : K → List K → List K → List K) (n : Nat)
    (hhq : ∀ t q p, q.length = n → p.length = n → (DHq t q p).length = n)
    (hhp : ∀ t q p, q.length = n → p.length = n → (DHp t q p).length = n)
    (ti tau : K) (c d : List K) (m : Nat) (qp : List K × List K) (h1 : qp.1.length = n)
    (h2 : qp.2.length = n) :
    (symplecticFold DHq DHp ti tau c d m qp).1.length = n
      ∧ (symplecticFold DHq DHp ti tau c d m qp).2.length = n := by
  induction m with
  | zero => exact ⟨h1, h2⟩
  | succ m ih => exact symplecticSubstage_length DHq DHp n hhq hhp ti tau _ _ _ ih.1 ih.2

/-- The loop `for i < n: q[i] += c[j] * tau * dp[i]`. -/
theorem symplectic_advance (n j : Nat) (tau : K) (c dp q : List K) (hj : j < c.length)
    (hdp : dp.length = n) (hq : q.length = n) :
    forLoop n
      (fun i q => do vset q i ((← vget q i) + (← vget c j) * tau * (← vget dp i))) q
      = .ok (vadd q (vsmul (c.getD j 0 * tau) dp)) := by
  apply forLoop_store_eq _ _ _ _ hq (by simp [hq, hdp])
  intro i hi v hv hvi
  simp only [vget_ok _ _ (0 : K) (hv ▸ hi), vget_ok _ _ (0 : K) hj,
    vget_ok _ _ (0 : K) (hdp ▸ hi), Except.ok_bind_eq, vset_ok _ _ _ (hv ▸ hi), hvi]
  simp only [vadd_getD, vsmul_getD, vsmul_length, hq, hdp]

/-- The loop `for i < n: p[i] -= d[j] * tau * dq[i]`. -/
theorem symplectic_retard (n j : Nat) (tau : K) (d dq p : List K) (hj : j < d.length)
    (hdq : dq.length = n) (hp : p.length = n) :
    forLoop n
      (fun i p => do vset p i ((← vget p i) - (← vget d j) * tau * (← vget dq i))) p
      = .ok (vsub p (vsmul (d.getD j 0 * tau) dq)) := by
  apply forLoop_store_eq _ _ _ _ hp (by simp [hp, hdq])
  intro i hi v hv hvi
  simp only [vget_ok _ _ (0 : K) (hv ▸ hi), vget_ok _ _ (0 : K) hj,
    vget_ok _ _ (0 : K) (hdq ▸ hi), Except.ok_bind_eq, vset_ok _ _ _ (hv ▸ hi), hvi]
  simp only [vsub_getD, vsmul_getD, vsmul_length, hp, hdq]

theorem symplectic_stageBody (n : Nat) (order : Int) (c d : List K)
    (DHq DHp : K → List K → List K → List K)
    (hhq : ∀ t q p, q.length = n → p.length = n → (DHq t q p).length = n)
    (hhp : ∀ t q p, q.length = n → p.length = n → (DHp t q p).length = n)
    (ti tau : K) (j : Nat) (hjc : j < c.length) (hjd : j < d.length)
    (s : base_symplectic.Locals K) (e0 : s.q0 = s.q) (e1 : s.p0 = s.p)
    (hql : s.q.length = n) (hpl : s.p.length = n) :
    ∃ s1, base_symplectic.stageBody
        { m_dyn := base_hamiltonian.total n DHq DHp, m_order := order, m_c := c, m_d := d }
        ti tau n j s = .ok s1
      ∧ (s1.q, s1.p) = symplecticSubstage DHq DHp ti tau (c.getD j 0) (d.getD j 0) (s.q, s.p)
      ∧ s1.q0 = s1.q ∧ s1.p0 = s1.p := by
  simp only [base_symplectic.stageBody, base_hamiltonian.total, Except.ok_bind_eq, e0, e1]
  rw [symplectic_advance n j tau c _ _ hjc (hhp _ _ _ hql hpl) hql]
  simp only [Except.ok_bind_eq]
  rw [symplectic_retard n j tau d _ _ hjd (hhq _ _ _ (by simp [hhp _ _ _ hql hpl, hql]) hpl)
    hpl]
  exact ⟨_, rfl, rfl, rfl, rfl⟩

theorem symplectic_stages (n : Nat) (order : Int) (c d : List K)
    (DHq DHp : K → List K → List K → List K)
    (hhq : ∀ t q p, q.length = n → p.length = n → (DHq t q p).length = n)
    (hhp : ∀ t q p, q.length = n → p.length = n → (DHp t q p).length = n)
    (ti tau : K) (q p : List K) (hql : q.length = n) (hpl : p.length = n) (m : Nat)
    (hmc : m ≤ c.length) (hmd : m ≤ d.length) :
    ∃ s, forLoop m (base_symplectic.stageBody
        { m_dyn := base_hamiltonian.total n DHq DHp, m_order := order, m_c := c, m_d := d }
        ti tau n) { q0 := q, p0 := p, q := q, p := p, dq := q, dp := p } = .ok s
      ∧ (s.q, s.p) = symplecticFold DHq DHp ti tau c d m (q, p) := by
  obtain ⟨s, hs, hP⟩ := forLoop_invariant
    (fun m (s : base_symplectic.Locals K) =>
      (s.q, s.p) = symplecticFold DHq DHp ti tau c d m (q, p) ∧ s.q0 = s.q ∧ s.p0 = s.p)
    m (base_symplectic.stageBody
        { m_dyn := base_hamiltonian.total n DHq DHp, m_order := order, m_c := c, m_d := d }
        ti tau n) { q0 := q, p0 := p, q := q, p := p, dq := q, dp := p }
    ⟨rfl, rfl, rfl⟩
    (by
      intro j hj s hP
      obtain ⟨hf, e0, e1⟩ := hP
      have hl := symplecticFold_length DHq DHp n hhq hhp ti tau c d j (q, p) hql hpl
      rw [← hf] at hl
      obtain ⟨s1, h1, h2, h3, h4⟩ := symplectic_stageBody n order c d DHq DHp hhq hhp ti tau j
        (by omega) (by omega) s e0 e1 hl.1 hl.2
      exact ⟨s1, h1, by rw [h2, hf, symplecticFold], h3, h4⟩)
  exact ⟨s, hs, hP.1⟩

theorem symplectic_step_total (n order : Nat) (c d : List K)
    (DHq DHp : K → List K → List K → List K)
    (hhq : ∀ t q p, q.length = n → p.length = n → (DHq t q p).length = n)
    (hhp : ∀ t q p, q.length = n → p.length = n → (DHp t q p).length = n)
    (hc : order ≤ c.length) (hd : order ≤ d.length) (ti tau : K) (x0 : List K)
    (hx0 : x0.length = 2 * n) (xfinal : List K) :
    base_symplectic.integration_step
        { m_dyn := base_hamiltonian.total n DHq DHp, m_order := (order : Int), m_c := c,
          m_d := d } ti tau x0 xfinal
      = .ok ((symplecticFold DHq DHp ti tau c d order (x0.take n, x0.drop n)).1
          ++ (symplecticFold DHq DHp ti tau c d order (x0.take n, x0.drop n)).2) := by
  have hql : (x0.take n).length = n := by simp; omega
  have hpl : (x0.drop n).length = n := by simp; omega
  obtain ⟨s, hs, hf⟩ := symplectic_stages n (order : Int) c d DHq DHp hhq hhp ti tau
    (x0.take n) (x0.drop n) hql hpl order hc hd
  have hl := symplecticFold_length DHq DHp n hhq hhp ti tau c d order
    (x0.take n, x0.drop n) hql hpl
  rw [← hf] at hl ⊢
  simp only [base_symplectic.integration_step, base_hamiltonian.total, Int.toNat_ofNat,
    symplectic_split n x0 hx0, Except.ok_bind_eq]
  simp only [base_hamiltonian.total] at hs
  rw [hs, Except.ok_bind_eq, symplectic_join n _ _ _ hl.1 hl.2]

end Symplectic

section Leapfrog
variable {K : Type} [LinearOrderedField K]

theorem vadd_vsmul_length {n : Nat} (c : K) {a b : List K} (ha : a.length = n)
    (hb : b.length = n) : (vadd a (vsmul c b)).length = n := by
  simp [ha, hb]

theorem vsub_vsmul_length {n : Nat} (c : K) {a b : List K} (ha : a.length = n)
    (hb : b.length = n) : (vsub a (vsmul c b)).length = n := by
  simp [ha, hb]

theorem leapfrog_driftHalf (n : Nat) (tau : K) (dp q : List K) (hdp : dp.length = n)
    (hq : q.length = n) :
    leapfrog_mixedvar.driftHalf n tau dp q = .ok (vadd q (vsmul (tau / 2) dp)) := by
  apply forLoop_store_eq _ _ _ _ hq (by simp [hq, hdp])
  intro i hi v hv hvi
  simp only [vget_ok _ _ (0 : K) (hv ▸ hi), vget_ok _ _ (0 : K) (hdp ▸ hi),
    Except.ok_bind_eq, vset_ok _ _ _ (hv ▸ hi), hvi]
  simp only [vadd_getD, vsmul_getD, vsmul_length, hq, hdp]
  congr 2; ring

theorem leapfrog_driftFull (n : Nat) (tau : K) (dp q : List K) (hdp : dp.length = n)
    (hq : q.length = n) :
    leapfrog_mixedvar.driftFull n tau dp q = .ok (vadd q (vsmul tau dp)) := by
  apply forLoop_store_eq _ _ _ _ hq (by simp [hq, hdp])
  intro i hi v hv hvi
  simp only [vget_ok _ _ (0 : K) (hv ▸ hi), vget_ok _ _ (0 : K) (hdp ▸ hi),
    Except.ok_bind_eq, vset_ok _ _ _ (hv ▸ hi), hvi]
  simp only [vadd_getD, vsmul_getD, vsmul_length, hq, hdp]

theorem leapfrog_kickHalf (n : Nat) (tau : K) (dq p : List K) (hdq : dq.length = n)
    (hp : p.length = n) :
    leapfrog_mixedvar.kickHalf n tau dq p = .ok (vsub p (vsmul (tau / 2) dq)) := by
  apply forLoop_store_eq _ _ _ _ hp (by simp [hp, hdq])
  intro i hi v hv hvi
  simp only [vget_ok _ _ (0 : K) (hv ▸ hi), vget_ok _ _ (0 : K) (hdq ▸ hi),
    Except.ok_bind_eq, vset_ok _ _ _ (hv ▸ hi), hvi]
  simp only [vsub_getD, vsmul_getD, vsmul_length, hp, hdq]
  congr 2; ring

theorem leapfrog_kickFull (n : Nat) (tau : K) (dq p : List K) (hdq : dq.length = n)
    (hp : p.length = n) :
    leapfrog_mixedvar.kickFull n tau dq p = .ok (vsub p (vsmul tau dq)) := by
  apply forLoop_store_eq _ _ _ _ hp (by simp [hp, hdq])
  intro i hi v hv hvi
  simp only [vget_ok _ _ (0 : K) (hv ▸ hi), vget_ok _ _ (0 : K) (hdq ▸ hi),
    Except.ok_bind_eq, vset_ok _ _ _ (hv ▸ hi), hvi]
  simp only [vsub_getD, vsmul_getD, vsmul_length, hp, hdq]

theorem leapfrog_step_total (n : Nat) (separable flag : Bool)
    (DHq DHp2 : K → List K → List K → List K)
    (conversion conversion2 : List K → List K → List K × List K)
    (hhq : ∀ t q p, q.length = n → p.length = n → (DHq t q p).length = n)
    (hhp : ∀ t q p, q.length = n → p.length = n → (DHp2 t q p).length = n)
    (hc1 : ∀ q p, q.length = n → p.length = n →
      (conversion q p).1.length = n ∧ (conversion q p).2.length = n)
    (hc2 : ∀ q p, q.length = n → p.length = n →
      (conversion2 q p).1.length = n ∧ (conversion2 q p).2.length = n)
    (ti tau : K) (x0 : List K) (hx0 : x0.length = 2 * n) (xfinal : List K) :
    ∃ r, r = (if flag then leapfrogDKD DHq DHp2 conversion conversion2 ti tau
                  (x0.take n, x0.drop n)
                else leapfrogKDK DHq DHp2 conversion conversion2 ti tau
                  (x0.take n, x0.drop n))
      ∧ leapfrog_mixedvar.integration_step
          { m_dyn := hamiltonian_mixedvar.total n separable DHq DHp2 conversion conversion2,
            m_flag := flag } ti tau x0 xfinal = .ok (r.1 ++ r.2)
      ∧ r.1.length = n ∧ r.2.length = n := by
  have hql : (x0.take n).length = n := by simp; omega
  have hpl : (x0.drop n).length = n := by simp; omega
  refine ⟨_, rfl, ?_⟩
  cases flag
  · -- kick-drift-kick
    have a1 := hhq ti _ _ hql hpl
    have b1 := vsub_vsmul_length (tau / 2) hpl a1
    obtain ⟨c1q, c1p⟩ := hc1 _ _ hql b1
    have a2 := hhp ti _ _ c1q c1p
    have b2 := vadd_vsmul_length tau c1q a2
    obtain ⟨c2q, c2p⟩ := hc2 _ _ b2 c1p
    have a3 := hhq ti _ _ c2q c2p
    have b3 := vsub_vsmul_length (tau / 2) c2p a3
    simp only [leapfrog_mixedvar.integration_step, hamiltonian_mixedvar.total,
      Int.toNat_ofNat, symplectic_split n x0 hx0, Except.ok_bind_eq, Bool.false_eq_true,
      if_false]
    rw [leapfrog_kickHalf n tau _ _ a1 hpl]
    simp only [Except.ok_bind_eq]
    rw [leapfrog_driftFull n tau _ _ a2 c1q]
    simp only [Except.ok_bind_eq]
    rw [leapfrog_kickHalf n tau _ _ a3 c2p]
    simp only [Except.ok_bind_eq]
    rw [symplectic_join n _ _ _ c2q b3]
    exact ⟨rfl, c2q, b3⟩
  · -- drift-kick-drift
    obtain ⟨c1q, c1p⟩ := hc1 _ _ hql hpl
    have a1 := hhp ti _ _ c1q c1p
    have b1 := vadd_vsmul_length (tau / 2) c1q a1
    obtain ⟨c2q, c2p⟩ := hc2 _ _ b1 c1p
    have a2 := hhq ti _ _ c2q c2p
    have b2 := vsub_vsmul_length tau c2p a2
    obtain ⟨c3q, c3p⟩ := hc1 _ _ c2q b2
    have a3 := hhp ti _ _ c3q c3p
    have b3 := vadd_vsmul_length (tau / 2) c3q a3
    obtain ⟨c4q, c4p⟩ := hc2 _ _ b3 c3p
    simp only [leapfrog_mixedvar.integration_step, hamiltonian_mixedvar.total,
      Int.toNat_ofNat, symplectic_split n x0 hx0, Except.ok_bind_eq, if_true]
    rw [leapfrog_driftHalf n tau _ _ a1 c1q]
    simp only [Except.ok_bind_eq]
    rw [leapfrog_kickFull n tau _ _ a2 c2p]
    simp only [Except.ok_bind_eq]
    rw [leapfrog_driftHalf n tau _ _ a3 c3q]
    simp only [Except.ok_bind_eq]
    rw [symplectic_join n _ _ _ c4q c4p]
    exact ⟨rfl, c4q, c4p⟩

end Leapfrog

section Drivers
variable {K : Type} [LinearOrderedField K]

theorem stepIterate_prefix (step : Step K) (ti h : K) (x0 : List K) (n : Nat)
    (hrun : ∃ y, stepIterate step ti h n x0 = .ok y) (m : Nat) (hm : m ≤ n) :
    ∃ x, stepIterate step ti h m x0 = .ok x := by
  induction n with
  | zero =>
    have : m = 0 := by omega
    subst this
    exact hrun
  | succ n ih =>
    by_cases hmn : m = n + 1
    · subst hmn; exact hrun
    · apply ih _ (by omega)
      obtain ⟨y, hy⟩ := hrun
      rw [stepIterate] at hy
      cases hx : stepIterate step ti h n x0 with
      | ok x => exact ⟨x, rfl⟩
      | error e => rw [hx] at hy; cases hy

/-- The loop invariant of the history-recording drivers. -/
theorem driver_loop (step : Step K) (ti h : K) (x0 : List K) (n : Nat)
    (hrun : ∃ y, stepIterate step ti h n x0 = .ok y) :
    ∃ s, forLoop n (base_rungekutta.loopBody step h)
        { t := ti, x := x0, x_temp := x0,
          out := { t_history := [], x_history := [], calls := [] } } = .ok s
      ∧ s.out.t_history = (List.range n).map (fun (i : Nat) => ti + ((i : K) + 1) * h)
      ∧ s.out.x_history.length = n ∧ s.out.calls.length = n
      ∧ ∀ i, i < n → ∃ x y, stepIterate step ti h i x0 = .ok x
          ∧ s.out.calls[i]? = some (ti + (i : K) * h, h, x)
          ∧ step (ti + (i : K) * h) h x x = .ok y
          ∧ s.out.x_history[i]? = some y
          ∧ stepIterate step ti h (i + 1) x0 = .ok y := by
  obtain ⟨s, hs, hP⟩ := forLoop_invariant
    (fun m (s : DriverVars K) =>
      s.t = ti + (m : K) * h ∧ s.x_temp = s.x ∧ stepIterate step ti h m x0 = .ok s.x
      ∧ s.out.t_history = (List.range m).map (fun (i : Nat) => ti + ((i : K) + 1) * h)
      ∧ s.out.x_history.length = m ∧ s.out.calls.length = m
      ∧ ∀ i, i < m → ∃ x y, stepIterate step ti h i x0 = .ok x
          ∧ s.out.calls[i]? = some (ti + (i : K) * h, h, x)
          ∧ step (ti + (i : K) * h) h x x = .ok y
          ∧ s.out.x_history[i]? = some y
          ∧ stepIterate step ti h (i + 1) x0 = .ok y)
    n (base_rungekutta.loopBody step h)
    { t := ti, x := x0, x_temp := x0,
      out := { t_history := [], x_history := [], calls := [] } }
    (by simp [stepIterate])
    (by
      intro j hj s hP
      obtain ⟨ht, hxt, hit, hth, hxl, hcl, hall⟩ := hP
      obtain ⟨y, hy⟩ := stepIterate_prefix step ti h x0 n hrun (j + 1) (by omega)
      have hstep : step (ti + (j : K) * h) h s.x s.x = .ok y := by
        rw [stepIterate, hit] at hy
        exact hy
      have hb : base_rungekutta.loopBody step h j s = .ok
          { t := ti + (j : K) * h + h, x := y, x_temp := y,
            out := { t_history := s.out.t_history ++ [ti + (j : K) * h + h],
                     x_history := s.out.x_history ++ [y],
                     calls := s.out.calls ++ [(ti + (j : K) * h, h, s.x)] } } := by
        simp only [base_rungekutta.loopBody, hxt, ht, hstep, Except.ok_bind_eq, vassign,
          Except.pure_eq_ok]
      refine ⟨_, hb, ?_⟩
      · refine ⟨?_, rfl, ?_, ?_, ?_, ?_, ?_⟩
        · push_cast; ring
        · rw [stepIterate, hit]; exact hstep
        · simp only [hth, List.range_succ, List.map_append, List.map_cons, List.map_nil]
          congr 2; ring
        · simp [hxl]
        · simp [hcl]
        · intro i hi
          by_cases hij : i = j
          · subst hij
            refine ⟨s.x, y, hit, ?_, hstep, ?_, ?_⟩
            · rw [List.getElem?_append_right (by omega), hcl]; simp
            · rw [List.getElem?_append_right (by omega), hxl]; simp
            · rw [stepIterate, hit]; exact hstep
          · obtain ⟨x, y1, h1, h2, h3, h4, h5⟩ := hall i (by omega)
            refine ⟨x, y1, h1, ?_, h3, ?_, h5⟩
            · rw [List.getElem?_append_left (by omega)]; exact h2
            · rw [List.getElem?_append_left (by omega)]; exact h4)
  obtain ⟨_, _, _, hth, hxl, hcl, hall⟩ := hP
  exact ⟨s, hs, hth, hxl, hcl, hall⟩

/-- What `base_rungekutta::integrate` returns when none of its step calls fails. -/
theorem driver_total (step : Step K) (ti tend : K) (nsteps : Int) (x0 : List K)
    (x_history : List (List K)) (t_history : List K)
    (hrun : ∃ y, stepIterate step ti ((tend - ti) / (nsteps : K)) nsteps.toNat x0 = .ok y) :
    ∃ r, base_rungekutta.integrate step ti tend nsteps x0 x_history t_history = .ok r
      ∧ r.t_history = (List.range nsteps.toNat).map
          (fun (i : Nat) => ti + ((i : K) + 1) * ((tend - ti) / (nsteps : K)))
      ∧ r.x_history.length = nsteps.toNat ∧ r.calls.length = nsteps.toNat
      ∧ ∀ i, i < nsteps.toNat → ∃ x y,
          stepIterate step ti ((tend - ti) / (nsteps : K)) i x0 = .ok x
          ∧ r.calls[i]? = some (ti + (i : K) * ((tend - ti) / (nsteps : K)),
              (tend - ti) / (nsteps : K), x)
          ∧ step (ti + (i : K) * ((tend - ti) / (nsteps : K))) ((tend - ti) / (nsteps : K)) x x
              = .ok y
          ∧ r.x_history[i]? = some y
          ∧ stepIterate step ti ((tend - ti) / (nsteps : K)) (i + 1) x0 = .ok y := by
  obtain ⟨s, hs, h1, h2, h3, h4⟩ :=
    driver_loop step ti ((tend - ti) / (nsteps : K)) x0 nsteps.toNat hrun
  refine ⟨s.out, ?_, h1, h2, h3, h4⟩
  simp only [base_rungekutta.integrate, vclear, hs, Except.ok_bind_eq, Except.pure_eq_ok]

theorem rk3_integrate_eq (m_dyn : Dyn K) (ti tend : K) (nsteps : Int) (x0 : List K)
    (x_history : List (List K)) (t_history : List K) :
    rk3.integrate m_dyn ti tend nsteps x0 x_history t_history
      = base_rungekutta.integrate (rk3.integration_step m_dyn) ti tend nsteps x0 x_history
          t_history := rfl

theorem symplectic_integrate_eq (sym : base_symplectic K) (ti tend : K) (nsteps : Int)
    (x0 : List K) (x_history : List (List K)) (t_history : List K) :
    base_symplectic.integrate sym ti tend nsteps x0 x_history t_history
      = base_rungekutta.integrate (base_symplectic.integration_step sym) ti tend nsteps x0
          x_history t_history := rfl

theorem toNat_cast_field (nsteps : Int) (hn : 1 ≤ nsteps) :
    ((nsteps.toNat : Nat) : K) = (nsteps : K) := by
  have h : ((nsteps.toNat : Nat) : Int) = nsteps := Int.toNat_of_nonneg (by omega)
  rw [← Int.cast_natCast, h]

end Drivers

section RK4Valid
variable {K : Type} [LinearOrderedField K]

theorem rk4_stage_half (h : K) (x k xt : List K) (hk : k.length = x.length)
    (hxt : xt.length = x.length) :
    forLoop x.length (fun j xt => do vset xt j ((← vget x j) + (← vget k j) * h / 2)) xt
      = .ok (vadd x (vsmul (h / 2) k)) := by
  apply forLoop_store_eq _ _ _ _ hxt (by simp [hk])
  intro j hj v hv hvj
  simp only [vget_ok _ _ (0 : K) hj, vget_ok _ _ (0 : K) (hk ▸ hj), Except.ok_bind_eq,
    vset_ok _ _ _ (hv ▸ hj), vadd_getD _ _ _ ((vsmul_length _ k).trans hk).symm, vsmul_getD]
  congr 2; ring

theorem rk4_stage_full (h : K) (x k xt : List K) (hk : k.length = x.length)
    (hxt : xt.length = x.length) :
    forLoop x.length (fun j xt => do vset xt j ((← vget x j) + (← vget k j) * h)) xt
      = .ok (vadd x (vsmul h k)) := by
  apply forLoop_store_eq _ _ _ _ hxt (by simp [hk])
  intro j hj v hv hvj
  simp only [vget_ok _ _ (0 : K) hj, vget_ok _ _ (0 : K) (hk ▸ hj), Except.ok_bind_eq,
    vset_ok _ _ _ (hv ▸ hj), vadd_getD _ _ _ ((vsmul_length _ k).trans hk).symm, vsmul_getD]
  congr 2; ring

theorem rk4_update (h : K) (x k1 k2 k3 k4 : List K) (h1 : k1.length = x.length)
    (h2 : k2.length = x.length) (h3 : k3.length = x.length) (h4 : k4.length = x.length) :
    forLoop x.length
      (fun j x => do
        vset x j ((← vget x j)
          + ((← vget k1 j) + 2 * (← vget k2 j) + 2 * (← vget k3 j) + (← vget k4 j)) * h / 6))
      x
      = .ok (vadd x (vsmul (h / 6) (vadd (vadd (vadd k1 (vsmul 2 k2)) (vsmul 2 k3)) k4))) := by
  apply forLoop_store_eq _ _ _ _ rfl (by simp [h1, h2, h3, h4])
  intro j hj v hv hvj
  simp only [vget_ok _ _ (0 : K) (hv ▸ hj), vget_ok _ _ (0 : K) (h1 ▸ hj),
    vget_ok _ _ (0 : K) (h2 ▸ hj), vget_ok _ _ (0 : K) (h3 ▸ hj),
    vget_ok _ _ (0 : K) (h4 ▸ hj), Except.ok_bind_eq, vset_ok _ _ _ (hv ▸ hj), hvj]
  simp only [vadd_getD, vsmul_getD, vadd_length, vsmul_length, h1, h2, h3, h4, min_self]
  congr 2; ring

/-- One pass of the step loop of `rk4::integrate` for a dynamics that agrees with `g` on
non-negative times and states of dimension `n`, when the stage times are non-negative. -/
theorem rk4_loopBody_valid (m_dyn : Dyn K) (g : K → List K → List K) (n : Nat)
    (hdim : ∀ t x, x.length = n → (g t x).length = n)
    (hf : ∀ t x, 0 ≤ t → x.length = n → m_dyn t x = .ok (g t x)) (ti h : K) (i : Nat)
    (ht1 : 0 ≤ ti + (i : K) * h) (ht2 : 0 ≤ ti + (i : K) * h + h / 2)
    (ht4 : 0 ≤ ti + ((i + 1 : Nat) : K) * h) (s : rk4.Locals K) (hx : s.x.length = n)
    (hxt : s.xtemp.length = n) :
    ∃ s1, rk4.loopBody m_dyn ti h n i s = .ok s1
      ∧ s1.x = rk4ClassicalStep g h (ti + (i : K) * h) s.x
      ∧ s1.x.length = n ∧ s1.xtemp.length = n := by
  subst hx
  have a1 := hdim (ti + (i : K) * h) s.x rfl
  have b1 : (vadd s.x (vsmul (h / 2) (g (ti + (i : K) * h) s.x))).length = s.x.length :=
    vadd_vsmul_length _ rfl a1
  have a2 := hdim (ti + (i : K) * h + h / 2) _ b1
  have b2 := vadd_vsmul_length (h / 2) (rfl : s.x.length = s.x.length) a2
  have a3 := hdim (ti + (i : K) * h + h / 2) _ b2
  have b3 := vadd_vsmul_length h (rfl : s.x.length = s.x.length) a3
  have a4 := hdim (ti + ((i + 1 : Nat) : K) * h) _ b3
  simp only [rk4.loopBody]
  rw [hf _ _ ht1 rfl]
  simp only [Except.ok_bind_eq]
  rw [rk4_stage_half h s.x _ _ a1 hxt, Except.ok_bind_eq, hf _ _ ht2 b1, Except.ok_bind_eq,
    rk4_stage_half h s.x _ _ a2 b1, Except.ok_bind_eq, hf _ _ ht2 b2, Except.ok_bind_eq,
    rk4_stage_full h s.x _ _ a3 b2, Except.ok_bind_eq, hf _ _ ht4 b3, Except.ok_bind_eq,
    rk4_update h s.x _ _ _ _ a1 a2 a3 a4]
  refine ⟨_, rfl, ?_, ?_, b3⟩
  · simp only [rk4ClassicalStep]
    have : ti + ((i + 1 : Nat) : K) * h = ti + (i : K) * h + h := by push_cast; ring
    rw [this]
  · exact vadd_vsmul_length (h / 6) rfl
      (by rw [vadd_length, vadd_length, vadd_length, vsmul_length, vsmul_length, a1, a2, a3,
        a4]; simp)

theorem rk4ClassicalStep_length_on (g : K → List K → List K) (n : Nat)
    (hdim : ∀ t x, x.length = n → (g t x).length = n) (h t : K) (x : List K)
    (hx : x.length = n) : (rk4ClassicalStep g h t x).length = n := by
  have a1 := hdim t x hx
  have b1 := vadd_vsmul_length (h / 2) hx a1
  have a2 := hdim (t + h / 2) _ b1
  have b2 := vadd_vsmul_length (h / 2) hx a2
  have a3 := hdim (t + h / 2) _ b2
  have b3 := vadd_vsmul_length h hx a3
  have a4 := hdim (t + h) _ b3
  simp [rk4ClassicalStep, hx, a1, a2, a3, a4]

theorem rk4_steps_valid (m_dyn : Dyn K) (g : K → List K → List K) (n : Nat)
    (hdim : ∀ t x, x.length = n → (g t x).length = n)
    (hf : ∀ t x, 0 ≤ t → x.length = n → m_dyn t x = .ok (g t x)) (ti h : K) (x0 : List K)
    (hx0 : x0.length = n) (m : Nat)
    (ht : ∀ i, i < m → 0 ≤ ti + (i : K) * h ∧ 0 ≤ ti + (i : K) * h + h / 2
      ∧ 0 ≤ ti + ((i + 1 : Nat) : K) * h) :
    ∃ s, forLoop m (rk4.loopBody m_dyn ti h n)
        { x := x0, xtemp := x0, k1 := x0, k2 := x0, k3 := x0, k4 := x0 } = .ok s
      ∧ s.x = rk4Classical g ti h m x0 ∧ s.x.length = n := by
  obtain ⟨s, hs, hP⟩ := forLoop_invariant
    (fun j (s : rk4.Locals K) =>
      s.x = rk4Classical g ti h j x0 ∧ s.x.length = n ∧ s.xtemp.length = n)
    m (rk4.loopBody m_dyn ti h n)
    { x := x0, xtemp := x0, k1 := x0, k2 := x0, k3 := x0, k4 := x0 }
    ⟨rfl, hx0, hx0⟩
    (by
      intro j hj s hP
      obtain ⟨e, hx, hxt⟩ := hP
      obtain ⟨t1, t2, t4⟩ := ht j hj
      obtain ⟨s1, h1, h2, h3, h4⟩ := rk4_loopBody_valid m_dyn g n hdim hf ti h j t1 t2 t4 s hx hxt
      exact ⟨s1, h1, by rw [h2, e, rk4Classical], h3, h4⟩)
  exact ⟨s, hs, hP.1, hP.2.1⟩

theorem rk4_integrate_valid (m_dyn : Dyn K) (g : K → List K → List K) (n : Nat)
    (hdim : ∀ t x, x.length = n → (g t x).length = n)
    (hf : ∀ t x, 0 ≤ t → x.length = n → m_dyn t x = .ok (g t x)) (ti tend : K) (nsteps : Int)
    (x0 : List K) (hx0 : x0.length = n) (xfinal : List K)
    (ht : ∀ i, i < nsteps.toNat → 0 ≤ ti + (i : K) * ((tend - ti) / (nsteps : K))
      ∧ 0 ≤ ti + (i : K) * ((tend - ti) / (nsteps : K)) + (tend - ti) / (nsteps : K) / 2
      ∧ 0 ≤ ti + ((i + 1 : Nat) : K) * ((tend - ti) / (nsteps : K))) :
    rk4.integrate m_dyn ti tend nsteps x0 xfinal
      = .ok (rk4Classical g ti ((tend - ti) / (nsteps : K)) nsteps.toNat x0) := by
  subst hx0
  obtain ⟨s, hs, hx, hl⟩ := rk4_steps_valid m_dyn g x0.length hdim hf ti
    ((tend - ti) / (nsteps : K)) x0 rfl nsteps.toNat ht
  simp only [rk4.integrate, hs, Except.ok_bind_eq, vclear]
  rw [forLoop_push_back s.x _ (by omega), ← hl, List.take_length, hx]
  rfl

/-- A point of the segment between two non-negative times is non-negative. -/
theorem segment_nonneg (ti tend a : K) (hti : 0 ≤ ti) (htend : 0 ≤ tend) (ha0 : 0 ≤ a)
    (ha1 : a ≤ 1) : 0 ≤ ti + a * (tend - ti) := by
  nlinarith [mul_nonneg (sub_nonneg.mpr ha1) hti, mul_nonneg ha0 htend]

/-- The stage times of `rk4::integrate` between two non-negative times are non-negative. -/
theorem rk4_stage_times_nonneg (ti tend : K) (hti : 0 ≤ ti) (htend : 0 ≤ tend) (nsteps : Int)
    (hn : 1 ≤ nsteps) (i : Nat) (hi : i < nsteps.toNat) :
    0 ≤ ti + (i : K) * ((tend - ti) / (nsteps : K))
      ∧ 0 ≤ ti + (i : K) * ((tend - ti) / (nsteps : K)) + (tend - ti) / (nsteps : K) / 2
      ∧ 0 ≤ ti + ((i + 1 : Nat) : K) * ((tend - ti) / (nsteps : K)) := by
  have hc := toNat_cast_field (K := K) nsteps hn
  have hN : (0 : K) < (nsteps : K) := by exact_mod_cast (by omega : (0 : Int) < nsteps)
  have hi1 : ((i : K) + 1) ≤ (nsteps : K) := by
    rw [← hc]; exact_mod_cast hi
  have hi0 : (0 : K) ≤ (i : K) := Nat.cast_nonneg i
  refine ⟨?_, ?_, ?_⟩
  · have := segment_nonneg ti tend ((i : K) / (nsteps : K)) hti htend (by positivity)
      (by rw [div_le_one hN]; linarith)
    have e : ti + (i : K) * ((tend - ti) / (nsteps : K))
        = ti + (i : K) / (nsteps : K) * (tend - ti) := by ring
    rw [e]; exact this
  · have := segment_nonneg ti tend (((i : K) + 1 / 2) / (nsteps : K)) hti htend (by positivity)
      (by rw [div_le_one hN]; linarith)
    have e : ti + (i : K) * ((tend - ti) / (nsteps : K)) + (tend - ti) / (nsteps : K) / 2
        = ti + ((i : K) + 1 / 2) / (nsteps : K) * (tend - ti) := by ring
    rw [e]; exact this
  · have := segment_nonneg ti tend (((i : K) + 1) / (nsteps : K)) hti htend (by positivity)
      (by rw [div_le_one hN]; exact hi1)
    have e : ti + ((i + 1 : Nat) : K) * ((tend - ti) / (nsteps : K))
        = ti + ((i : K) + 1) / (nsteps : K) * (tend - ti) := by push_cast; ring
    rw [e]; exact this

end RK4Valid

/-- C3. For a non-empty `x0` and a total, dimension-preserving dynamics over the reals,
`rkf45::integration_step` returns in `xfinal` the fourth-order update of the
Runge-Kutta-Fehlberg 4(5) tableau and in `er` the Euclidean norm of the difference between
the fifth-order update and it; `er` is non-negative, and zero exactly when the two updates
coincide. -/
theorem rkf45_integration_step_fehlberg (g : ℝ → List ℝ → List ℝ)
    (hdim : ∀ t x, (g t x).length = x.length) (ti : ℝ) (m : Nat) (h : ℝ) (x0 : List ℝ)
    (hx0 : x0 ≠ []) (f : List (List ℝ)) (xfinal : List ℝ) (er : ℝ) :
    rkf45.integration_step Real.sqrt (Dyn.total g) ti m h x0 f xfinal er
        = .ok (fehlbergOrder4 g h ti x0,
            Real.sqrt (((vsub (fehlbergOrder5 g h ti x0) (fehlbergOrder4 g h ti x0)).map
              (· ^ 2)).sum))
      ∧ 0 ≤ Real.sqrt (((vsub (fehlbergOrder5 g h ti x0) (fehlbergOrder4 g h ti x0)).map
              (· ^ 2)).sum)
      ∧ (Real.sqrt (((vsub (fehlbergOrder5 g h ti x0) (fehlbergOrder4 g h ti x0)).map
              (· ^ 2)).sum) = 0
          ↔ fehlbergOrder5 g h ti x0 = fehlbergOrder4 g h ti x0) := by
  refine ⟨rkf45_step_total Real.sqrt g hdim ti m h x0 hx0 f xfinal er,
    Real.sqrt_nonneg _, ?_⟩
  have hlen : (fehlbergOrder5 g h ti x0).length = (fehlbergOrder4 g h ti x0).length := by
    rw [fehlbergOrder5_length g hdim, fehlbergOrder4_length g hdim]
  have hz := sqDist_eq_zero_iff _ _ hlen
  have hn := sqDist_nonneg (fehlbergOrder5 g h ti x0) (fehlbergOrder4 g h ti x0)
  rw [sqDist] at hz hn
  rw [Real.sqrt_eq_zero hn]
  exact hz

theorem rkf45_integration_step_fehlberg_witness :
    (∀ (t : ℝ) (x : List ℝ), ((fun _ y => y) t x).length = x.length)
      ∧ ([1] : List ℝ) ≠ []
      ∧ rkf45.integration_step Real.sqrt (Dyn.total (fun (_ : ℝ) y => y)) 0 0 1 [1] [] [] 0
        = .ok (fehlbergOrder4 (fun (_ : ℝ) y => y) 1 0 [1],
            Real.sqrt (((vsub (fehlbergOrder5 (fun (_ : ℝ) y => y) 1 0 [1])
              (fehlbergOrder4 (fun (_ : ℝ) y => y) 1 0 [1])).map (· ^ 2)).sum)) :=
  ⟨by simp, by simp,
    (rkf45_integration_step_fehlberg (fun (_ : ℝ) y => y) (by simp) 0 0 1 [1] (by simp)
      [] [] 0).1⟩

/-- C7. For a state `x0` of length `2n`, split as `q = x0[0..n)` and `p = x0[n..2n)`,
`base_symplectic::integration_step` returns the positions followed by the momenta obtained
by folding exactly `m_order` sub-stages `q' = q + c_j*tau*DHp(ti, q, p)`,
`p' = p - d_j*tau*DHq(ti, q', p)`, `j = 0..m_order-1`, all evaluated at the start time `ti`;
both halves of the output have length `n`. -/
theorem base_symplectic_step_substages {K : Type} [LinearOrderedField K] (n order : Nat)
    (c d : List K) (DHq DHp : K → List K → List K → List K)
    (hhq : ∀ t q p, q.length = n → p.length = n → (DHq t q p).length = n)
    (hhp : ∀ t q p, q.length = n → p.length = n → (DHp t q p).length = n)
    (hc : order ≤ c.length) (hd : order ≤ d.length) (ti tau : K) (x0 : List K)
    (hx0 : x0.length = 2 * n) (xfinal : List K) :
    base_symplectic.integration_step
        { m_dyn := base_hamiltonian.total n DHq DHp, m_order := (order : Int), m_c := c,
          m_d := d } ti tau x0 xfinal
        = .ok ((symplecticFold DHq DHp ti tau c d order (x0.take n, x0.drop n)).1
            ++ (symplecticFold DHq DHp ti tau c d order (x0.take n, x0.drop n)).2)
      ∧ (symplecticFold DHq DHp ti tau c d order (x0.take n, x0.drop n)).1.length = n
      ∧ (symplecticFold DHq DHp ti tau c d order (x0.take n, x0.drop n)).2.length = n := by
  refine ⟨symplectic_step_total n order c d DHq DHp hhq hhp hc hd ti tau x0 hx0 xfinal, ?_⟩
  exact symplecticFold_length DHq DHp n hhq hhp ti tau c d order _ (by simp; omega)
    (by simp; omega)

theorem base_symplectic_step_substages_witness :
    (∀ (t : ℚ) (q p : List ℚ), q.length = 1 → p.length = 1 →
        ((fun _ q _ => q) t q p).length = 1)
      ∧ (∀ (t : ℚ) (q p : List ℚ), q.length = 1 → p.length = 1 →
        ((fun _ _ p => p) t q p).length = 1)
      ∧ 1 ≤ ([1] : List ℚ).length ∧ 1 ≤ ([1] : List ℚ).length
      ∧ ([1, 2] : List ℚ).length = 2 * 1
      ∧ base_symplectic.integration_step
          { m_dyn := base_hamiltonian.total 1 (fun (_ : ℚ) q _ => q) (fun _ _ p => p),
            m_order := ((1 : Nat) : Int), m_c := [1], m_d := [1] } 0 1 [1, 2] []
        = .ok [3, -1] := by
  refine ⟨fun _ _ _ h _ => h, fun _ _ _ _ h => h, by simp, by simp, by simp, ?_⟩
  rw [(base_symplectic_step_substages 1 1 [1] [1] (fun (_ : ℚ) q _ => q) (fun _ _ p => p)
    (fun _ _ _ h _ => h) (fun _ _ _ _ h => h) (by simp) (by simp) 0 1 [1, 2] (by simp) []).1]
  norm_num [symplecticFold, symplecticSubstage, vadd, vsub, vsmul]

/-- C8. `leapfrog_mixedvar::integration_step` on a state of length `2n` returns the final
positions followed by the final momenta of: with flag true, conversion, drift over `tau/2`,
second conversion, kick over `tau`, conversion, drift over `tau/2`, second conversion; with
flag false, kick over `tau/2`, conversion, drift over `tau`, second conversion, kick over
`tau/2`. -/
theorem leapfrog_step_orderings {K : Type} [LinearOrderedField K] (n : Nat)
    (separable : Bool) (DHq DHp2 : K → List K → List K → List K)
    (conversion conversion2 : List K → List K → List K × List K)
    (hhq : ∀ t q p, q.length = n → p.length = n → (DHq t q p).length = n)
    (hhp : ∀ t q p, q.length = n → p.length = n → (DHp2 t q p).length = n)
    (hc1 : ∀ q p, q.length = n → p.length = n →
      (conversion q p).1.length = n ∧ (conversion q p).2.length = n)
    (hc2 : ∀ q p, q.length = n → p.length = n →
      (conversion2 q p).1.length = n ∧ (conversion2 q p).2.length = n)
    (ti tau : K) (x0 : List K) (hx0 : x0.length = 2 * n) (xfinal : List K) :
    (leapfrog_mixedvar.integration_step
        { m_dyn := hamiltonian_mixedvar.total n separable DHq DHp2 conversion conversion2,
          m_flag := true } ti tau x0 xfinal
        = .ok ((leapfrogDKD DHq DHp2 conversion conversion2 ti tau (x0.take n, x0.drop n)).1
            ++ (leapfrogDKD DHq DHp2 conversion conversion2 ti tau (x0.take n, x0.drop n)).2)
      ∧ ((leapfrogDKD DHq DHp2 conversion conversion2 ti tau (x0.take n, x0.drop n)).1
            ++ (leapfrogDKD DHq DHp2 conversion conversion2 ti tau
              (x0.take n, x0.drop n)).2).length = 2 * n)
    ∧ (leapfrog_mixedvar.integration_step
        { m_dyn := hamiltonian_mixedvar.total n separable DHq DHp2 conversion conversion2,
          m_flag := false } ti tau x0 xfinal
        = .ok ((leapfrogKDK DHq DHp2 conversion conversion2 ti tau (x0.take n, x0.drop n)).1
            ++ (leapfrogKDK DHq DHp2 conversion conversion2 ti tau (x0.take n, x0.drop n)).2)
      ∧ ((leapfrogKDK DHq DHp2 conversion conversion2 ti tau (x0.take n, x0.drop n)).1
            ++ (leapfrogKDK DHq DHp2 conversion conversion2 ti tau
              (x0.take n, x0.drop n)).2).length = 2 * n) := by
  obtain ⟨r1, e1, s1, l1, m1⟩ := leapfrog_step_total n separable true DHq DHp2 conversion
    conversion2 hhq hhp hc1 hc2 ti tau x0 hx0 xfinal
  obtain ⟨r2, e2, s2, l2, m2⟩ := leapfrog_step_total n separable false DHq DHp2 conversion
    conversion2 hhq hhp hc1 hc2 ti tau x0 hx0 xfinal
  simp only [if_true] at e1
  simp only [Bool.false_eq_true, if_false] at e2
  subst e1 e2
  refine ⟨⟨s1, ?_⟩, ⟨s2, ?_⟩⟩
  · rw [List.length_append, l1, m1]; omega
  · rw [List.length_append, l2, m2]; omega

theorem leapfrog_step_orderings_witness :
    (∀ (t : ℚ) (q p : List ℚ), q.length = 1 → p.length = 1 →
        ((fun _ q _ => q) t q p).length = 1)
      ∧ (∀ (t : ℚ) (q p : List ℚ), q.length = 1 → p.length = 1 →
        ((fun _ _ p => p) t q p).length = 1)
      ∧ (∀ (q p : List ℚ), q.length = 1 → p.length = 1 →
        ((fun q p => (q, p)) q p).1.length = 1 ∧ ((fun q p => (q, p)) q p).2.length = 1)
      ∧ ([1, 2] : List ℚ).length = 2 * 1
      ∧ leapfrog_mixedvar.integration_step
          { m_dyn := hamiltonian_mixedvar.total 1 true (fun (_ : ℚ) q _ => q)
              (fun _ _ p => p) (fun q p => (q, p)) (fun q p => (q, p)),
            m_flag := true } 0 2 [1, 2] [] = .ok [-1, -4]
      ∧ leapfrog_mixedvar.integration_step
          { m_dyn := hamiltonian_mixedvar.total 1 true (fun (_ : ℚ) q _ => q)
              (fun _ _ p => p) (fun q p => (q, p)) (fun q p => (q, p)),
            m_flag := false } 0 2 [1, 2] [] = .ok [3, -2] := by
  have w := leapfrog_step_orderings 1 true (fun (_ : ℚ) q _ => q) (fun _ _ p => p)
    (fun q p => (q, p)) (fun q p => (q, p)) (fun _ _ _ h _ => h) (fun _ _ _ _ h => h)
    (fun _ _ h1 h2 => ⟨h1, h2⟩) (fun _ _ h1 h2 => ⟨h1, h2⟩) 0 2 [1, 2] (by simp) []
  refine ⟨fun _ _ _ h _ => h, fun _ _ _ _ h => h, fun _ _ h1 h2 => ⟨h1, h2⟩, by simp, ?_, ?_⟩
  · rw [w.1.1]
    norm_num [leapfrogDKD, leapfrogDrift, leapfrogKick, vadd, vsub, vsmul]
  · rw [w.2.1]
    norm_num [leapfrogKDK, leapfrogDrift, leapfrogKick, vadd, vsub, vsmul]

/-- C4. Let `run` be one of the three history-recording drivers (`base_rungekutta::integrate`,
`rk3::integrate`, `base_symplectic::integrate`) called with `nsteps >= 1`, and `step` its
`integration_step`.  If no step call fails, the driver calls `step` exactly `nsteps` times,
call `i` receiving the time `ti + i*h`, the step `h = (tend - ti)/nsteps` and the state reached
after `i` steps from `x0`; `x_history` and `t_history` have length exactly `nsteps`, and
`x_history[i]` is the result of `i + 1` steps from `x0` (so `x0` itself is not recorded). -/
theorem fixed_step_history_records {K : Type} [LinearOrderedField K]
    (integration_step : Step K) (m_dyn : Dyn K) (sym : base_symplectic K) (ti tend : K)
    (nsteps : Int) (hn : 1 ≤ nsteps) (x0 : List K) (x_history : List (List K))
    (t_history : List K) (step : Step K) (run : Except Fault (History K))
    (hdrv : (step, run) = (integration_step,
          base_rungekutta.integrate integration_step ti tend nsteps x0 x_history t_history)
      ∨ (step, run) = (rk3.integration_step m_dyn,
          rk3.integrate m_dyn ti tend nsteps x0 x_history t_history)
      ∨ (step, run) = (base_symplectic.integration_step sym,
          base_symplectic.integrate sym ti tend nsteps x0 x_history t_history))
    (hrun : ∃ y, stepIterate step ti ((tend - ti) / (nsteps : K)) nsteps.toNat x0 = .ok y) :
    ∃ r, run = .ok r
      ∧ (r.calls.length : Int) = nsteps
      ∧ (r.x_history.length : Int) = nsteps
      ∧ (r.t_history.length : Int) = nsteps
      ∧ ∀ i, i < nsteps.toNat → ∃ x y,
          stepIterate step ti ((tend - ti) / (nsteps : K)) i x0 = .ok x
          ∧ r.calls[i]? = some (ti + (i : K) * ((tend - ti) / (nsteps : K)),
              (tend - ti) / (nsteps : K), x)
          ∧ step (ti + (i : K) * ((tend - ti) / (nsteps : K))) ((tend - ti) / (nsteps : K)) x x
              = .ok y
          ∧ r.x_history[i]? = some y
          ∧ stepIterate step ti ((tend - ti) / (nsteps : K)) (i + 1) x0 = .ok y := by
  have hrun_eq : run = base_rungekutta.integrate step ti tend nsteps x0 x_history t_history := by
    rcases hdrv with h | h | h <;> (cases h; rfl)
  obtain ⟨r, hr, h1, h2, h3, h4⟩ := driver_total step ti tend nsteps x0 x_history t_history hrun
  have hcast : ((nsteps.toNat : Nat) : Int) = nsteps := Int.toNat_of_nonneg (by omega)
  refine ⟨r, hrun_eq.trans hr, ?_, ?_, ?_, h4⟩
  · rw [h3, hcast]
  · rw [h2, hcast]
  · rw [h1, List.length_map, List.length_range, hcast]

theorem fixed_step_history_records_witness :
    ∃ r, rk3.integrate (Dyn.total (fun (_ : ℚ) x => x)) 0 1 1 [1] [] [] = .ok r
      ∧ (r.calls.length : Int) = 1 ∧ (r.x_history.length : Int) = 1
      ∧ (r.t_history.length : Int) = 1 := by
  obtain ⟨r, h1, h2, h3, h4, _⟩ := fixed_step_history_records
    (fun (_ : ℚ) _ x _ => .ok x) (Dyn.total (fun (_ : ℚ) x => x))
    { m_dyn := base_hamiltonian.total 0 (fun _ q _ => q) (fun _ _ p => p), m_order := 0,
      m_c := [], m_d := [] }
    0 1 1 (by decide) [1] [] [] (rk3.integration_step (Dyn.total (fun (_ : ℚ) x => x)))
    (rk3.integrate (Dyn.total (fun (_ : ℚ) x => x)) 0 1 1 [1] [] [])
    (Or.inr (Or.inl rfl))
    (by simp [stepIterate, rk3_step_total (fun (_ : ℚ) x => x) (fun _ _ => rfl)])
  exact ⟨r, h1, h2, h3, h4⟩

/-- C5. Let `run` be one of the three history-recording drivers called with `nsteps >= 1`
and `step` its `integration_step`.  If no step call fails, the recorded times are
`t_history[i] = ti + (i+1)*h` with `h = (tend - ti)/nsteps`, the last recorded time is `tend`,
and `h` is negative when `tend < ti`. -/
theorem fixed_step_history_times {K : Type} [LinearOrderedField K]
    (integration_step : Step K) (m_dyn : Dyn K) (sym : base_symplectic K) (ti tend : K)
    (nsteps : Int) (hn : 1 ≤ nsteps) (x0 : List K) (x_history : List (List K))
    (t_history : List K) (step : Step K) (run : Except Fault (History K))
    (hdrv : (step, run) = (integration_step,
          base_rungekutta.integrate integration_step ti tend nsteps x0 x_history t_history)
      ∨ (step, run) = (rk3.integration_step m_dyn,
          rk3.integrate m_dyn ti tend nsteps x0 x_history t_history)
      ∨ (step, run) = (base_symplectic.integration_step sym,
          base_symplectic.integrate sym ti tend nsteps x0 x_history t_history))
    (hrun : ∃ y, stepIterate step ti ((tend - ti) / (nsteps : K)) nsteps.toNat x0 = .ok y) :
    ∃ r, run = .ok r
      ∧ (∀ i, i < nsteps.toNat →
          r.t_history[i]? = some (ti + ((i : K) + 1) * ((tend - ti) / (nsteps : K))))
      ∧ r.t_history.getLast? = some tend
      ∧ (tend < ti → (tend - ti) / (nsteps : K) < 0) := by
  have hrun_eq : run = base_rungekutta.integrate step ti tend nsteps x0 x_history t_history := by
    rcases hdrv with h | h | h <;> (cases h; rfl)
  obtain ⟨r, hr, h1, _, _, _⟩ := driver_total step ti tend nsteps x0 x_history t_history hrun
  have hpos : 0 < nsteps.toNat := by omega
  have hK : (0 : K) < (nsteps : K) := by exact_mod_cast (by omega : (0 : Int) < nsteps)
  refine ⟨r, hrun_eq.trans hr, ?_, ?_, ?_⟩
  · intro i hi
    rw [h1, List.getElem?_map, List.getElem?_range hi]
    rfl
  · rw [List.getLast?_eq_getElem?, h1, List.length_map, List.length_range, List.getElem?_map,
      List.getElem?_range (by omega)]
    simp only [Option.map_some']
    congr 1
    have hc : ((nsteps.toNat - 1 : Nat) : K) + 1 = (nsteps : K) := by
      rw [← toNat_cast_field nsteps hn, Nat.cast_sub (by omega)]
      simp
    rw [hc]
    field_simp
  · intro hlt
    exact div_neg_of_neg_of_pos (by linarith) hK

theorem fixed_step_history_times_witness :
    ∃ r, base_rungekutta.integrate (fun (_ : ℚ) h x _ => .ok (vsmul (1 + h) x)) 3 1 2 [1] [] []
        = .ok r
      ∧ r.t_history.getLast? = some 1
      ∧ ((1 : ℚ) < 3 → (1 - 3) / ((2 : Int) : ℚ) < 0) := by
  obtain ⟨r, h1, _, h3, h4⟩ := fixed_step_history_times
    (fun (_ : ℚ) h x _ => .ok (vsmul (1 + h) x)) (Dyn.total (fun (_ : ℚ) x => x))
    { m_dyn := base_hamiltonian.total 0 (fun _ q _ => q) (fun _ _ p => p), m_order := 0,
      m_c := [], m_d := [] }
    3 1 2 (by decide) [1] [] [] (fun (_ : ℚ) h x _ => .ok (vsmul (1 + h) x))
    (base_rungekutta.integrate (fun (_ : ℚ) h x _ => .ok (vsmul (1 + h) x)) 3 1 2 [1] [] [])
    (Or.inl rfl) (by simp [stepIterate])
  exact ⟨r, h1, h3, h4⟩

section Dynamics
variable {K : Type} [LinearOrderedField K]

theorem length_two {α : Type} (l : List α) (h : l.length = 2) : ∃ a b, l = [a, b] := by
  match l, h with
  | [a, b], _ => exact ⟨a, b, rfl⟩

theorem length_four {α : Type} (l : List α) (h : l.length = 4) :
    ∃ a b c d, l = [a, b, c, d] := by
  match l, h with
  | [a, b, c, d], _ => exact ⟨a, b, c, d, rfl⟩

theorem length_seven {α : Type} (l : List α) (h : l.length = 7) :
    ∃ a b c d e f g, l = [a, b, c, d, e, f, g] := by
  match l, h with
  | [a, b, c, d, e, f, g], _ => exact ⟨a, b, c, d, e, f, g, rfl⟩

theorem length_ten {α : Type} (l : List α) (h : l.length = 10) :
    ∃ a b c d e f g x y z, l = [a, b, c, d, e, f, g, x, y, z] := by
  match l, h with
  | [a, b, c, d, e, f, g, x, y, z], _ => exact ⟨a, b, c, d, e, f, g, x, y, z, rfl⟩

omit [LinearOrderedField K] in
theorem lotkavolterra_new_ok (param : List K) (lv : lotkavolterra K)
    (h : lotkavolterra.new param = .ok lv) : lv.m_param = param ∧ param.length = 4 := by
  simp only [lotkavolterra.new] at h
  split at h
  · cases h
  · rename_i hlen
    cases h
    exact ⟨rfl, not_not.mp hlen⟩

omit [LinearOrderedField K] in
theorem twobody_new_ok (param : List K) (ts rs : K) (tb : twobody K)
    (h : twobody.new param ts rs = .ok tb) :
    tb = { m_param := param, m_t_scale := ts, m_r_scale := rs } ∧ param.length = 10 := by
  simp only [twobody.new] at h
  split at h
  · cases h
  · rename_i hlen
    cases h
    exact ⟨rfl, not_not.mp hlen⟩

/-- The derivative returned by `lotkavolterra::evaluate` on a valid call. -/
theorem lotkavolterra_evaluate_ok (p0 p1 p2 p3 : K) (t x y : K) (ht : 0 ≤ t)
    (dstate : List K) :
    lotkavolterra.evaluate { m_param := [p0, p1, p2, p3] } t [x, y] dstate
      = (.ok 0, [p0 * x - p1 * (x * y), -p2 * y + p3 * (x * y)]) := by
  simp [lotkavolterra.evaluate, not_lt.mpr ht, vget, vclear]

theorem twobody_derivative_ok (sqrtT expT : K → K) (tb : twobody K)
    (hp : tb.m_param.length = 10) (state : List K) (hs : state.length = 7) :
    ∃ d, twobody.derivative sqrtT expT tb state = .ok d ∧ d.length = 7 := by
  obtain ⟨s0, s1, s2, s3, s4, s5, s6, rfl⟩ := length_seven state hs
  obtain ⟨p, ts, rs⟩ := tb
  obtain ⟨p0, p1, p2, p3, p4, p5, p6, p7, p8, p9, rfl⟩ := length_ten p hp
  simp [twobody.derivative, vget]

theorem lotkavolterra_valid (param : List K) (lv : lotkavolterra K)
    (hlv : lotkavolterra.new param = .ok lv) (t : K) (state dstate : List K)
    (h : ¬ (t < 0 ∨ state.length ≠ 2)) :
    (lotkavolterra.evaluate lv t state dstate).1 = .ok 0
      ∧ (lotkavolterra.evaluate lv t state dstate).2.length = 2
      ∧ (lotkavolterra.evaluate lv t state dstate).2.length = state.length := by
  obtain ⟨hlp, hl4⟩ := lotkavolterra_new_ok param lv hlv
  push_neg at h
  obtain ⟨x, y, rfl⟩ := length_two state h.2
  obtain ⟨p0, p1, p2, p3, hp⟩ := length_four param hl4
  obtain ⟨m⟩ := lv
  simp only at hlp
  subst hlp hp
  rw [lotkavolterra_evaluate_ok p0 p1 p2 p3 t x y h.1]
  simp

theorem lotkavolterra_invalid (lv : lotkavolterra K) (t : K) (state dstate : List K)
    (h : t < 0 ∨ state.length ≠ 2) :
    ∃ e, lotkavolterra.evaluate lv t state dstate = (.error e, dstate) := by
  simp only [lotkavolterra.evaluate]
  rcases h with h | h
  · exact ⟨_, by simp only [h, if_true]; rfl⟩
  · by_cases ht : t < 0
    · exact ⟨_, by simp only [ht, if_true]; rfl⟩
    · exact ⟨_, by simp only [ht, h, if_false, ne_eq, not_false_eq_true, if_true]; rfl⟩

theorem twobody_valid (sqrtT expT : K → K) (param : List K) (ts rs : K) (tb : twobody K)
    (htb : twobody.new param ts rs = .ok tb) (t : K) (state dstate : List K)
    (h : ¬ (t < 0 ∨ state.length ≠ 7)) :
    (twobody.evaluate sqrtT expT tb t state dstate).1 = .ok 0
      ∧ (twobody.evaluate sqrtT expT tb t state dstate).2.length = 7
      ∧ (twobody.evaluate sqrtT expT tb t state dstate).2.length = state.length := by
  obtain ⟨htp, hl10⟩ := twobody_new_ok param ts rs tb htb
  push_neg at h
  obtain ⟨d, hd, hdl⟩ := twobody_derivative_ok sqrtT expT tb (by rw [htp]; exact hl10) state h.2
  simp [twobody.evaluate, not_lt.mpr h.1, h.2, hd, vclear, hdl]

theorem twobody_invalid (sqrtT expT : K → K) (tb : twobody K) (t : K)
    (state dstate : List K) (h : t < 0 ∨ state.length ≠ 7) :
    ∃ e, twobody.evaluate sqrtT expT tb t state dstate = (.error e, dstate) := by
  simp only [twobody.evaluate]
  rcases h with h | h
  · exact ⟨_, by simp only [h, if_true]; rfl⟩
  · by_cases ht : t < 0
    · exact ⟨_, by simp only [ht, if_true]; rfl⟩
    · exact ⟨_, by simp only [ht, h, if_false, ne_eq, not_false_eq_true, if_true]; rfl⟩

end Dynamics

/-- C9. For objects built by their constructors, `lotkavolterra::evaluate` fails if and only
if `t < 0` or `state.size() != 2`, and `twobody::evaluate` fails if and only if `t < 0` or
`state.size() != 7`; in every other case the call returns 0 and leaves in `dstate` a vector
of the dimension of the state (2, respectively 7). -/
theorem evaluate_validates {K : Type} [LinearOrderedField K] (sqrtT expT : K → K)
    (param : List K) (lv : lotkavolterra K) (hlv : lotkavolterra.new param = .ok lv)
    (param2 : List K) (t_scale r_scale : K) (tb : twobody K)
    (htb : twobody.new param2 t_scale r_scale = .ok tb) (t : K) (state dstate : List K) :
    (((∃ e, (lotkavolterra.evaluate lv t state dstate).1 = .error e)
          ↔ (t < 0 ∨ state.length ≠ 2))
        ∧ (¬ (t < 0 ∨ state.length ≠ 2) →
            (lotkavolterra.evaluate lv t state dstate).1 = .ok 0
            ∧ (lotkavolterra.evaluate lv t state dstate).2.length = 2
            ∧ (lotkavolterra.evaluate lv t state dstate).2.length = state.length))
      ∧ (((∃ e, (twobody.evaluate sqrtT expT tb t state dstate).1 = .error e)
          ↔ (t < 0 ∨ state.length ≠ 7))
        ∧ (¬ (t < 0 ∨ state.length ≠ 7) →
            (twobody.evaluate sqrtT expT tb t state dstate).1 = .ok 0
            ∧ (twobody.evaluate sqrtT expT tb t state dstate).2.length = 7
            ∧ (twobody.evaluate sqrtT expT tb t state dstate).2.length = state.length)) := by
  have lvok := lotkavolterra_valid param lv hlv t state dstate
  have tbok := twobody_valid sqrtT expT param2 t_scale r_scale tb htb t state dstate
  refine ⟨⟨⟨?_, ?_⟩, lvok⟩, ⟨⟨?_, ?_⟩, tbok⟩⟩
  · rintro ⟨e, he⟩
    by_contra hc
    rw [(lvok hc).1] at he
    cases he
  · intro h
    obtain ⟨e, he⟩ := lotkavolterra_invalid lv t state dstate h
    exact ⟨e, by rw [he]⟩
  · rintro ⟨e, he⟩
    by_contra hc
    rw [(tbok hc).1] at he
    cases he
  · intro h
    obtain ⟨e, he⟩ := twobody_invalid sqrtT expT tb t state dstate h
    exact ⟨e, by rw [he]⟩

theorem evaluate_validates_witness :
    lotkavolterra.new ([1, 1, 1, 1] : List ℚ) = .ok { m_param := [1, 1, 1, 1] }
      ∧ twobody.new (List.replicate 10 (0 : ℚ)) 1 1
          = .ok { m_param := List.replicate 10 0, m_t_scale := 1, m_r_scale := 1 }
      ∧ ((∃ e, (lotkavolterra.evaluate ({ m_param := [1, 1, 1, 1] } : lotkavolterra ℚ) (-1)
            [1, 2] [5]).1 = .error e) ↔ ((-1 : ℚ) < 0 ∨ ([1, 2] : List ℚ).length ≠ 2)) :=
  ⟨rfl, rfl,
    (evaluate_validates (fun x => x) (fun x => x) ([1, 1, 1, 1] : List ℚ)
      { m_param := [1, 1, 1, 1] } rfl (List.replicate 10 (0 : ℚ)) 1 1
      { m_param := List.replicate 10 0, m_t_scale := 1, m_r_scale := 1 } rfl (-1) [1, 2]
      [5]).1.1⟩

/-- C10. For objects built by their constructors, whenever `lotkavolterra::evaluate` or
`twobody::evaluate` fails, the caller's `dstate` is exactly what it was before the call. -/
theorem evaluate_failure_keeps_dstate {K : Type} [LinearOrderedField K] (sqrtT expT : K → K)
    (param : List K) (lv : lotkavolterra K) (hlv : lotkavolterra.new param = .ok lv)
    (param2 : List K) (t_scale r_scale : K) (tb : twobody K)
    (htb : twobody.new param2 t_scale r_scale = .ok tb) (t : K) (state dstate : List K) :
    ((∃ e, (lotkavolterra.evaluate lv t state dstate).1 = .error e) →
        (lotkavolterra.evaluate lv t state dstate).2 = dstate)
      ∧ ((∃ e, (twobody.evaluate sqrtT expT tb t state dstate).1 = .error e) →
        (twobody.evaluate sqrtT expT tb t state dstate).2 = dstate) := by
  constructor
  · rintro ⟨e, he⟩
    by_cases hc : t < 0 ∨ state.length ≠ 2
    · obtain ⟨e1, h1⟩ := lotkavolterra_invalid lv t state dstate hc
      rw [h1]
    · rw [(lotkavolterra_valid param lv hlv t state dstate hc).1] at he
      cases he
  · rintro ⟨e, he⟩
    by_cases hc : t < 0 ∨ state.length ≠ 7
    · obtain ⟨e1, h1⟩ := twobody_invalid sqrtT expT tb t state dstate hc
      rw [h1]
    · rw [(twobody_valid sqrtT expT param2 t_scale r_scale tb htb t state dstate hc).1] at he
      cases he

theorem evaluate_failure_keeps_dstate_witness :
    lotkavolterra.new ([1, 1, 1, 1] : List ℚ) = .ok { m_param := [1, 1, 1, 1] }
      ∧ twobody.new (List.replicate 10 (0 : ℚ)) 1 1
          = .ok { m_param := List.replicate 10 0, m_t_scale := 1, m_r_scale := 1 }
      ∧ (∃ e, (lotkavolterra.evaluate ({ m_param := [1, 1, 1, 1] } : lotkavolterra ℚ) 0
            [1, 2, 3] [5]).1 = .error e)
      ∧ (lotkavolterra.evaluate ({ m_param := [1, 1, 1, 1] } : lotkavolterra ℚ) 0
            [1, 2, 3] [5]).2 = [5] := by
  have hf : ∃ e, (lotkavolterra.evaluate ({ m_param := [1, 1, 1, 1] } : lotkavolterra ℚ) 0
      [1, 2, 3] [5]).1 = .error e := ⟨_, by simp [lotkavolterra.evaluate]; rfl⟩
  exact ⟨rfl, rfl, hf,
    (evaluate_failure_keeps_dstate (fun x => x) (fun x => x) ([1, 1, 1, 1] : List ℚ)
      { m_param := [1, 1, 1, 1] } rfl (List.replicate 10 (0 : ℚ)) 1 1
      { m_param := List.replicate 10 0, m_t_scale := 1, m_r_scale := 1 } rfl 0 [1, 2, 3]
      [5]).1 hf⟩

/-- C11. Constructing a `leapfrog_mixedvar` fails if and only if the dynamics reports
`is_separable() == false`; for a separable dynamics it succeeds with either flag. -/
theorem leapfrog_new_separable {K : Type} (dyn : hamiltonian_mixedvar K) (flag : Bool) :
    ((∃ e, leapfrog_mixedvar.new dyn flag = .error e) ↔ dyn.is_separable = false)
      ∧ (dyn.is_separable = true →
          leapfrog_mixedvar.new dyn true = .ok { m_dyn := dyn, m_flag := true }
          ∧ leapfrog_mixedvar.new dyn false = .ok { m_dyn := dyn, m_flag := false }) := by
  cases hs : dyn.is_separable <;> simp [leapfrog_mixedvar.new, hs]

theorem leapfrog_new_separable_witness :
    (hamiltonian_mixedvar.total 1 true (fun (_ : ℚ) q _ => q) (fun _ _ p => p)
        (fun q p => (q, p)) (fun q p => (q, p))).is_separable = true
      ∧ (∃ s, leapfrog_mixedvar.new (hamiltonian_mixedvar.total 1 true (fun (_ : ℚ) q _ => q)
          (fun _ _ p => p) (fun q p => (q, p)) (fun q p => (q, p))) false = .ok s) :=
  ⟨rfl, _, ((leapfrog_new_separable (hamiltonian_mixedvar.total 1 true (fun (_ : ℚ) q _ => q)
    (fun _ _ p => p) (fun q p => (q, p)) (fun q p => (q, p))) false).2 rfl).2⟩

/-- C12. The constructor of `base_integrationwevent` fails, with the message about the
minimum step, for every `minstep_events <= 0` whatever `maxstep_events` is; when
`minstep_events > 0` it succeeds for `maxstep_events >= 0` and otherwise fails with the
message about the maximum step. -/
theorem wevent_new_minstep {K : Type} [LinearOrderedField K]
    (minstep_events maxstep_events : K) :
    (minstep_events ≤ 0 → base_integrationwevent.new minstep_events maxstep_events
        = .error (Fault.thrown "minimum step-size for events must be non negative"))
      ∧ (0 < minstep_events → 0 ≤ maxstep_events →
          base_integrationwevent.new minstep_events maxstep_events
            = .ok { m_minstep_events := minstep_events, m_maxstep_events := maxstep_events })
      ∧ (0 < minstep_events → maxstep_events < 0 →
          base_integrationwevent.new minstep_events maxstep_events
            = .error (Fault.thrown "maximum step-size for events must be positive")) := by
  refine ⟨?_, ?_, ?_⟩
  · intro h
    simp [base_integrationwevent.new, h]
  · intro h1 h2
    simp [base_integrationwevent.new, not_le.mpr h1, not_lt.mpr h2]
  · intro h1 h2
    simp [base_integrationwevent.new, not_le.mpr h1, h2]

theorem wevent_new_minstep_witness :
    (0 : ℚ) ≤ 0
      ∧ base_integrationwevent.new (0 : ℚ) 5
          = .error (Fault.thrown "minimum step-size for events must be non negative")
      ∧ (0 : ℚ) < 1 ∧ (0 : ℚ) ≤ 5
      ∧ base_integrationwevent.new (1 : ℚ) 5
          = .ok { m_minstep_events := 1, m_maxstep_events := 5 }
      ∧ (-5 : ℚ) < 0
      ∧ base_integrationwevent.new (1 : ℚ) (-5)
          = .error (Fault.thrown "maximum step-size for events must be positive") :=
  ⟨le_refl 0, (wevent_new_minstep (0 : ℚ) 5).1 (le_refl 0), by norm_num, by norm_num,
    (wevent_new_minstep (1 : ℚ) 5).2.1 (by norm_num) (by norm_num), by norm_num,
    (wevent_new_minstep (1 : ℚ) (-5)).2.2 (by norm_num) (by norm_num)⟩

/-- C13, as stated, fails: the constructor of `base_integrationwevent` accepts
`maxstep_events = 0` (with `minstep_events = 1/10^4`, the default arguments of `rkf45`). -/
theorem wevent_new_maxstep_zero_accepted :
    ¬ (∀ minstep_events maxstep_events : ℚ, maxstep_events ≤ 0 →
        ∃ e, base_integrationwevent.new minstep_events maxstep_events = .error e) := by
  intro h
  obtain ⟨e, he⟩ := h (1 / 10 ^ 4) 0 (le_refl 0)
  have hok : base_integrationwevent.new (1 / 10 ^ 4 : ℚ) 0
      = .ok { m_minstep_events := 1 / 10 ^ 4, m_maxstep_events := 0 } := by
    simp [base_integrationwevent.new]
  rw [hok] at he
  cases he

/-- C13, amended. The constructor of `base_integrationwevent` fails for every negative
`maxstep_events`, whatever `minstep_events` is; `maxstep_events = 0` is accepted whenever
`minstep_events > 0`, and so are the default arguments of `rkf45`. -/
theorem wevent_new_maxstep_negative {K : Type} [LinearOrderedField K]
    (minstep_events maxstep_events : K) :
    (maxstep_events < 0 →
        ∃ e, base_integrationwevent.new minstep_events maxstep_events = .error e)
      ∧ (0 < minstep_events → base_integrationwevent.new minstep_events 0
          = .ok { m_minstep_events := minstep_events, m_maxstep_events := 0 })
      ∧ (rkf45.newDefaultEvents : Except Fault (base_integrationwevent K))
          = .ok { m_minstep_events := 1 / 10 ^ 4, m_maxstep_events := 0 } := by
  refine ⟨?_, ?_, ?_⟩
  · intro h
    by_cases hm : minstep_events ≤ 0
    · exact ⟨_, by simp only [base_integrationwevent.new, hm, if_true]; rfl⟩
    · exact ⟨_, by simp only [base_integrationwevent.new, hm, h, if_false, if_true]; rfl⟩
  · intro h
    simp [base_integrationwevent.new, not_le.mpr h]
  · have hp : ¬ ((1 : K) / 10 ^ 4 ≤ 0) := not_le.mpr (by positivity)
    simp only [rkf45.newDefaultEvents, base_integrationwevent.new, hp, if_false, lt_self_iff_false]

theorem wevent_new_maxstep_negative_witness :
    (-1 : ℚ) < 0 ∧ (∃ e, base_integrationwevent.new (3 : ℚ) (-1) = .error e)
      ∧ (0 : ℚ) < 3
      ∧ base_integrationwevent.new (3 : ℚ) 0
          = .ok { m_minstep_events := 3, m_maxstep_events := 0 } :=
  ⟨by norm_num, (wevent_new_maxstep_negative (3 : ℚ) (-1)).1 (by norm_num), by norm_num,
    (wevent_new_maxstep_negative (3 : ℚ) (-1)).2.1 (by norm_num)⟩

/-- C14. The constructor of `lotkavolterra` fails if and only if `param.size() != 4`, the
constructor of `twobody` fails if and only if `param.size() != 10`, and the
default-constructed `twobody` (ten zero parameters, unit scaling factors) is accepted. -/
theorem dynamics_new_param_size {K : Type} [LinearOrderedField K] (param param2 : List K)
    (t_scale r_scale : K) :
    ((∃ e, lotkavolterra.new param = .error e) ↔ param.length ≠ 4)
      ∧ ((∃ e, twobody.new param2 t_scale r_scale = .error e) ↔ param2.length ≠ 10)
      ∧ (twobody.newDefault : Except Fault (twobody K))
          = .ok { m_param := List.replicate 10 0, m_t_scale := 1, m_r_scale := 1 } := by
  refine ⟨?_, ?_, ?_⟩
  · by_cases h : param.length = 4 <;> simp [lotkavolterra.new, h]
  · by_cases h : param2.length = 10 <;> simp [twobody.new, h]
  · simp [twobody.newDefault, twobody.new]

/-- C15. Let `hist` and `fin` be the history-recording and the final-state `integrate` of
`rk3` or of `base_symplectic`, called with `nsteps >= 1`, and `step` the `integration_step`
of that class.  If no step call fails, the history is non-empty and the final-state call
returns exactly the last entry of `x_history`. -/
theorem final_state_is_last_of_history {K : Type} [LinearOrderedField K] (m_dyn : Dyn K)
    (sym : base_symplectic K) (ti tend : K) (nsteps : Int) (hn : 1 ≤ nsteps) (x0 : List K)
    (xfinal : List K) (step : Step K) (hist : Except Fault (History K))
    (fin : Except Fault (List K))
    (hdrv : (step, hist, fin) = (rk3.integration_step m_dyn,
          rk3.integrate m_dyn ti tend nsteps x0 [] [],
          rk3.integrate_final m_dyn ti tend nsteps x0 xfinal)
      ∨ (step, hist, fin) = (base_symplectic.integration_step sym,
          base_symplectic.integrate sym ti tend nsteps x0 [] [],
          base_symplectic.integrate_final sym ti tend nsteps x0 xfinal))
    (hrun : ∃ y, stepIterate step ti ((tend - ti) / (nsteps : K)) nsteps.toNat x0 = .ok y) :
    ∃ r y, hist = .ok r ∧ r.x_history ≠ [] ∧ r.x_history.getLast? = some y ∧ fin = .ok y := by
  have hh : hist = base_rungekutta.integrate step ti tend nsteps x0 [] [] := by
    rcases hdrv with h | h <;> (cases h; rfl)
  have hf : fin = (do
      let r ← base_rungekutta.integrate step ti tend nsteps x0 [] []
      let xf := vassign xfinal (← vback r.x_history)
      pure xf) := by
    rcases hdrv with h | h <;> (cases h; rfl)
  obtain ⟨r, hr, _, h2, _, _⟩ := driver_total step ti tend nsteps x0 [] [] hrun
  have hne : r.x_history ≠ [] := by
    intro h0
    rw [h0] at h2
    simp at h2
    omega
  obtain ⟨y, hy⟩ : ∃ y, r.x_history.getLast? = some y := by
    cases hl : r.x_history.getLast? with
    | some y => exact ⟨y, rfl⟩
    | none => exact absurd (List.getLast?_eq_none_iff.mp hl) hne
  refine ⟨r, y, hh.trans hr, hne, hy, ?_⟩
  rw [hf, hr]
  simp [vback, hy, vassign]

theorem final_state_is_last_of_history_witness :
    ∃ r y, rk3.integrate (Dyn.total (fun (_ : ℚ) x => x)) 0 1 1 [1] [] [] = .ok r
      ∧ r.x_history ≠ [] ∧ r.x_history.getLast? = some y
      ∧ rk3.integrate_final (Dyn.total (fun (_ : ℚ) x => x)) 0 1 1 [1] [] = .ok y :=
  final_state_is_last_of_history (Dyn.total (fun (_ : ℚ) x => x))
    { m_dyn := base_hamiltonian.total 0 (fun _ q _ => q) (fun _ _ p => p), m_order := 0,
      m_c := [], m_d := [] }
    0 1 1 (by decide) [1] [] (rk3.integration_step (Dyn.total (fun (_ : ℚ) x => x)))
    (rk3.integrate (Dyn.total (fun (_ : ℚ) x => x)) 0 1 1 [1] [] [])
    (rk3.integrate_final (Dyn.total (fun (_ : ℚ) x => x)) 0 1 1 [1] [])
    (Or.inl rfl)
    (by simp [stepIterate, rk3_step_total (fun (_ : ℚ) x => x) (fun _ _ => rfl)])

/-- The six-argument `integrate` of `base_integrationwevent` always hands back the caller's
`t_history` unchanged. -/
theorem wevent_integrate_t_history {K : Type} (integrate_events : EventIntegrate K)
    (ti tend : K) (nsteps : Int) (x0 : List K) (x_history : List (List K))
    (t_history : List K) (out : List (List K) × List K)
    (h : base_integrationwevent.integrate integrate_events ti tend nsteps x0 x_history
      t_history = .ok out) : out.2 = t_history := by
  simp only [base_integrationwevent.integrate] at h
  cases hr : integrate_events ti tend nsteps x0 x_history t_history
    base_integrationwevent.dummy_event with
  | error e => rw [hr] at h; cases h
  | ok run =>
    rw [hr] at h
    cases h
    rfl

/-- C16. With an event-aware `integrate` that records the state `x0` and the time `tend`,
called with the no-op predicate from `ti = 0`, `tend = 1`, `x0 = (1)` and empty histories,
the event-aware call produces the states `((1))` and the times `(1)`, but the six-argument
`integrate` hands back the states `((1))` and an empty `t_history`. -/
theorem wevent_integrate_drops_times :
    (fun (_ tend : ℚ) (_ : Int) (x0 : List ℚ) (xh : List (List ℚ)) (th : List ℚ)
        (_ : List ℚ → ℚ → List Int) =>
        (.ok { tend := tend, x_history := xh ++ [x0], t_history := th ++ [tend] } :
          Except Fault (EventRun ℚ))) 0 1 1 [1] [] [] base_integrationwevent.dummy_event
        = .ok { tend := 1, x_history := [[1]], t_history := [1] }
      ∧ base_integrationwevent.integrate
          (fun (_ tend : ℚ) (_ : Int) (x0 : List ℚ) (xh : List (List ℚ)) (th : List ℚ)
            (_ : List ℚ → ℚ → List Int) =>
            (.ok { tend := tend, x_history := xh ++ [x0], t_history := th ++ [tend] } :
              Except Fault (EventRun ℚ))) 0 1 1 [1] [] []
        = .ok ([[1]], []) := by
  constructor <;> rfl

section LotkaVolterra
variable {K : Type} [LinearOrderedField K]

theorem lotkaVolterraField_length (p x : List K) : (lotkaVolterraField p x).length = 2 := rfl

/-- On a valid call the Lotka-Volterra dynamics returns its right-hand side. -/
theorem lotkavolterra_asDyn (param : List K) (lv : lotkavolterra K)
    (hlv : lotkavolterra.new param = .ok lv) (t : K) (x : List K) (ht : 0 ≤ t)
    (hx : x.length = 2) :
    asDyn (lotkavolterra.evaluate lv) t x = .ok (lotkaVolterraField param x) := by
  obtain ⟨hlp, hl4⟩ := lotkavolterra_new_ok param lv hlv
  obtain ⟨a, b, rfl⟩ := length_two x hx
  obtain ⟨p0, p1, p2, p3, hp⟩ := length_four param hl4
  obtain ⟨m⟩ := lv
  simp only at hlp
  subst hlp hp
  simp only [asDyn, lotkavolterra_evaluate_ok p0 p1 p2 p3 t a b ht]
  simp [lotkaVolterraField]

end LotkaVolterra

/-- C17. For a Lotka-Volterra dynamics built by its constructor, every `ti >= 0` and
`tend >= 0` (in either order), every `nsteps >= 1` and every two-component `x0`,
`rk4::integrate` completes without a validation error and returns the classical scheme
applied to the Lotka-Volterra right-hand side, a state of dimension 2; every stage time
`ti + i*h`, `ti + i*h + h/2`, `ti + (i+1)*h` it passes to `evaluate` is non-negative. -/
theorem rk4_lotkavolterra_completes {K : Type} [LinearOrderedField K] (param : List K)
    (lv : lotkavolterra K) (hlv : lotkavolterra.new param = .ok lv) (ti tend : K)
    (hti : 0 ≤ ti) (htend : 0 ≤ tend) (nsteps : Int) (hn : 1 ≤ nsteps) (x0 : List K)
    (hx0 : x0.length = 2) (xfinal : List K) :
    rk4.integrate (asDyn (lotkavolterra.evaluate lv)) ti tend nsteps x0 xfinal
        = .ok (rk4Classical (fun _ x => lotkaVolterraField param x) ti
            ((tend - ti) / (nsteps : K)) nsteps.toNat x0)
      ∧ (rk4Classical (fun _ x => lotkaVolterraField param x) ti
            ((tend - ti) / (nsteps : K)) nsteps.toNat x0).length = 2
      ∧ ∀ i, i < nsteps.toNat → 0 ≤ ti + (i : K) * ((tend - ti) / (nsteps : K))
          ∧ 0 ≤ ti + (i : K) * ((tend - ti) / (nsteps : K)) + (tend - ti) / (nsteps : K) / 2
          ∧ 0 ≤ ti + ((i + 1 : Nat) : K) * ((tend - ti) / (nsteps : K)) := by
  have ht := fun i hi => rk4_stage_times_nonneg ti tend hti htend nsteps hn i hi
  have hrun := rk4_integrate_valid (asDyn (lotkavolterra.evaluate lv))
    (fun _ x => lotkaVolterraField param x) 2 (fun _ _ _ => rfl)
    (fun t x h0 hx => lotkavolterra_asDyn param lv hlv t x h0 hx) ti tend nsteps x0 hx0 xfinal ht
  refine ⟨hrun, ?_, ht⟩
  obtain ⟨s, _, hx, hl⟩ := rk4_steps_valid (asDyn (lotkavolterra.evaluate lv))
    (fun _ x => lotkaVolterraField param x) 2 (fun _ _ _ => rfl)
    (fun t x h0 hx => lotkavolterra_asDyn param lv hlv t x h0 hx) ti
    ((tend - ti) / (nsteps : K)) x0 hx0 nsteps.toNat ht
  rw [← hx]; exact hl

theorem rk4_lotkavolterra_completes_witness :
    lotkavolterra.new ([1, 1, 1, 1] : List ℚ) = .ok { m_param := [1, 1, 1, 1] }
      ∧ (0 : ℚ) ≤ 1 ∧ (0 : ℚ) ≤ 0 ∧ (1 : Int) ≤ 1 ∧ ([1, 1] : List ℚ).length = 2
      ∧ rk4.integrate (asDyn (lotkavolterra.evaluate
          ({ m_param := [1, 1, 1, 1] } : lotkavolterra ℚ))) 1 0 1 [1, 1] []
        = .ok (rk4Classical (fun _ x => lotkaVolterraField [1, 1, 1, 1] x) 1
            ((0 - 1) / ((1 : Int) : ℚ)) (1 : Int).toNat [1, 1]) :=
  ⟨rfl, by norm_num, le_refl 0, le_refl 1, rfl,
    (rk4_lotkavolterra_completes ([1, 1, 1, 1] : List ℚ) { m_param := [1, 1, 1, 1] } rfl 1 0
      (by norm_num) (le_refl 0) 1 (le_refl 1) [1, 1] rfl []).1⟩

/-- C18. For the Lotka-Volterra dynamics with parameters `(1, 1, 1, 1)`, `ti = 1`, `tend = 0`,
`nsteps = 1` and `x0 = (1, 1)`, `rk3::integrate` fails with the validation error for a
negative time: the first stage is evaluated at `t + h = 0`, the second at `t + 3h/2 = -1/2`. -/
theorem rk3_lotkavolterra_backward_fails :
    rk3.integrate (asDyn (lotkavolterra.evaluate
        ({ m_param := [1, 1, 1, 1] } : lotkavolterra ℚ))) 1 0 1 [1, 1] [] []
      = .error (Fault.thrown "negative time supplied in evaluation of the dynamical system")
      ∧ (1 : ℚ) + (0 - 1) / ((1 : Int) : ℚ) + (0 - 1) / ((1 : Int) : ℚ) / 2 = -1 / 2 := by
  constructor
  · have h1 : asDyn (lotkavolterra.evaluate ({ m_param := [1, 1, 1, 1] } : lotkavolterra ℚ))
        (1 + (0 - 1) / ((1 : Int) : ℚ)) [1, 1] = .ok [0, 0] := by
      rw [lotkavolterra_asDyn [1, 1, 1, 1] _ rfl _ [1, 1] (by norm_num) rfl]
      norm_num [lotkaVolterraField]
    have h2 : ∀ x : List ℚ, asDyn (lotkavolterra.evaluate
        ({ m_param := [1, 1, 1, 1] } : lotkavolterra ℚ))
        (1 + (0 - 1) / ((1 : Int) : ℚ) + (0 - 1) / ((1 : Int) : ℚ) / 2) x
        = .error (Fault.thrown "negative time supplied in evaluation of the dynamical system") := by
      intro x
      have hneg : (1 : ℚ) + (0 - 1) / ((1 : Int) : ℚ) + (0 - 1) / ((1 : Int) : ℚ) / 2 < 0 := by
        norm_num
      simp only [asDyn, lotkavolterra.evaluate, hneg, if_true]
    simp only [rk3.integrate, vclear, Int.toNat_one, forLoop, Except.ok_bind_eq,
      rk3.integration_step, h1]
    simp only [List.length_cons, List.length_nil, forLoop, Except.ok_bind_eq, vget, vset,
      List.getElem?_cons_zero, List.getElem?_cons_succ, h2, Except.error_bind_eq]
    rfl
  · norm_num

section Linear
variable {K : Type} [LinearOrderedField K]

theorem rk3TextbookStep_linear (lam h t x : K) :
    rk3TextbookStep (fun _ y => vsmul lam y) h t [x]
      = [x * (1 + lam * h + (lam * h) ^ 2 / 2 + (lam * h) ^ 3 / 6)] := by
  simp only [rk3TextbookStep, vadd, vsmul, List.map_cons, List.map_nil, List.zipWith_cons_cons,
    List.zipWith_nil_right]
  congr 1
  ring

theorem rk4ClassicalStep_linear (lam h t x : K) :
    rk4ClassicalStep (fun _ y => vsmul lam y) h t [x]
      = [x * (1 + lam * h + (lam * h) ^ 2 / 2 + (lam * h) ^ 3 / 6 + (lam * h) ^ 4 / 24)] := by
  simp only [rk4ClassicalStep, vadd, vsmul, List.map_cons, List.map_nil,
    List.zipWith_cons_cons, List.zipWith_nil_right]
  congr 1
  ring

theorem rk4Classical_linear (lam ti h x0 : K) (n : Nat) :
    rk4Classical (fun _ y => vsmul lam y) ti h n [x0]
      = [x0 * (1 + lam * h + (lam * h) ^ 2 / 2 + (lam * h) ^ 3 / 6 + (lam * h) ^ 4 / 24) ^ n] := by
  induction n with
  | zero => simp [rk4Classical]
  | succ n ih =>
    rw [rk4Classical, ih, rk4ClassicalStep_linear]
    congr 1
    ring

end Linear

/-- C19. For the scalar linear dynamics `dx/dt = lam*x` over the reals, one
`rk3::integration_step` with `z = lam*h` returns `x*(1 + z + z^2/2 + z^3/6)` and
`rk4::integrate` with `z = lam*(tend - ti)/nsteps` returns
`x0*(1 + z + z^2/2 + z^3/6 + z^4/24)^nsteps`; these factors are the Taylor polynomials of
`exp`, within `(5/96)|z|^4` and `(1/100)|z|^5` of `exp z` for `|z| <= 1`. -/
theorem linear_amplification_factor (lam t h x ti tend x0 : ℝ) (nsteps : Int)
    (xfinal : List ℝ) :
    rk3.integration_step (Dyn.total (fun _ y => vsmul lam y)) t h [x] xfinal
        = .ok [x * (1 + lam * h + (lam * h) ^ 2 / 2 + (lam * h) ^ 3 / 6)]
      ∧ rk4.integrate (Dyn.total (fun _ y => vsmul lam y)) ti tend nsteps [x0] xfinal
        = .ok [x0 * (1 + lam * ((tend - ti) / (nsteps : ℝ))
            + (lam * ((tend - ti) / (nsteps : ℝ))) ^ 2 / 2
            + (lam * ((tend - ti) / (nsteps : ℝ))) ^ 3 / 6
            + (lam * ((tend - ti) / (nsteps : ℝ))) ^ 4 / 24) ^ nsteps.toNat]
      ∧ ∀ z : ℝ, |z| ≤ 1 →
          |Real.exp z - (1 + z + z ^ 2 / 2 + z ^ 3 / 6)| ≤ 5 / 96 * |z| ^ 4
          ∧ |Real.exp z - (1 + z + z ^ 2 / 2 + z ^ 3 / 6 + z ^ 4 / 24)| ≤ 1 / 100 * |z| ^ 5 := by
  refine ⟨?_, ?_, ?_⟩
  · rw [rk3_step_total _ (by simp), rk3TextbookStep_linear]
  · rw [rk4_integrate_total _ (by simp), rk4Classical_linear]
  · intro z hz
    constructor
    · have hb := Real.exp_bound hz (n := 4) (by norm_num)
      simp only [Finset.sum_range_succ, Finset.sum_range_zero, Nat.factorial] at hb
      norm_num at hb
      calc |Real.exp z - (1 + z + z ^ 2 / 2 + z ^ 3 / 6)|
          = |Real.exp z - (1 + z + z ^ 2 / 2 + z ^ 3 / 6)| := rfl
        _ ≤ 5 / 96 * |z| ^ 4 := by
          convert hb using 1; ring_nf
    · have hb := Real.exp_bound hz (n := 5) (by norm_num)
      simp only [Finset.sum_range_succ, Finset.sum_range_zero, Nat.factorial] at hb
      norm_num at hb
      calc |Real.exp z - (1 + z + z ^ 2 / 2 + z ^ 3 / 6 + z ^ 4 / 24)|
          = |Real.exp z - (1 + z + z ^ 2 / 2 + z ^ 3 / 6 + z ^ 4 / 24)| := rfl
        _ ≤ 1 / 100 * |z| ^ 5 := by
          convert hb using 1; ring_nf

theorem linear_amplification_factor_witness :
    |(1 / 2 : ℝ)| ≤ 1
      ∧ |Real.exp (1 / 2) - (1 + (1 / 2 : ℝ) + (1 / 2) ^ 2 / 2 + (1 / 2) ^ 3 / 6)|
          ≤ 5 / 96 * |(1 / 2 : ℝ)| ^ 4
      ∧ rk3.integration_step (Dyn.total (fun (_ : ℝ) y => vsmul 2 y)) 0 1 [3] []
          = .ok [3 * (1 + 2 * 1 + (2 * 1) ^ 2 / 2 + (2 * 1) ^ 3 / 6)] := by
  have hz : |(1 / 2 : ℝ)| ≤ 1 := by rw [abs_of_pos (by norm_num)]; norm_num
  have w := linear_amplification_factor 2 0 1 3 0 1 3 1 []
  exact ⟨hz, (w.2.2 (1 / 2) hz).1, w.1⟩

section Reversal
variable {K : Type} [LinearOrderedField K]

theorem vadd_vsmul_cancel (s : K) (a b : List K) (h : a.length = b.length) :
    vadd (vadd a (vsmul s b)) (vsmul (-s) b) = a := by
  induction a generalizing b with
  | nil => cases b <;> simp [vadd, vsmul]
  | cons x xs ih =>
    cases b with
    | nil => simp at h
    | cons y ys =>
      have hl : xs.length = ys.length := by simpa using h
      have := ih ys hl
      simp only [vadd, vsmul, List.map_cons, List.zipWith_cons_cons] at this ⊢
      rw [this]
      congr 1
      ring

theorem vsub_vsmul_cancel (s : K) (a b : List K) (h : a.length = b.length) :
    vsub (vsub a (vsmul s b)) (vsmul (-s) b) = a := by
  induction a generalizing b with
  | nil => cases b <;> simp [vsub, vsmul]
  | cons x xs ih =>
    cases b with
    | nil => simp at h
    | cons y ys =>
      have hl : xs.length = ys.length := by simpa using h
      have := ih ys hl
      simp only [vsub, vsmul, List.map_cons, List.zipWith_cons_cons] at this ⊢
      rw [this]
      congr 1
      ring

theorem leapfrogDrift_inv (DHp2 : K → List K → List K → List K)
    (hp_only : ∀ t t1 q q1 p, DHp2 t q p = DHp2 t1 q1 p) (t t1 s : K) (qp : List K × List K)
    (hl : qp.1.length = (DHp2 t qp.1 qp.2).length) :
    leapfrogDrift DHp2 t1 (-s) (leapfrogDrift DHp2 t s qp) = qp := by
  simp only [leapfrogDrift]
  rw [hp_only t1 t _ qp.1 qp.2, vadd_vsmul_cancel s _ _ hl]

theorem leapfrogKick_inv (DHq : K → List K → List K → List K)
    (hq_only : ∀ t t1 q p p1, DHq t q p = DHq t1 q p1) (t t1 s : K) (qp : List K × List K)
    (hl : qp.2.length = (DHq t qp.1 qp.2).length) :
    leapfrogKick DHq t1 (-s) (leapfrogKick DHq t s qp) = qp := by
  simp only [leapfrogKick]
  rw [hq_only t1 t qp.1 _ qp.2, vsub_vsmul_cancel s _ _ hl]

theorem leapfrogDrift_length (n : Nat) (DHp2 : K → List K → List K → List K)
    (hhp : ∀ t q p, q.length = n → p.length = n → (DHp2 t q p).length = n) (t s : K)
    (qp : List K × List K) (h : qp.1.length = n ∧ qp.2.length = n) :
    (leapfrogDrift DHp2 t s qp).1.length = n ∧ (leapfrogDrift DHp2 t s qp).2.length = n :=
  ⟨vadd_vsmul_length s h.1 (hhp t _ _ h.1 h.2), h.2⟩

theorem leapfrogKick_length (n : Nat) (DHq : K → List K → List K → List K)
    (hhq : ∀ t q p, q.length = n → p.length = n → (DHq t q p).length = n) (t s : K)
    (qp : List K × List K) (h : qp.1.length = n ∧ qp.2.length = n) :
    (leapfrogKick DHq t s qp).1.length = n ∧ (leapfrogKick DHq t s qp).2.length = n :=
  ⟨h.1, vsub_vsmul_length s h.2 (hhq t _ _ h.1 h.2)⟩

theorem leapfrogDKD_inv (n : Nat) (DHq DHp2 : K → List K → List K → List K)
    (conversion conversion2 : List K → List K → List K × List K)
    (hhq : ∀ t q p, q.length = n → p.length = n → (DHq t q p).length = n)
    (hhp : ∀ t q p, q.length = n → p.length = n → (DHp2 t q p).length = n)
    (hc1 : ∀ q p, q.length = n → p.length = n →
      (conversion q p).1.length = n ∧ (conversion q p).2.length = n)
    (hc2 : ∀ q p, q.length = n → p.length = n →
      (conversion2 q p).1.length = n ∧ (conversion2 q p).2.length = n)
    (hinv1 : ∀ q p, conversion2 (conversion q p).1 (conversion q p).2 = (q, p))
    (hinv2 : ∀ q p, conversion (conversion2 q p).1 (conversion2 q p).2 = (q, p))
    (hq_only : ∀ t t1 q p p1, DHq t q p = DHq t1 q p1)
    (hp_only : ∀ t t1 q q1 p, DHp2 t q p = DHp2 t1 q1 p)
    (t t1 tau : K) (qp : List K × List K) (h1 : qp.1.length = n) (h2 : qp.2.length = n) :
    leapfrogDKD DHq DHp2 conversion conversion2 t1 (-tau)
      (leapfrogDKD DHq DHp2 conversion conversion2 t tau qp) = qp := by
  have lA := hc1 _ _ h1 h2
  have lB := leapfrogDrift_length n DHp2 hhp t (tau / 2) _ lA
  have lC := hc2 _ _ lB.1 lB.2
  have lD := leapfrogKick_length n DHq hhq t tau _ lC
  have lE := hc1 _ _ lD.1 lD.2
  simp only [leapfrogDKD]
  rw [hinv2, Prod.mk.eta, neg_div,
    leapfrogDrift_inv DHp2 hp_only t t1 (tau / 2) _ (lE.1.trans (hhp t _ _ lE.1 lE.2).symm),
    hinv1, Prod.mk.eta,
    leapfrogKick_inv DHq hq_only t t1 tau _ (lC.2.trans (hhq t _ _ lC.1 lC.2).symm),
    hinv2, Prod.mk.eta,
    leapfrogDrift_inv DHp2 hp_only t t1 (tau / 2) _ (lA.1.trans (hhp t _ _ lA.1 lA.2).symm),
    hinv1]

theorem leapfrogKDK_inv (n : Nat) (DHq DHp2 : K → List K → List K → List K)
    (conversion conversion2 : List K → List K → List K × List K)
    (hhq : ∀ t q p, q.length = n → p.length = n → (DHq t q p).length = n)
    (hhp : ∀ t q p, q.length = n → p.length = n → (DHp2 t q p).length = n)
    (hc1 : ∀ q p, q.length = n → p.length = n →
      (conversion q p).1.length = n ∧ (conversion q p).2.length = n)
    (hc2 : ∀ q p, q.length = n → p.length = n →
      (conversion2 q p).1.length = n ∧ (conversion2 q p).2.length = n)
    (hinv1 : ∀ q p, conversion2 (conversion q p).1 (conversion q p).2 = (q, p))
    (hinv2 : ∀ q p, conversion (conversion2 q p).1 (conversion2 q p).2 = (q, p))
    (hq_only : ∀ t t1 q p p1, DHq t q p = DHq t1 q p1)
    (hp_only : ∀ t t1 q q1 p, DHp2 t q p = DHp2 t1 q1 p)
    (t t1 tau : K) (qp : List K × List K) (h1 : qp.1.length = n) (h2 : qp.2.length = n) :
    leapfrogKDK DHq DHp2 conversion conversion2 t1 (-tau)
      (leapfrogKDK DHq DHp2 conversion conversion2 t tau qp) = qp := by
  have lA := leapfrogKick_length n DHq hhq t (tau / 2) qp ⟨h1, h2⟩
  have lB := hc1 _ _ lA.1 lA.2
  have lC := leapfrogDrift_length n DHp2 hhp t tau _ lB
  have lD := hc2 _ _ lC.1 lC.2
  simp only [leapfrogKDK]
  rw [neg_div,
    leapfrogKick_inv DHq hq_only t t1 (tau / 2) _ (lD.2.trans (hhq t _ _ lD.1 lD.2).symm),
    hinv2, Prod.mk.eta,
    leapfrogDrift_inv DHp2 hp_only t t1 tau _ (lB.1.trans (hhp t _ _ lB.1 lB.2).symm),
    hinv1, leapfrogKick_inv DHq hq_only t t1 (tau / 2) _ (h2.trans (hhq t _ _ h1 h2).symm)]

end Reversal

/-- C20. If `conversion` and `conversion2` are mutual inverses, `DHq` depends only on `q` and
`DHp2` only on `p` (and not on time), then for either value of the flag, every `tau` and every
state `x` of length `2n`, `integration_step` with step `tau` succeeds and `integration_step`
with step `-tau` applied to its result returns exactly `x`. -/
theorem leapfrog_step_reversible {K : Type} [LinearOrderedField K] (n : Nat)
    (separable flag : Bool) (DHq DHp2 : K → List K → List K → List K)
    (conversion conversion2 : List K → List K → List K × List K)
    (hhq : ∀ t q p, q.length = n → p.length = n → (DHq t q p).length = n)
    (hhp : ∀ t q p, q.length = n → p.length = n → (DHp2 t q p).length = n)
    (hc1 : ∀ q p, q.length = n → p.length = n →
      (conversion q p).1.length = n ∧ (conversion q p).2.length = n)
    (hc2 : ∀ q p, q.length = n → p.length = n →
      (conversion2 q p).1.length = n ∧ (conversion2 q p).2.length = n)
    (hinv1 : ∀ q p, conversion2 (conversion q p).1 (conversion q p).2 = (q, p))
    (hinv2 : ∀ q p, conversion (conversion2 q p).1 (conversion2 q p).2 = (q, p))
    (hq_only : ∀ t t1 q p p1, DHq t q p = DHq t1 q p1)
    (hp_only : ∀ t t1 q q1 p, DHp2 t q p = DHp2 t1 q1 p)
    (ti ti1 tau : K) (x : List K) (hx : x.length = 2 * n) (xfinal xfinal1 : List K) :
    ∃ y, leapfrog_mixedvar.integration_step
          { m_dyn := hamiltonian_mixedvar.total n separable DHq DHp2 conversion conversion2,
            m_flag := flag } ti tau x xfinal = .ok y
      ∧ leapfrog_mixedvar.integration_step
          { m_dyn := hamiltonian_mixedvar.total n separable DHq DHp2 conversion conversion2,
            m_flag := flag } ti1 (-tau) y xfinal1 = .ok x := by
  obtain ⟨r, hr, hstep, l1, l2⟩ := leapfrog_step_total n separable flag DHq DHp2 conversion
    conversion2 hhq hhp hc1 hc2 ti tau x hx xfinal
  have hy : (r.1 ++ r.2).length = 2 * n := by rw [List.length_append, l1, l2]; omega
  obtain ⟨r1, hr1, hback, _, _⟩ := leapfrog_step_total n separable flag DHq DHp2 conversion
    conversion2 hhq hhp hc1 hc2 ti1 (-tau) (r.1 ++ r.2) hy xfinal1
  have htake : (r.1 ++ r.2).take n = r.1 := by rw [← l1, List.take_left']; rfl
  have hdrop : (r.1 ++ r.2).drop n = r.2 := by rw [← l1, List.drop_left']; rfl
  have hxl : (x.take n).length = n := by simp; omega
  have hxr : (x.drop n).length = n := by simp; omega
  refine ⟨r.1 ++ r.2, hstep, ?_⟩
  rw [hback]
  congr 1
  rw [htake, hdrop, Prod.mk.eta] at hr1
  have hinv : r1 = (x.take n, x.drop n) := by
    rw [hr1, hr]
    cases flag
    · simp only [Bool.false_eq_true, if_false]
      exact leapfrogKDK_inv n DHq DHp2 conversion conversion2 hhq hhp hc1 hc2 hinv1 hinv2
        hq_only hp_only ti ti1 tau _ hxl hxr
    · simp only [if_true]
      exact leapfrogDKD_inv n DHq DHp2 conversion conversion2 hhq hhp hc1 hc2 hinv1 hinv2
        hq_only hp_only ti ti1 tau _ hxl hxr
  rw [hinv]
  exact List.take_append_drop n x

theorem leapfrog_step_reversible_witness :
    ∃ y, leapfrog_mixedvar.integration_step
          { m_dyn := hamiltonian_mixedvar.total 1 true (fun (_ : ℚ) q _ => q)
              (fun _ _ p => p) (fun q p => (q, p)) (fun q p => (q, p)),
            m_flag := false } 0 2 [1, 2] [] = .ok y
      ∧ leapfrog_mixedvar.integration_step
          { m_dyn := hamiltonian_mixedvar.total 1 true (fun (_ : ℚ) q _ => q)
              (fun _ _ p => p) (fun q p => (q, p)) (fun q p => (q, p)),
            m_flag := false } 0 (-2) y [] = .ok [1, 2] :=
  leapfrog_step_reversible 1 true false (fun (_ : ℚ) q _ => q) (fun _ _ p => p)
    (fun q p => (q, p)) (fun q p => (q, p)) (fun _ _ _ h _ => h) (fun _ _ _ _ h => h)
    (fun _ _ h1 h2 => ⟨h1, h2⟩) (fun _ _ h1 h2 => ⟨h1, h2⟩) (fun _ _ => rfl) (fun _ _ => rfl)
    (fun _ _ _ _ _ => rfl) (fun _ _ _ _ _ => rfl) 0 0 2 [1, 2] rfl [] []

/-- C26. For every state vector `x`, the empty one included, and every time `d`,
`dummy_event(x, d)` is the sequence with exactly one entry, equal to 0. -/
theorem dummy_event_no_event {K : Type} (x : List K) (d : K) :
    base_integrationwevent.dummy_event x d = [0]
      ∧ base_integrationwevent.dummy_event ([] : List K) d = [0] :=
  ⟨rfl, rfl⟩

/-- C27. For a `lotkavolterra` built from the parameters `(p0, p1, p2, p3)`, every `t >= 0`
and every state `(x, y)`, `evaluate` returns 0 and leaves in `dstate` exactly
`(p0*x - p1*x*y, -p2*y + p3*x*y)`, whatever `t` and the prior content of `dstate` are. -/
theorem lotkavolterra_evaluate_formula {K : Type} [LinearOrderedField K] (p0 p1 p2 p3 : K)
    (lv : lotkavolterra K) (hlv : lotkavolterra.new [p0, p1, p2, p3] = .ok lv) (t : K)
    (ht : 0 ≤ t) (x y : K) (dstate : List K) :
    lotkavolterra.evaluate lv t [x, y] dstate
        = (.ok 0, [p0 * x - p1 * x * y, -p2 * y + p3 * x * y])
      ∧ ∀ (t1 : K) (dstate1 : List K), 0 ≤ t1 →
          lotkavolterra.evaluate lv t1 [x, y] dstate1
            = lotkavolterra.evaluate lv t [x, y] dstate := by
  obtain ⟨hlp, _⟩ := lotkavolterra_new_ok _ lv hlv
  obtain ⟨m⟩ := lv
  simp only at hlp
  subst hlp
  refine ⟨?_, ?_⟩
  · rw [lotkavolterra_evaluate_ok p0 p1 p2 p3 t x y ht]
    simp only [Prod.mk.injEq, List.cons.injEq, and_true, true_and]
    constructor <;> ring
  · intro t1 dstate1 ht1
    rw [lotkavolterra_evaluate_ok p0 p1 p2 p3 t x y ht,
      lotkavolterra_evaluate_ok p0 p1 p2 p3 t1 x y ht1]

theorem lotkavolterra_evaluate_formula_witness :
    lotkavolterra.new ([1, 2, 3, 4] : List ℚ) = .ok { m_param := [1, 2, 3, 4] }
      ∧ (0 : ℚ) ≤ 5
      ∧ lotkavolterra.evaluate ({ m_param := [1, 2, 3, 4] } : lotkavolterra ℚ) 5 [2, 3] [9, 9, 9]
          = (.ok 0, [1 * 2 - 2 * 2 * 3, -3 * 3 + 4 * 2 * 3]) :=
  ⟨rfl, by norm_num,
    (lotkavolterra_evaluate_formula (1 : ℚ) 2 3 4 { m_param := [1, 2, 3, 4] } rfl 5
      (by norm_num) 2 3 [9, 9, 9]).1⟩

/-- C25. `rk4::integrate`, the three history-recording `integrate` methods and
`rkf45::integration_step` return the same outcome for equal `ti`, `tend` (or `h`), `nsteps`
and `x0`, whatever the contents of the output arguments `xfinal`, `x_history`, `t_history`
and `er` were before the call. -/
theorem outputs_independent_of_prior_contents {K : Type} [LinearOrderedField K]
    (m_dyn : Dyn K) (integration_step : Step K) (sym : base_symplectic K) (sqrtT : K → K)
    (ti tend h : K) (nsteps : Int) (m : Nat) (f : List (List K)) (x0 : List K)
    (xfinal xfinal1 : List K) (x_history x_history1 : List (List K))
    (t_history t_history1 : List K) (er er1 : K) :
    rk4.integrate m_dyn ti tend nsteps x0 xfinal
        = rk4.integrate m_dyn ti tend nsteps x0 xfinal1
      ∧ base_rungekutta.integrate integration_step ti tend nsteps x0 x_history t_history
        = base_rungekutta.integrate integration_step ti tend nsteps x0 x_history1 t_history1
      ∧ rk3.integrate m_dyn ti tend nsteps x0 x_history t_history
        = rk3.integrate m_dyn ti tend nsteps x0 x_history1 t_history1
      ∧ base_symplectic.integrate sym ti tend nsteps x0 x_history t_history
        = base_symplectic.integrate sym ti tend nsteps x0 x_history1 t_history1
      ∧ rkf45.integration_step sqrtT m_dyn ti m h x0 f xfinal er
        = rkf45.integration_step sqrtT m_dyn ti m h x0 f xfinal1 er1 :=
  ⟨rfl, rfl, rfl, rfl, rfl⟩

section Oscillator
variable {K : Type} [LinearOrderedField K]

theorem oscillatorMatrix_det (tau : K) (c d : List K) (j : Nat) :
    (oscillatorMatrix tau c d j).det = 1 := by
  induction j with
  | zero => simp [oscillatorMatrix, Mat2.det]
  | succ j ih =>
    simp only [Mat2.det] at ih
    simp only [oscillatorMatrix, Mat2.det]
    linear_combination ih

theorem symplecticFold_oscillator (ti tau : K) (c d : List K) (q p : K) (j : Nat) :
    symplecticFold (fun _ q _ => q) (fun _ _ p => p) ti tau c d j ([q], [p])
      = ([(oscillatorMatrix tau c d j).a11 * q + (oscillatorMatrix tau c d j).a12 * p],
         [(oscillatorMatrix tau c d j).a21 * q + (oscillatorMatrix tau c d j).a22 * p]) := by
  induction j with
  | zero => simp [symplecticFold, oscillatorMatrix]
  | succ j ih =>
    rw [symplecticFold, ih]
    simp only [symplecticSubstage, oscillatorMatrix, vadd, vsub, vsmul, List.map_cons,
      List.map_nil, List.zipWith_cons_cons, List.zipWith_nil_right, Prod.mk.injEq,
      List.cons.injEq, and_true]
    constructor <;> ring

end Oscillator

/-- C21. For one degree of freedom and the harmonic-oscillator derivatives `DHp = p`,
`DHq = q`, for every step `tau`, every order and all coefficient arrays `c`, `d` with at
least `order` entries, `base_symplectic::integration_step` maps every `(q, p)` to
`(a11*q + a12*p, a21*q + a22*p)` for one matrix that does not depend on `(q, p)` and whose
determinant is exactly 1. -/
theorem symplectic_step_area_preserving {K : Type} [LinearOrderedField K] (order : Nat)
    (c d : List K) (hc : order ≤ c.length) (hd : order ≤ d.length) (ti tau : K) :
    ∃ m : Mat2 K, m.det = 1 ∧ ∀ (q p : K) (xfinal : List K),
      base_symplectic.integration_step
          { m_dyn := base_hamiltonian.total 1 (fun _ q _ => q) (fun _ _ p => p),
            m_order := (order : Int), m_c := c, m_d := d } ti tau [q, p] xfinal
        = .ok [m.a11 * q + m.a12 * p, m.a21 * q + m.a22 * p] := by
  refine ⟨oscillatorMatrix tau c d order, oscillatorMatrix_det tau c d order, ?_⟩
  intro q p xfinal
  rw [symplectic_step_total 1 order c d (fun _ q _ => q) (fun _ _ p => p)
    (fun _ _ _ h _ => h) (fun _ _ _ _ h => h) hc hd ti tau [q, p] rfl xfinal]
  simp only [List.take_succ_cons, List.take_zero, List.drop_succ_cons, List.drop_zero,
    symplecticFold_oscillator]
  rfl

theorem symplectic_step_area_preserving_witness :
    2 ≤ ([1, 2] : List ℚ).length ∧ 2 ≤ ([3, 4] : List ℚ).length
      ∧ ∃ m : Mat2 ℚ, m.det = 1 ∧ ∀ (q p : ℚ) (xfinal : List ℚ),
        base_symplectic.integration_step
            { m_dyn := base_hamiltonian.total 1 (fun (_ : ℚ) q _ => q) (fun _ _ p => p),
              m_order := ((2 : Nat) : Int), m_c := [1, 2], m_d := [3, 4] } 0 (1 / 2) [q, p]
              xfinal
          = .ok [m.a11 * q + m.a12 * p, m.a21 * q + m.a22 * p] :=
  ⟨by decide, by decide,
    symplectic_step_area_preserving 2 ([1, 2] : List ℚ) [3, 4] (by decide) (by decide) 0 (1 / 2)⟩

section LeapfrogOscillator
variable {K : Type} [LinearOrderedField K]

/-- One kick-drift-kick step for the harmonic oscillator with identity conversions. -/
theorem leapfrog_oscillator_step (separable : Bool) (ti tau q p : K) (xfinal : List K) :
    leapfrog_mixedvar.integration_step
        { m_dyn := hamiltonian_mixedvar.total 1 separable (fun _ q _ => q) (fun _ _ p => p)
            (fun q p => (q, p)) (fun q p => (q, p)),
          m_flag := false } ti tau [q, p] xfinal
      = .ok [q + tau * (p - tau / 2 * q),
          p - tau / 2 * q - tau / 2 * (q + tau * (p - tau / 2 * q))] := by
  obtain ⟨r, hr, hstep, _, _⟩ := leapfrog_step_total 1 separable false (fun (_ : K) q _ => q)
    (fun _ _ p => p) (fun q p => (q, p)) (fun q p => (q, p)) (fun _ _ _ h _ => h)
    (fun _ _ _ _ h => h) (fun _ _ h1 h2 => ⟨h1, h2⟩) (fun _ _ h1 h2 => ⟨h1, h2⟩) ti tau [q, p]
    rfl xfinal
  rw [hstep, hr]
  simp [leapfrogKDK, leapfrogKick, leapfrogDrift, vadd, vsub, vsmul]

theorem leapfrog_oscillator_invariant (tau q p : K) :
    (p - tau / 2 * q - tau / 2 * (q + tau * (p - tau / 2 * q))) ^ 2
        + (1 - tau ^ 2 / 4) * (q + tau * (p - tau / 2 * q)) ^ 2
      = p ^ 2 + (1 - tau ^ 2 / 4) * q ^ 2 := by
  ring

theorem leapfrog_oscillator_steps (separable : Bool) (ti tau q0 p0 : K) (m : Nat) :
    ∃ q p, stepIterate (leapfrog_mixedvar.integration_step
          { m_dyn := hamiltonian_mixedvar.total 1 separable (fun _ q _ => q) (fun _ _ p => p)
              (fun q p => (q, p)) (fun q p => (q, p)),
            m_flag := false }) ti tau m [q0, p0] = .ok [q, p]
      ∧ p ^ 2 + (1 - tau ^ 2 / 4) * q ^ 2 = p0 ^ 2 + (1 - tau ^ 2 / 4) * q0 ^ 2 := by
  induction m with
  | zero => exact ⟨q0, p0, rfl, rfl⟩
  | succ m ih =>
    obtain ⟨q, p, hs, hI⟩ := ih
    refine ⟨q + tau * (p - tau / 2 * q),
      p - tau / 2 * q - tau / 2 * (q + tau * (p - tau / 2 * q)), ?_, ?_⟩
    · rw [stepIterate, hs, Except.ok_bind_eq, leapfrog_oscillator_step]
    · rw [leapfrog_oscillator_invariant, hI]

/-- With `0 < b <= 1`, the energy `(p^2 + q^2)/2` is at most `(p^2 + b*q^2)/(2*b)`. -/
theorem energy_le_of_invariant (b q p : K) (hb0 : 0 < b) (hb1 : b ≤ 1) :
    (p ^ 2 + q ^ 2) / 2 ≤ (p ^ 2 + b * q ^ 2) / (2 * b) := by
  rw [div_le_div_iff₀ (by norm_num) (by positivity)]
  nlinarith [sq_nonneg p, sq_nonneg q, mul_nonneg (sub_nonneg.mpr hb1) (sq_nonneg p)]

end LeapfrogOscillator

/-- C22. For the harmonic oscillator (`n = 1`, `DHq = q`, `DHp2 = p`) with identity
conversions and the kick-drift-kick ordering, every `integration_step` with step `tau` leaves
`p^2 + (1 - tau^2/4)*q^2` exactly unchanged; hence after any number `m` of steps with
`|tau| < 2` the Hamiltonian `(p^2 + q^2)/2` is at most
`(p0^2 + (1 - tau^2/4)*q0^2) / (2*(1 - tau^2/4))`, a bound that does not depend on `m`. -/
theorem leapfrog_oscillator_no_drift {K : Type} [LinearOrderedField K] (separable : Bool)
    (ti tau q0 p0 : K) (xfinal : List K) (m : Nat) :
    (∃ q p, leapfrog_mixedvar.integration_step
          { m_dyn := hamiltonian_mixedvar.total 1 separable (fun _ q _ => q) (fun _ _ p => p)
              (fun q p => (q, p)) (fun q p => (q, p)),
            m_flag := false } ti tau [q0, p0] xfinal = .ok [q, p]
        ∧ p ^ 2 + (1 - tau ^ 2 / 4) * q ^ 2 = p0 ^ 2 + (1 - tau ^ 2 / 4) * q0 ^ 2)
      ∧ ∃ q p, stepIterate (leapfrog_mixedvar.integration_step
          { m_dyn := hamiltonian_mixedvar.total 1 separable (fun _ q _ => q) (fun _ _ p => p)
              (fun q p => (q, p)) (fun q p => (q, p)),
            m_flag := false }) ti tau m [q0, p0] = .ok [q, p]
        ∧ p ^ 2 + (1 - tau ^ 2 / 4) * q ^ 2 = p0 ^ 2 + (1 - tau ^ 2 / 4) * q0 ^ 2
        ∧ (|tau| < 2 → (p ^ 2 + q ^ 2) / 2
            ≤ (p0 ^ 2 + (1 - tau ^ 2 / 4) * q0 ^ 2) / (2 * (1 - tau ^ 2 / 4))) := by
  refine ⟨⟨_, _, leapfrog_oscillator_step separable ti tau q0 p0 xfinal,
    leapfrog_oscillator_invariant tau q0 p0⟩, ?_⟩
  obtain ⟨q, p, hs, hI⟩ := leapfrog_oscillator_steps separable ti tau q0 p0 m
  refine ⟨q, p, hs, hI, ?_⟩
  intro ht
  have h2 : tau ^ 2 < 4 := by
    have := abs_lt.mp ht
    nlinarith
  rw [← hI]
  exact energy_le_of_invariant _ q p (by linarith) (by nlinarith [sq_nonneg tau])

theorem leapfrog_oscillator_no_drift_witness :
    |(1 : ℚ)| < 2
      ∧ ∃ q p, stepIterate (leapfrog_mixedvar.integration_step
          { m_dyn := hamiltonian_mixedvar.total 1 true (fun (_ : ℚ) q _ => q) (fun _ _ p => p)
              (fun q p => (q, p)) (fun q p => (q, p)),
            m_flag := false }) 0 1 100 [1, 0] = .ok [q, p]
        ∧ (p ^ 2 + q ^ 2) / 2
            ≤ ((0 : ℚ) ^ 2 + (1 - 1 ^ 2 / 4) * 1 ^ 2) / (2 * (1 - 1 ^ 2 / 4)) := by
  have hτ : |(1 : ℚ)| < 2 := by rw [abs_one]; norm_num
  obtain ⟨_, q, p, hs, _, hb⟩ := leapfrog_oscillator_no_drift true (0 : ℚ) 1 1 0 [] 100
  exact ⟨hτ, q, p, hs, hb hτ⟩

section Quadrature
variable {K : Type} [LinearOrderedField K]

@[simp] theorem vsmul_replicate (c a : K) (n : Nat) :
    vsmul c (List.replicate n a) = List.replicate n (c * a) := by
  simp [vsmul]

@[simp] theorem vadd_replicate (a b : K) (n : Nat) :
    vadd (List.replicate n a) (List.replicate n b) = List.replicate n (a + b) := by
  simp [vadd]

theorem vadd_replicate_right (x : List K) (a : K) :
    vadd x (List.replicate x.length a) = x.map (· + a) := by
  induction x with
  | nil => rfl
  | cons y ys ih =>
    simp only [vadd] at ih
    simp [vadd, List.replicate_succ, ih]

theorem fehlbergOrder4_quadrature (k : Nat) (hk : k ≤ 3) (t h : K) (x : List K) :
    fehlbergOrder4 (fun s y => List.replicate y.length (s ^ k)) h t x
      = x.map (· + ((t + h) ^ (k + 1) - t ^ (k + 1)) / ((k : K) + 1)) := by
  simp only [fehlbergOrder4, fehlbergStages, vsmul_replicate, vadd_replicate, vsmul_length,
    vadd_length, List.length_replicate, List.length_map, min_self, vadd_replicate_right]
  congr 1
  funext a
  congr 1
  interval_cases k <;> (push_cast; ring)

theorem fehlbergOrder5_quadrature (k : Nat) (hk : k ≤ 3) (t h : K) (x : List K) :
    fehlbergOrder5 (fun s y => List.replicate y.length (s ^ k)) h t x
      = x.map (· + ((t + h) ^ (k + 1) - t ^ (k + 1)) / ((k : K) + 1)) := by
  simp only [fehlbergOrder5, fehlbergStages, vsmul_replicate, vadd_replicate, vsmul_length,
    vadd_length, List.length_replicate, List.length_map, min_self, vadd_replicate_right]
  congr 1
  funext a
  congr 1
  interval_cases k <;> (push_cast; ring)

theorem sqDist_self (a : List K) : sqDist a a = 0 :=
  (sqDist_eq_zero_iff a a rfl).mpr rfl

end Quadrature

/-- C23. For the dynamics whose derivative is `t^k` in every component, `k` in
`{0, 1, 2, 3}`, and a non-empty `x0`, `rkf45::integration_step` from time `t` with step `h`
returns in every component exactly `x0_j + ((t+h)^(k+1) - t^(k+1))/(k+1)` and the error
estimate exactly 0 (over the reals). -/
theorem rkf45_quadrature_exact (k : Nat) (hk : k ≤ 3) (t h : ℝ) (m : Nat) (x0 : List ℝ)
    (hx0 : x0 ≠ []) (f : List (List ℝ)) (xfinal : List ℝ) (er : ℝ) :
    rkf45.integration_step Real.sqrt
        (Dyn.total (fun s y => List.replicate y.length (s ^ k))) t m h x0 f xfinal er
      = .ok (x0.map (· + ((t + h) ^ (k + 1) - t ^ (k + 1)) / ((k : ℝ) + 1)), 0) := by
  rw [rkf45_step_total Real.sqrt _ (by simp) t m h x0 hx0 f xfinal er,
    fehlbergOrder4_quadrature k hk, fehlbergOrder5_quadrature k hk, sqDist_self,
    Real.sqrt_zero]

theorem rkf45_quadrature_exact_witness :
    2 ≤ 3 ∧ ([5] : List ℝ) ≠ []
      ∧ rkf45.integration_step Real.sqrt
          (Dyn.total (fun (s : ℝ) y => List.replicate y.length (s ^ 2))) 1 0 2 [5] [] [] 7
        = .ok ([5].map (· + (((1 : ℝ) + 2) ^ (2 + 1) - 1 ^ (2 + 1)) / (((2 : Nat) : ℝ) + 1)), 0) :=
  ⟨by decide, by simp, rkf45_quadrature_exact 2 (by decide) 1 2 0 [5] (by simp) [] [] 7⟩

section Equilibrium
variable {K : Type} [LinearOrderedField K]

theorem vadd_vsmul_zeros (x : List K) (c : K) :
    vadd x (vsmul c (List.replicate x.length 0)) = x := by
  rw [vsmul_replicate, mul_zero, vadd_replicate_right]
  simp

theorem vadd_zeros (x : List K) : vadd x (List.replicate x.length 0) = x := by
  rw [vadd_replicate_right]; simp

end Equilibrium

section ZeroStep
variable {K : Type} [LinearOrderedField K]

theorem vsmul_zero_left (v : List K) : vsmul 0 v = List.replicate v.length 0 := by
  induction v with
  | nil => rfl
  | cons a as ih =>
    simp only [vsmul] at ih
    simp [vsmul, List.replicate_succ, ih]

theorem vadd_vsmul_zero_left (x v : List K) (h : v.length = x.length) :
    vadd x (vsmul 0 v) = x := by
  rw [vsmul_zero_left, h, vadd_zeros]

theorem vsub_vsmul_zero_left (x v : List K) (h : v.length = x.length) :
    vsub x (vsmul 0 v) = x := by
  induction x generalizing v with
  | nil => cases v <;> simp [vsub, vsmul]
  | cons a as ih =>
    cases v with
    | nil => simp at h
    | cons b bs =>
      have hl : bs.length = as.length := by simpa using h
      have := ih bs hl
      simp only [vsub, vsmul, List.map_cons, List.zipWith_cons_cons] at this ⊢
      rw [this]
      simp

theorem rk3TextbookStep_zero_step (g : K → List K → List K)
    (hdim : ∀ t x, (g t x).length = x.length) (t : K) (x : List K) :
    rk3TextbookStep g 0 t x = x := by
  simp only [rk3TextbookStep, zero_div]
  exact vadd_vsmul_zero_left x _ (by simp [hdim])

theorem rk4ClassicalStep_zero_step (g : K → List K → List K)
    (hdim : ∀ t x, (g t x).length = x.length) (t : K) (x : List K) :
    rk4ClassicalStep g 0 t x = x := by
  simp only [rk4ClassicalStep, zero_div]
  exact vadd_vsmul_zero_left x _ (by simp [hdim])

theorem rk4Classical_zero_step (g : K → List K → List K)
    (hdim : ∀ t x, (g t x).length = x.length) (ti : K) (m : Nat) (x : List K) :
    rk4Classical g ti 0 m x = x := by
  induction m with
  | zero => rfl
  | succ m ih => rw [rk4Classical, ih, rk4ClassicalStep_zero_step g hdim]

theorem fehlbergOrder4_zero_step (g : K → List K → List K)
    (hdim : ∀ t x, (g t x).length = x.length) (t : K) (x : List K) :
    fehlbergOrder4 g 0 t x = x := by
  simp only [fehlbergOrder4]
  exact vadd_vsmul_zero_left x _ (by simp [fehlbergStages, hdim])

theorem fehlbergOrder5_zero_step (g : K → List K → List K)
    (hdim : ∀ t x, (g t x).length = x.length) (t : K) (x : List K) :
    fehlbergOrder5 g 0 t x = x := by
  simp only [fehlbergOrder5]
  exact vadd_vsmul_zero_left x _ (by simp [fehlbergStages, hdim])

theorem symplecticFold_zero_step (DHq DHp : K → List K → List K → List K) (n : Nat)
    (hhq : ∀ t q p, q.length = n → p.length = n → (DHq t q p).length = n)
    (hhp : ∀ t q p, q.length = n → p.length = n → (DHp t q p).length = n)
    (ti : K) (c d : List K) (j : Nat) (qp : List K × List K) (h1 : qp.1.length = n)
    (h2 : qp.2.length = n) : symplecticFold DHq DHp ti 0 c d j qp = qp := by
  induction j with
  | zero => rfl
  | succ j ih =>
    rw [symplecticFold, ih]
    simp only [symplecticSubstage, mul_zero]
    rw [vadd_vsmul_zero_left _ _ ((hhp ti _ _ h1 h2).trans h1.symm),
      vsub_vsmul_zero_left _ _ ((hhq ti _ _ h1 h2).trans h2.symm)]

/-- A driver whose step primitive returns `x0` from `x0` records `x0` at every step. -/
theorem driver_constant (step : Step K) (ti tend : K) (nsteps : Int) (x0 : List K)
    (x_history : List (List K)) (t_history : List K)
    (hstep : ∀ t, step t ((tend - ti) / (nsteps : K)) x0 x0 = .ok x0) :
    ∃ r, base_rungekutta.integrate step ti tend nsteps x0 x_history t_history = .ok r
      ∧ r.x_history.length = nsteps.toNat
      ∧ ∀ i, i < nsteps.toNat → r.x_history[i]? = some x0 := by
  have hit : ∀ m, stepIterate step ti ((tend - ti) / (nsteps : K)) m x0 = .ok x0 := by
    intro m
    induction m with
    | zero => rfl
    | succ m ih => rw [stepIterate, ih, Except.ok_bind_eq, hstep]
  obtain ⟨r, hr, _, h2, _, h4⟩ :=
    driver_total step ti tend nsteps x0 x_history t_history ⟨x0, hit _⟩
  refine ⟨r, hr, h2, ?_⟩
  intro i hi
  obtain ⟨x, y, _, _, _, e4, e5⟩ := h4 i hi
  rw [hit (i + 1)] at e5
  cases e5
  exact e4

end ZeroStep

/-- C30. For a total, dimension-preserving dynamics, `rk3::integration_step` with `h = 0`
returns `x0`, and `rkf45::integration_step` with `h = 0` returns `x0` with error estimate 0
for a non-empty `x0` (`sqrtT 0 = 0`); `base_symplectic::integration_step` with `tau = 0`
returns `x0` for every `x0` of length `2n`, every order and all coefficient arrays with at
least `order` entries; `rk4::integrate` with `tend = ti` returns `x0`, and the
history-recording drivers of `rk3` and `base_symplectic` with `tend = ti` record `x0` at every
one of the `nsteps` steps. -/
theorem zero_step_is_identity {K : Type} [LinearOrderedField K] (sqrtT : K → K)
    (hsqrt : sqrtT 0 = 0) (g : K → List K → List K)
    (hdim : ∀ t x, (g t x).length = x.length) (n order : Nat) (c d : List K)
    (DHq DHp : K → List K → List K → List K)
    (hhq : ∀ t q p, q.length = n → p.length = n → (DHq t q p).length = n)
    (hhp : ∀ t q p, q.length = n → p.length = n → (DHp t q p).length = n)
    (hc : order ≤ c.length) (hd : order ≤ d.length) (ti : K) (nsteps : Int)
    (hn : 1 ≤ nsteps) (m : Nat) (f : List (List K)) (x0 xq : List K)
    (hxq : xq.length = 2 * n) (xfinal : List K) (er : K) (x_history : List (List K))
    (t_history : List K) :
    rk3.integration_step (Dyn.total g) ti 0 x0 xfinal = .ok x0
      ∧ (x0 ≠ [] →
          rkf45.integration_step sqrtT (Dyn.total g) ti m 0 x0 f xfinal er = .ok (x0, 0))
      ∧ base_symplectic.integration_step
          { m_dyn := base_hamiltonian.total n DHq DHp, m_order := (order : Int), m_c := c,
            m_d := d } ti 0 xq xfinal = .ok xq
      ∧ rk4.integrate (Dyn.total g) ti ti nsteps x0 xfinal = .ok x0
      ∧ (∃ r, rk3.integrate (Dyn.total g) ti ti nsteps x0 x_history t_history = .ok r
          ∧ (r.x_history.length : Int) = nsteps
          ∧ ∀ i, i < nsteps.toNat → r.x_history[i]? = some x0)
      ∧ (∃ r, base_symplectic.integrate
            { m_dyn := base_hamiltonian.total n DHq DHp, m_order := (order : Int), m_c := c,
              m_d := d } ti ti nsteps xq x_history t_history = .ok r
          ∧ (r.x_history.length : Int) = nsteps
          ∧ ∀ i, i < nsteps.toNat → r.x_history[i]? = some xq) := by
  have hcast : ((nsteps.toNat : Nat) : Int) = nsteps := Int.toNat_of_nonneg (by omega)
  have hh : (ti - ti) / (nsteps : K) = 0 := by rw [sub_self, zero_div]
  have hsym : ∀ t : K, base_symplectic.integration_step
      { m_dyn := base_hamiltonian.total n DHq DHp, m_order := (order : Int), m_c := c,
        m_d := d } t 0 xq xq = .ok xq := by
    intro t
    rw [symplectic_step_total n order c d DHq DHp hhq hhp hc hd t 0 xq hxq,
      symplecticFold_zero_step DHq DHp n hhq hhp t c d order _ (by simp; omega)
        (by simp; omega)]
    exact congrArg Except.ok (List.take_append_drop n xq)
  refine ⟨?_, ?_, ?_, ?_, ?_, ?_⟩
  · rw [rk3_step_total g hdim, rk3TextbookStep_zero_step g hdim]
  · intro hne
    rw [rkf45_step_total sqrtT g hdim ti m 0 x0 hne f xfinal er,
      fehlbergOrder4_zero_step g hdim, fehlbergOrder5_zero_step g hdim, sqDist_self, hsqrt]
  · rw [symplectic_step_total n order c d DHq DHp hhq hhp hc hd ti 0 xq hxq,
      symplecticFold_zero_step DHq DHp n hhq hhp ti c d order _ (by simp; omega)
        (by simp; omega)]
    exact congrArg Except.ok (List.take_append_drop n xq)
  · rw [rk4_integrate_total g hdim, hh, rk4Classical_zero_step g hdim]
  · obtain ⟨r, hr, h2, h3⟩ := driver_constant (rk3.integration_step (Dyn.total g)) ti ti nsteps
      x0 x_history t_history
      (by intro t; rw [hh, rk3_step_total g hdim, rk3TextbookStep_zero_step g hdim])
    exact ⟨r, hr, by rw [h2, hcast], h3⟩
  · obtain ⟨r, hr, h2, h3⟩ := driver_constant (base_symplectic.integration_step
        { m_dyn := base_hamiltonian.total n DHq DHp, m_order := (order : Int), m_c := c,
          m_d := d }) ti ti nsteps xq x_history t_history
      (by intro t; rw [hh]; exact hsym t)
    exact ⟨r, hr, by rw [h2, hcast], h3⟩

theorem zero_step_is_identity_witness :
    ((fun (x : ℚ) => x) 0 = 0)
      ∧ (∀ (t : ℚ) (x : List ℚ), ((fun _ y => y) t x).length = x.length)
      ∧ (∀ (t : ℚ) (q p : List ℚ), q.length = 1 → p.length = 1 →
          ((fun _ q _ => q) t q p).length = 1)
      ∧ (∀ (t : ℚ) (q p : List ℚ), q.length = 1 → p.length = 1 →
          ((fun _ _ p => p) t q p).length = 1)
      ∧ 1 ≤ ([1] : List ℚ).length ∧ (1 : Int) ≤ 3 ∧ ([1, 2] : List ℚ).length = 2 * 1
      ∧ ([7] : List ℚ) ≠ []
      ∧ rkf45.integration_step (fun x => x) (Dyn.total (fun (_ : ℚ) y => y)) 5 0 0 [7] [] []
          9 = .ok ([7], 0)
      ∧ base_symplectic.integration_step
          { m_dyn := base_hamiltonian.total 1 (fun (_ : ℚ) q _ => q) (fun _ _ p => p),
            m_order := ((1 : Nat) : Int), m_c := [1], m_d := [1] } 5 0 [1, 2] [] = .ok [1, 2]
      ∧ rk4.integrate (Dyn.total (fun (_ : ℚ) y => y)) 5 5 3 [7] [] = .ok [7] := by
  have hne : ([7] : List ℚ) ≠ [] := by simp
  have w := zero_step_is_identity (fun (x : ℚ) => x) rfl (fun _ y => y) (fun _ _ => rfl) 1 1
    [1] [1] (fun _ q _ => q) (fun _ _ p => p) (fun _ _ _ h _ => h) (fun _ _ _ _ h => h)
    (by simp) (by simp) 5 3 (by decide) 0 [] [7] [1, 2] rfl [] 9 [] []
  exact ⟨rfl, fun _ _ => rfl, fun _ _ _ h _ => h, fun _ _ _ _ h => h, by simp, by decide, rfl,
    hne, w.2.1 hne, w.2.2.1, w.2.2.2.1⟩

section Propagation
variable {K : Type} [LinearOrderedField K]

theorem bind_eq_ok {ε α β : Type} {x : Except ε α} {f : α → Except ε β} {b : β}
    (h : (x >>= f) = .ok b) : ∃ a, x = .ok a ∧ f a = .ok b := by
  cases x with
  | error e => cases h
  | ok a => exact ⟨a, rfl, h⟩

/-- Once a pass of a loop fails, the loop fails with the same error. -/
theorem forLoop_error {σ : Type} (body : Nat → σ → Except Fault σ) (s0 s : σ) (e : Fault)
    (i n : Nat) (hi : i < n) (hs : forLoop i body s0 = .ok s) (he : body i s = .error e) :
    forLoop n body s0 = .error e := by
  have h1 : forLoop (i + 1) body s0 = .error e := by
    rw [forLoop_succ, hs, Except.ok_bind_eq, he]
  have key : ∀ k, forLoop (i + 1 + k) body s0 = .error e := by
    intro k
    induction k with
    | zero => exact h1
    | succ k ih => rw [← Nat.add_assoc, forLoop_succ, ih, Except.error_bind_eq]
  have : n = i + 1 + (n - (i + 1)) := by omega
  rw [this]
  exact key _

omit [LinearOrderedField K] in
theorem vset_length_of_ok (v v1 : List K) (j : Nat) (a : K) (h : vset v j a = .ok v1) :
    v1.length = v.length := by
  simp only [vset] at h
  split at h
  · cases h; simp
  · cases h

omit [LinearOrderedField K] in
theorem forLoop_length_of_ok (n : Nat) (body : Nat → List K → Except Fault (List K))
    (hbody : ∀ j v v1, body j v = .ok v1 → v1.length = v.length) (v v1 : List K)
    (h : forLoop n body v = .ok v1) : v1.length = v.length := by
  induction n generalizing v1 with
  | zero => cases h; rfl
  | succ n ih =>
    rw [forLoop_succ] at h
    obtain ⟨u, hu, hb⟩ := bind_eq_ok h
    rw [hbody n u v1 hb, ih u hu]

/-- A successful pass of the step loop of `rk4::integrate` keeps the sizes of `x` and
`xtemp`. -/
theorem rk4_loopBody_lengths (m_dyn : Dyn K) (ti h : K) (n i : Nat) (s s1 : rk4.Locals K)
    (hs : rk4.loopBody m_dyn ti h n i s = .ok s1) :
    s1.x.length = s.x.length ∧ s1.xtemp.length = s.xtemp.length := by
  simp only [rk4.loopBody] at hs
  obtain ⟨k1, _, hs⟩ := bind_eq_ok hs
  obtain ⟨xt1, h1, hs⟩ := bind_eq_ok hs
  obtain ⟨k2, _, hs⟩ := bind_eq_ok hs
  obtain ⟨xt2, h2, hs⟩ := bind_eq_ok hs
  obtain ⟨k3, _, hs⟩ := bind_eq_ok hs
  obtain ⟨xt3, h3, hs⟩ := bind_eq_ok hs
  obtain ⟨k4, _, hs⟩ := bind_eq_ok hs
  obtain ⟨x1, h4, hs⟩ := bind_eq_ok hs
  cases hs
  have l1 := forLoop_length_of_ok n _ (by
    intro j v v1 hb
    obtain ⟨a, _, hb⟩ := bind_eq_ok hb
    obtain ⟨b, _, hb⟩ := bind_eq_ok hb
    exact vset_length_of_ok _ _ _ _ hb) _ _ h1
  have l2 := forLoop_length_of_ok n _ (by
    intro j v v1 hb
    obtain ⟨a, _, hb⟩ := bind_eq_ok hb
    obtain ⟨b, _, hb⟩ := bind_eq_ok hb
    exact vset_length_of_ok _ _ _ _ hb) _ _ h2
  have l3 := forLoop_length_of_ok n _ (by
    intro j v v1 hb
    obtain ⟨a, _, hb⟩ := bind_eq_ok hb
    obtain ⟨b, _, hb⟩ := bind_eq_ok hb
    exact vset_length_of_ok _ _ _ _ hb) _ _ h3
  have l4 := forLoop_length_of_ok n _ (by
    intro j v v1 hb
    obtain ⟨a, _, hb⟩ := bind_eq_ok hb
    obtain ⟨b, _, hb⟩ := bind_eq_ok hb
    obtain ⟨c, _, hb⟩ := bind_eq_ok hb
    obtain ⟨d, _, hb⟩ := bind_eq_ok hb
    obtain ⟨e, _, hb⟩ := bind_eq_ok hb
    exact vset_length_of_ok _ _ _ _ hb) _ _ h4
  exact ⟨l4, by simp only; rw [l3, l2, l1]⟩

theorem rk4_steps_lengths (m_dyn : Dyn K) (ti h : K) (x0 : List K) (i : Nat)
    (s : rk4.Locals K)
    (hs : forLoop i (rk4.loopBody m_dyn ti h x0.length)
      { x := x0, xtemp := x0, k1 := x0, k2 := x0, k3 := x0, k4 := x0 } = .ok s) :
    s.x.length = x0.length ∧ s.xtemp.length = x0.length := by
  induction i generalizing s with
  | zero => cases hs; exact ⟨rfl, rfl⟩
  | succ i ih =>
    rw [forLoop_succ] at hs
    obtain ⟨u, hu, hb⟩ := bind_eq_ok hs
    obtain ⟨l1, l2⟩ := rk4_loopBody_lengths m_dyn ti h _ i u s hb
    obtain ⟨m1, m2⟩ := ih u hu
    exact ⟨l1.trans m1, l2.trans m2⟩

theorem rk3_stage_three_quarters (h : K) (x k xt : List K) (hk : k.length = x.length)
    (hxt : xt.length = x.length) :
    forLoop x.length (fun j xt => do vset xt j ((← vget x j) + (← vget k j) * h * 3 / 4)) xt
      = .ok (vadd x (vsmul (3 * h / 4) k)) := by
  apply forLoop_store_eq _ _ _ _ hxt (by simp [hk])
  intro j hj v hv hvj
  simp only [vget_ok _ _ (0 : K) hj, vget_ok _ _ (0 : K) (hk ▸ hj), Except.ok_bind_eq,
    vset_ok _ _ _ (hv ▸ hj), vadd_getD _ _ _ ((vsmul_length _ k).trans hk).symm, vsmul_getD]
  congr 2; ring

/-- A failing `evaluate` at any stage makes the pass of the step loop of `rk4::integrate`
fail with the same error. -/
theorem rk4_loopBody_error (m_dyn : Dyn K) (ti h : K) (i : Nat) (s : rk4.Locals K)
    (hxt : s.xtemp.length = s.x.length) (e : Fault)
    (hfail : m_dyn (ti + (i : K) * h) s.x = .error e
      ∨ (∃ k1, m_dyn (ti + (i : K) * h) s.x = .ok k1 ∧ k1.length = s.x.length
          ∧ m_dyn (ti + (i : K) * h + h / 2) (vadd s.x (vsmul (h / 2) k1)) = .error e)
      ∨ (∃ k1 k2, m_dyn (ti + (i : K) * h) s.x = .ok k1 ∧ k1.length = s.x.length
          ∧ m_dyn (ti + (i : K) * h + h / 2) (vadd s.x (vsmul (h / 2) k1)) = .ok k2
          ∧ k2.length = s.x.length
          ∧ m_dyn (ti + (i : K) * h + h / 2) (vadd s.x (vsmul (h / 2) k2)) = .error e)
      ∨ (∃ k1 k2 k3, m_dyn (ti + (i : K) * h) s.x = .ok k1 ∧ k1.length = s.x.length
          ∧ m_dyn (ti + (i : K) * h + h / 2) (vadd s.x (vsmul (h / 2) k1)) = .ok k2
          ∧ k2.length = s.x.length
          ∧ m_dyn (ti + (i : K) * h + h / 2) (vadd s.x (vsmul (h / 2) k2)) = .ok k3
          ∧ k3.length = s.x.length
          ∧ m_dyn (ti + ((i + 1 : Nat) : K) * h) (vadd s.x (vsmul h k3)) = .error e)) :
    rk4.loopBody m_dyn ti h s.x.length i s = .error e := by
  simp only [rk4.loopBody]
  rcases hfail with h1 | ⟨k1, h1, l1, h2⟩ | ⟨k1, k2, h1, l1, h2, l2, h3⟩
    | ⟨k1, k2, k3, h1, l1, h2, l2, h3, l3, h4⟩
  · rw [h1, Except.error_bind_eq]
  · rw [h1, Except.ok_bind_eq, rk4_stage_half h s.x k1 _ l1 hxt, Except.ok_bind_eq, h2,
      Except.error_bind_eq]
  · rw [h1, Except.ok_bind_eq, rk4_stage_half h s.x k1 _ l1 hxt, Except.ok_bind_eq, h2,
      Except.ok_bind_eq, rk4_stage_half h s.x k2 _ l2 (vadd_vsmul_length _ rfl l1),
      Except.ok_bind_eq, h3, Except.error_bind_eq]
  · rw [h1, Except.ok_bind_eq, rk4_stage_half h s.x k1 _ l1 hxt, Except.ok_bind_eq, h2,
      Except.ok_bind_eq, rk4_stage_half h s.x k2 _ l2 (vadd_vsmul_length _ rfl l1),
      Except.ok_bind_eq, h3, Except.ok_bind_eq,
      rk4_stage_full h s.x k3 _ l3 (vadd_vsmul_length _ rfl l2), Except.ok_bind_eq, h4,
      Except.error_bind_eq]

/-- A failing `evaluate` at any stage makes `rk3::integration_step` fail with the same
error. -/
theorem rk3_step_error (m_dyn : Dyn K) (t h : K) (x0 xfinal : List K) (e : Fault)
    (hfail : m_dyn (t + h) x0 = .error e
      ∨ (∃ k1, m_dyn (t + h) x0 = .ok k1 ∧ k1.length = x0.length
          ∧ m_dyn (t + h + h / 2) (vadd x0 (vsmul (h / 2) k1)) = .error e)
      ∨ (∃ k1 k2, m_dyn (t + h) x0 = .ok k1 ∧ k1.length = x0.length
          ∧ m_dyn (t + h + h / 2) (vadd x0 (vsmul (h / 2) k1)) = .ok k2
          ∧ k2.length = x0.length
          ∧ m_dyn (t + h + h * 3 / 4) (vadd x0 (vsmul (3 * h / 4) k2)) = .error e)) :
    rk3.integration_step m_dyn t h x0 xfinal = .error e := by
  simp only [rk3.integration_step]
  rcases hfail with h1 | ⟨k1, h1, l1, h2⟩ | ⟨k1, k2, h1, l1, h2, l2, h3⟩
  · rw [h1, Except.error_bind_eq]
  · rw [h1, Except.ok_bind_eq, rk4_stage_half h x0 k1 _ l1 rfl, Except.ok_bind_eq, h2,
      Except.error_bind_eq]
  · rw [h1, Except.ok_bind_eq, rk4_stage_half h x0 k1 _ l1 rfl, Except.ok_bind_eq, h2,
      Except.ok_bind_eq, rk3_stage_three_quarters h x0 k2 _ l2 (vadd_vsmul_length _ rfl l1),
      Except.ok_bind_eq, h3, Except.error_bind_eq]

/-- The variables of a history-recording driver after `i` successful steps. -/
theorem driver_loop_state (step : Step K) (ti h : K) (x0 x : List K) (i : Nat)
    (hx : stepIterate step ti h i x0 = .ok x) :
    ∃ s, forLoop i (base_rungekutta.loopBody step h)
        { t := ti, x := x0, x_temp := x0,
          out := { t_history := [], x_history := [], calls := [] } } = .ok s
      ∧ s.t = ti + (i : K) * h ∧ s.x = x ∧ s.x_temp = x := by
  induction i generalizing x with
  | zero =>
    cases hx
    exact ⟨_, rfl, by simp, rfl, rfl⟩
  | succ i ih =>
    rw [stepIterate] at hx
    obtain ⟨u, hu, hstep⟩ := bind_eq_ok hx
    obtain ⟨s, hs, h1, h2, h3⟩ := ih u hu
    have hb : base_rungekutta.loopBody step h i s = .ok
        { t := ti + (i : K) * h + h, x := x, x_temp := x,
          out := { t_history := s.out.t_history ++ [ti + (i : K) * h + h],
                   x_history := s.out.x_history ++ [x],
                   calls := s.out.calls ++ [(ti + (i : K) * h, h, u)] } } := by
      simp only [base_rungekutta.loopBody, h1, h2, h3, hstep, Except.ok_bind_eq, vassign,
        Except.pure_eq_ok]
    refine ⟨_, by rw [forLoop_succ, hs, Except.ok_bind_eq, hb], ?_, rfl, rfl⟩
    simp only; push_cast; ring

/-- A failing step makes a history-recording driver fail with the same error. -/
theorem driver_error (step : Step K) (ti tend : K) (nsteps : Int) (x0 x : List K)
    (x_history : List (List K)) (t_history : List K) (i : Nat) (hi : i < nsteps.toNat)
    (e : Fault) (hx : stepIterate step ti ((tend - ti) / (nsteps : K)) i x0 = .ok x)
    (he : step (ti + (i : K) * ((tend - ti) / (nsteps : K))) ((tend - ti) / (nsteps : K)) x x
      = .error e) :
    base_rungekutta.integrate step ti tend nsteps x0 x_history t_history = .error e := by
  obtain ⟨s, hs, h1, h2, h3⟩ := driver_loop_state step ti _ x0 x i hx
  have hb : base_rungekutta.loopBody step ((tend - ti) / (nsteps : K)) i s = .error e := by
    simp only [base_rungekutta.loopBody, h1, h2, h3, he, Except.error_bind_eq]
  simp only [base_rungekutta.integrate, vclear]
  rw [forLoop_error _ _ s e i _ hi hs hb, Except.error_bind_eq]

end Propagation

/-- C24. Let the first `i < nsteps` steps succeed.  If in step `i` of `rk4::integrate` the
call of `evaluate` at any of the four stages fails with `e` (the earlier stages of that step
having returned vectors of the dimension of `x0`), `rk4::integrate` fails with `e`; if call
`i` of `integration_step` fails with `e`, `base_rungekutta::integrate` fails with `e`; and if
in step `i` of `rk3::integrate` the call of `evaluate` at any of the three stages fails
with `e`, `rk3::integrate` fails with `e`.  Nothing is assumed about what the dynamics
would return at any later call, and the outcome is the error, not a state. -/
theorem dynamics_errors_propagate {K : Type} [LinearOrderedField K] (m_dyn : Dyn K)
    (integration_step : Step K) (ti tend : K) (nsteps : Int) (x0 xfinal : List K)
    (x_history : List (List K)) (t_history : List K) (i : Nat) (hi : i < nsteps.toNat)
    (e : Fault) :
    (∀ s, forLoop i (rk4.loopBody m_dyn ti ((tend - ti) / (nsteps : K)) x0.length)
          { x := x0, xtemp := x0, k1 := x0, k2 := x0, k3 := x0, k4 := x0 } = .ok s →
        (m_dyn (ti + (i : K) * ((tend - ti) / (nsteps : K))) s.x = .error e
          ∨ (∃ k1, m_dyn (ti + (i : K) * ((tend - ti) / (nsteps : K))) s.x = .ok k1
              ∧ k1.length = x0.length
              ∧ m_dyn (ti + (i : K) * ((tend - ti) / (nsteps : K))
                  + (tend - ti) / (nsteps : K) / 2)
                  (vadd s.x (vsmul ((tend - ti) / (nsteps : K) / 2) k1)) = .error e)
          ∨ (∃ k1 k2, m_dyn (ti + (i : K) * ((tend - ti) / (nsteps : K))) s.x = .ok k1
              ∧ k1.length = x0.length
              ∧ m_dyn (ti + (i : K) * ((tend - ti) / (nsteps : K))
                  + (tend - ti) / (nsteps : K) / 2)
                  (vadd s.x (vsmul ((tend - ti) / (nsteps : K) / 2) k1)) = .ok k2
              ∧ k2.length = x0.length
              ∧ m_dyn (ti + (i : K) * ((tend - ti) / (nsteps : K))
                  + (tend - ti) / (nsteps : K) / 2)
                  (vadd s.x (vsmul ((tend - ti) / (nsteps : K) / 2) k2)) = .error e)
          ∨ (∃ k1 k2 k3, m_dyn (ti + (i : K) * ((tend - ti) / (nsteps : K))) s.x = .ok k1
              ∧ k1.length = x0.length
              ∧ m_dyn (ti + (i : K) * ((tend - ti) / (nsteps : K))
                  + (tend - ti) / (nsteps : K) / 2)
                  (vadd s.x (vsmul ((tend - ti) / (nsteps : K) / 2) k1)) = .ok k2
              ∧ k2.length = x0.length
              ∧ m_dyn (ti + (i : K) * ((tend - ti) / (nsteps : K))
                  + (tend - ti) / (nsteps : K) / 2)
                  (vadd s.x (vsmul ((tend - ti) / (nsteps : K) / 2) k2)) = .ok k3
              ∧ k3.length = x0.length
              ∧ m_dyn (ti + ((i + 1 : Nat) : K) * ((tend - ti) / (nsteps : K)))
                  (vadd s.x (vsmul ((tend - ti) / (nsteps : K)) k3)) = .error e)) →
        rk4.integrate m_dyn ti tend nsteps x0 xfinal = .error e)
      ∧ (∀ x, stepIterate integration_step ti ((tend - ti) / (nsteps : K)) i x0 = .ok x →
          integration_step (ti + (i : K) * ((tend - ti) / (nsteps : K)))
            ((tend - ti) / (nsteps : K)) x x = .error e →
          base_rungekutta.integrate integration_step ti tend nsteps x0 x_history t_history
            = .error e)
      ∧ (∀ x, stepIterate (rk3.integration_step m_dyn) ti ((tend - ti) / (nsteps : K)) i x0
            = .ok x →
          (m_dyn (ti + (i : K) * ((tend - ti) / (nsteps : K)) + (tend - ti) / (nsteps : K)) x
              = .error e
            ∨ (∃ k1, m_dyn (ti + (i : K) * ((tend - ti) / (nsteps : K))
                  + (tend - ti) / (nsteps : K)) x = .ok k1
                ∧ k1.length = x.length
                ∧ m_dyn (ti + (i : K) * ((tend - ti) / (nsteps : K))
                    + (tend - ti) / (nsteps : K) + (tend - ti) / (nsteps : K) / 2)
                    (vadd x (vsmul ((tend - ti) / (nsteps : K) / 2) k1)) = .error e)
            ∨ (∃ k1 k2, m_dyn (ti + (i : K) * ((tend - ti) / (nsteps : K))
                  + (tend - ti) / (nsteps : K)) x = .ok k1
                ∧ k1.length = x.length
                ∧ m_dyn (ti + (i : K) * ((tend - ti) / (nsteps : K))
                    + (tend - ti) / (nsteps : K) + (tend - ti) / (nsteps : K) / 2)
                    (vadd x (vsmul ((tend - ti) / (nsteps : K) / 2) k1)) = .ok k2
                ∧ k2.length = x.length
                ∧ m_dyn (ti + (i : K) * ((tend - ti) / (nsteps : K))
                    + (tend - ti) / (nsteps : K) + (tend - ti) / (nsteps : K) * 3 / 4)
                    (vadd x (vsmul (3 * ((tend - ti) / (nsteps : K)) / 4) k2)) = .error e)) →
          rk3.integrate m_dyn ti tend nsteps x0 x_history t_history = .error e) := by
  refine ⟨?_, ?_, ?_⟩
  · intro s hs hfail
    obtain ⟨lx, lxt⟩ := rk4_steps_lengths m_dyn ti _ x0 i s hs
    have hb : rk4.loopBody m_dyn ti ((tend - ti) / (nsteps : K)) x0.length i s = .error e := by
      rw [← lx]
      rw [← lx] at hfail
      exact rk4_loopBody_error m_dyn ti _ i s (lxt.trans lx.symm) e hfail
    simp only [rk4.integrate]
    rw [forLoop_error _ _ s e i _ hi hs hb, Except.error_bind_eq]
  · intro x hx he
    exact driver_error integration_step ti tend nsteps x0 x x_history t_history i hi e hx he
  · intro x hx hfail
    exact driver_error (rk3.integration_step m_dyn) ti tend nsteps x0 x x_history t_history i
      hi e hx (rk3_step_error m_dyn _ _ x x e hfail)

theorem dynamics_errors_propagate_witness :
    (0 : Nat) < (1 : Int).toNat
      ∧ rk4.integrate
          (fun (t : ℚ) x => if t < 0 then .error (Fault.thrown "negative time") else .ok x)
          0 (-1) 1 [1] [] = .error (Fault.thrown "negative time")
      ∧ base_rungekutta.integrate
          (fun (_ : ℚ) h x _ => if h < 0 then .error (Fault.thrown "negative time") else .ok x)
          0 (-1) 1 [1] [] [] = .error (Fault.thrown "negative time")
      ∧ rk3.integrate
          (fun (t : ℚ) x => if t < 0 then .error (Fault.thrown "negative time") else .ok x)
          0 (-1) 1 [1] [] [] = .error (Fault.thrown "negative time") := by
  obtain ⟨h1, h2, h3⟩ := dynamics_errors_propagate
    (fun (t : ℚ) x => if t < 0 then .error (Fault.thrown "negative time") else .ok x)
    (fun (_ : ℚ) h x _ => if h < 0 then .error (Fault.thrown "negative time") else .ok x)
    0 (-1) 1 [1] [] [] [] 0 (by decide) (Fault.thrown "negative time")
  refine ⟨by decide, ?_, ?_, ?_⟩
  · refine h1 _ rfl (Or.inr (Or.inl ⟨[1], ?_, rfl, ?_⟩))
    · norm_num
    · norm_num
  · refine h2 [1] rfl ?_
    norm_num
  · refine h3 [1] rfl (Or.inl ?_)
    norm_num

/-- C28. With thrust and unknown acceleration zero, `rho_0 = H = C_D A = 1`, unit scaling
factors, and the state at position `(0, 0, 7278000)`, velocity `(0, 0, 1)`, mass `1` (where
the density is `rho_0` and the Earth-relative velocity is `(0, 0, 1)`),
`twobody::evaluate` at `t = 0` succeeds and returns `dv_z/dt = -(mu/r^3)*z - 1/2`: the drag
term is subtracted, whereas the documented equations of motion give
`dv_z/dt = -(mu/r^3)*z + 1/2`; the other six components agree. -/
theorem twobody_evaluate_drag_subtracted :
    twobody.evaluate Real.sqrt Real.exp
        { m_param := [0, 0, 0, 0, 1, 1, 1, 0, 0, 0], m_t_scale := 1, m_r_scale := 1 }
        0 [0, 0, 7278000, 0, 0, 1, 1] []
      = (.ok 0, [0, 0, 1, 0, 0,
          -((3986004415 / 10000) * 10 ^ 9 / (7278000 : ℝ) ^ 3) * 7278000 - 1 / 2, 0])
    ∧ twobodyEquations Real.sqrt ((3986004415 / 10000) * 10 ^ 9)
        ((72921150 / 10000000) * (1 / 10 ^ 5)) 1
        [0, 0, 0, 0, 1, 1, 1, 0, 0, 0] [0, 0, 7278000, 0, 0, 1, 1]
      = [0, 0, 1, 0, 0,
          -((3986004415 / 10000) * 10 ^ 9 / (7278000 : ℝ) ^ 3) * 7278000 + 1 / 2, 0]
    ∧ (twobody.evaluate Real.sqrt Real.exp
        { m_param := [0, 0, 0, 0, 1, 1, 1, 0, 0, 0], m_t_scale := 1, m_r_scale := 1 }
        0 [0, 0, 7278000, 0, 0, 1, 1] []).2
      ≠ twobodyEquations Real.sqrt ((3986004415 / 10000) * 10 ^ 9)
        ((72921150 / 10000000) * (1 / 10 ^ 5)) 1
        [0, 0, 0, 0, 1, 1, 1, 0, 0, 0] [0, 0, 7278000, 0, 0, 1, 1] := by
  have hr : Real.sqrt ((7278000 : ℝ) * 7278000) = 7278000 :=
    Real.sqrt_mul_self (by norm_num)
  have hcode : twobody.evaluate Real.sqrt Real.exp
        { m_param := [0, 0, 0, 0, 1, 1, 1, 0, 0, 0], m_t_scale := 1, m_r_scale := 1 }
        0 [0, 0, 7278000, 0, 0, 1, 1] []
      = (.ok 0, [0, 0, 1, 0, 0,
          -((3986004415 / 10000) * 10 ^ 9 / (7278000 : ℝ) ^ 3) * 7278000 - 1 / 2, 0]) := by
    simp [twobody.evaluate, twobody.derivative, vget, vclear, hr]
    norm_num
  have hdoc : twobodyEquations Real.sqrt ((3986004415 / 10000) * 10 ^ 9)
        ((72921150 / 10000000) * (1 / 10 ^ 5)) 1
        [0, 0, 0, 0, 1, 1, 1, 0, 0, 0] [0, 0, 7278000, 0, 0, 1, 1]
      = [0, 0, 1, 0, 0,
          -((3986004415 / 10000) * 10 ^ 9 / (7278000 : ℝ) ^ 3) * 7278000 + 1 / 2, 0] := by
    simp [twobodyEquations, hr]
  refine ⟨hcode, hdoc, ?_⟩
  rw [hcode, hdoc]
  intro h
  simp only [List.cons.injEq] at h
  linarith [h.2.2.2.2.2.1]

section Composition
variable {K : Type} [LinearOrderedField K]

/-- A loop splits at any pass: `a + b` passes are `a` passes followed by `b` passes with the
counter shifted by `a`. -/
theorem forLoop_add {σ : Type} (body : Nat → σ → Except Fault σ) (s : σ) (a b : Nat) :
    forLoop (a + b) body s = forLoop a body s >>= forLoop b (fun i => body (a + i)) := by
  induction b with
  | zero =>
    rw [Nat.add_zero]
    cases forLoop a body s with
    | error e => rfl
    | ok r => rfl
  | succ b ih =>
    rw [← Nat.add_assoc, forLoop_succ, ih]
    cases forLoop a body s with
    | error e => rfl
    | ok r => rfl

omit [LinearOrderedField K] in
/-- A loop that stores a value at every index `j < n` of a vector of length `n` does not
depend on what the vector held before. -/
theorem forLoop_store_indep (n : Nat) (val : Nat → Except Fault K)
    (body : Nat → List K → Except Fault (List K))
    (hbody : ∀ j xt, body j xt = val j >>= fun v => vset xt j v) (a b : List K)
    (ha : a.length = n) (hb : b.length = n) : forLoop n body a = forLoop n body b := by
  have key : ∀ m, m ≤ n →
      (∃ e, forLoop m body a = .error e ∧ forLoop m body b = .error e)
        ∨ (∃ r r1, forLoop m body a = .ok r ∧ forLoop m body b = .ok r1 ∧ r.length = n
            ∧ r1.length = n ∧ (∀ i, i < m → r[i]? = r1[i]?)) := by
    intro m
    induction m with
    | zero =>
      intro _
      exact Or.inr ⟨a, b, rfl, rfl, ha, hb, fun i hi => absurd hi (Nat.not_lt_zero i)⟩
    | succ m ih =>
      intro hm
      rcases ih (by omega) with ⟨e, h1, h2⟩ | ⟨r, r1, h1, h2, l1, l2, hr⟩
      · exact Or.inl ⟨e, by rw [forLoop_succ, h1]; rfl, by rw [forLoop_succ, h2]; rfl⟩
      · rw [forLoop_succ, forLoop_succ, h1, h2, Except.ok_bind_eq, Except.ok_bind_eq,
          hbody, hbody]
        cases val m with
        | error e => exact Or.inl ⟨e, rfl, rfl⟩
        | ok v =>
          rw [Except.ok_bind_eq, Except.ok_bind_eq, vset_ok r m v (by omega),
            vset_ok r1 m v (by omega)]
          refine Or.inr ⟨_, _, rfl, rfl, by simp [l1], by simp [l2], ?_⟩
          intro i hi
          rw [List.getElem?_set, List.getElem?_set]
          by_cases him : m = i
          · subst him
            have hlt : m < n := by omega
            simp [l1, l2, hlt]
          · simp only [him, if_false]
            exact hr i (by omega)
  rcases key n (le_refl n) with ⟨e, h1, h2⟩ | ⟨r, r1, h1, h2, l1, l2, hr⟩
  · rw [h1, h2]
  · rw [h1, h2]
    congr 1
    apply List.ext_getElem?
    intro i
    by_cases hi : i < n
    · exact hr i hi
    · rw [List.getElem?_eq_none (by omega), List.getElem?_eq_none (by omega)]

/-- A pass of the step loop of `rk4::integrate` reads `x` only: the values held by `xtemp`
(of length `n`) and by `k1`..`k4` before the pass do not matter. -/
theorem rk4_loopBody_congr (m_dyn : Dyn K) (ti h : K) (n i : Nat) (s s1 : rk4.Locals K)
    (hx : s.x = s1.x) (hl : s.xtemp.length = n) (hl1 : s1.xtemp.length = n) :
    rk4.loopBody m_dyn ti h n i s = rk4.loopBody m_dyn ti h n i s1 := by
  have e1 : ∀ k1 : List K,
      forLoop n (fun j xt => do vset xt j ((← vget s1.x j) + (← vget k1 j) * h / 2)) s.xtemp
        = forLoop n (fun j xt => do vset xt j ((← vget s1.x j) + (← vget k1 j) * h / 2))
            s1.xtemp := fun k1 =>
    forLoop_store_indep n
      (fun j => vget s1.x j >>= fun a => vget k1 j >>= fun b => pure (a + b * h / 2))
      (fun j xt => do vset xt j ((← vget s1.x j) + (← vget k1 j) * h / 2))
      (fun j xt => by simp only [bind_assoc, pure_bind]) s.xtemp s1.xtemp hl hl1
  simp only [rk4.loopBody, hx, e1]

/-- The pass `i` of a call that starts at `tm = ti + a*h` is the pass `a + i` of a call that
starts at `ti` with the same step. -/
theorem rk4_loopBody_shift (m_dyn : Dyn K) (ti tm h : K) (n a i : Nat) (s : rk4.Locals K)
    (htm : tm = ti + (a : K) * h) :
    rk4.loopBody m_dyn tm h n i s = rk4.loopBody m_dyn ti h n (a + i) s := by
  have e1 : tm + (i : K) * h = ti + ((a + i : Nat) : K) * h := by
    subst htm; push_cast; ring
  have e4 : tm + ((i + 1 : Nat) : K) * h = ti + ((a + i + 1 : Nat) : K) * h := by
    subst htm; push_cast; ring
  simp only [rk4.loopBody, e1, e4]

omit [LinearOrderedField K] in
theorem rk4_steps_congr (body : Nat → rk4.Locals K → Except Fault (rk4.Locals K)) (n : Nat)
    (hcongr : ∀ i s s1, s.x = s1.x → s.xtemp.length = n → s1.xtemp.length = n →
      body i s = body i s1)
    (hlen : ∀ i s s1, body i s = .ok s1 → s1.xtemp.length = s.xtemp.length)
    (s s1 : rk4.Locals K) (hx : s.x = s1.x) (hl : s.xtemp.length = n)
    (hl1 : s1.xtemp.length = n) (k : Nat) :
    (forLoop k body s >>= fun r => Except.ok r.x)
      = (forLoop k body s1 >>= fun r => Except.ok r.x) := by
  have key : ∀ k, (∃ e, forLoop k body s = .error e ∧ forLoop k body s1 = .error e)
      ∨ (∃ r r1, forLoop k body s = .ok r ∧ forLoop k body s1 = .ok r1 ∧ r.x = r1.x
          ∧ r.xtemp.length = n ∧ r1.xtemp.length = n) := by
    intro k
    induction k with
    | zero => exact Or.inr ⟨s, s1, rfl, rfl, hx, hl, hl1⟩
    | succ k ih =>
      rcases ih with ⟨e, h1, h2⟩ | ⟨r, r1, h1, h2, hrx, l1, l2⟩
      · exact Or.inl ⟨e, by rw [forLoop_succ, h1]; rfl, by rw [forLoop_succ, h2]; rfl⟩
      · rw [forLoop_succ, forLoop_succ, h1, h2, Except.ok_bind_eq, Except.ok_bind_eq,
          hcongr k r r1 hrx l1 l2]
        cases hb : body k r1 with
        | error e => exact Or.inl ⟨e, rfl, rfl⟩
        | ok r2 =>
          exact Or.inr ⟨r2, r2, rfl, rfl, rfl, (hlen k r1 r2 hb).trans l2,
            (hlen k r1 r2 hb).trans l2⟩
  rcases key k with ⟨e, h1, h2⟩ | ⟨r, r1, h1, h2, hrx, _, _⟩
  · rw [h1, h2]
  · rw [h1, h2, Except.ok_bind_eq, Except.ok_bind_eq, hrx]

/-- The call `rk4::integrate` returns the `x` held after the step loop. -/
theorem rk4_integrate_eq_steps (m_dyn : Dyn K) (ti tend : K) (nsteps : Int)
    (x0 xfinal : List K) :
    rk4.integrate m_dyn ti tend nsteps x0 xfinal
      = (forLoop nsteps.toNat (rk4.loopBody m_dyn ti ((tend - ti) / (nsteps : K)) x0.length)
          { x := x0, xtemp := x0, k1 := x0, k2 := x0, k3 := x0, k4 := x0 }
          >>= fun r => Except.ok r.x) := by
  simp only [rk4.integrate]
  cases hs : forLoop nsteps.toNat
      (rk4.loopBody m_dyn ti ((tend - ti) / (nsteps : K)) x0.length)
      { x := x0, xtemp := x0, k1 := x0, k2 := x0, k3 := x0, k4 := x0 } with
  | error e => rfl
  | ok r =>
    obtain ⟨lx, _⟩ := rk4_steps_lengths m_dyn ti _ x0 _ r hs
    rw [Except.ok_bind_eq, Except.ok_bind_eq, forLoop_push_back r.x x0.length (by omega)]
    simp [vclear, ← lx]

end Composition

/-- C31. For every dynamics, `n1, n2 >= 1`, `ti`, `tend` and `x0`, with
`h = (tend - ti)/(n1 + n2)` and `tm = ti + n1*h`: `rk4::integrate(ti, tend, n1 + n2, x0)` has
the outcome of `rk4::integrate(tm, tend, n2, y)` with `y` the result of
`rk4::integrate(ti, tm, n1, x0)` (and fails when one of the two chained calls fails); the
step sizes of the two chained calls are both `h`, and the stage times `tm + i*h`,
`tm + (i+1)*h` of the second call are the stage times `ti + (n1 + i)*h`,
`ti + (n1 + i + 1)*h` of the single call. -/
theorem rk4_integrate_composes {K : Type} [LinearOrderedField K] (m_dyn : Dyn K)
    (ti tend : K) (n1 n2 : Int) (hn1 : 1 ≤ n1) (hn2 : 1 ≤ n2)
    (x0 xfinal xmid xfinal2 : List K) :
    rk4.integrate m_dyn ti tend (n1 + n2) x0 xfinal
        = (rk4.integrate m_dyn ti (ti + (n1 : K) * ((tend - ti) / ((n1 + n2 : Int) : K))) n1
            x0 xmid >>= fun y =>
          rk4.integrate m_dyn (ti + (n1 : K) * ((tend - ti) / ((n1 + n2 : Int) : K))) tend n2
            y xfinal2)
      ∧ ((ti + (n1 : K) * ((tend - ti) / ((n1 + n2 : Int) : K))) - ti) / (n1 : K)
          = (tend - ti) / ((n1 + n2 : Int) : K)
      ∧ (tend - (ti + (n1 : K) * ((tend - ti) / ((n1 + n2 : Int) : K)))) / (n2 : K)
          = (tend - ti) / ((n1 + n2 : Int) : K)
      ∧ ∀ i : Nat,
          (ti + (n1 : K) * ((tend - ti) / ((n1 + n2 : Int) : K)))
              + (i : K) * ((tend - ti) / ((n1 + n2 : Int) : K))
            = ti + ((n1.toNat + i : Nat) : K) * ((tend - ti) / ((n1 + n2 : Int) : K))
          ∧ (ti + (n1 : K) * ((tend - ti) / ((n1 + n2 : Int) : K)))
              + ((i + 1 : Nat) : K) * ((tend - ti) / ((n1 + n2 : Int) : K))
            = ti + ((n1.toNat + i + 1 : Nat) : K)
                * ((tend - ti) / ((n1 + n2 : Int) : K)) := by
  have c1 : ((n1.toNat : Nat) : K) = (n1 : K) := toNat_cast_field n1 hn1
  have p1 : (0 : K) < (n1 : K) := by exact_mod_cast (by omega : (0 : Int) < n1)
  have p2 : (0 : K) < (n2 : K) := by exact_mod_cast (by omega : (0 : Int) < n2)
  have p12 : (0 : K) < ((n1 + n2 : Int) : K) := by push_cast; linarith
  have hh1 : ((ti + (n1 : K) * ((tend - ti) / ((n1 + n2 : Int) : K))) - ti) / (n1 : K)
      = (tend - ti) / ((n1 + n2 : Int) : K) := by
    have q12 : (n1 : K) + (n2 : K) ≠ 0 := by linarith
    push_cast
    field_simp
    ring
  have hh2 : (tend - (ti + (n1 : K) * ((tend - ti) / ((n1 + n2 : Int) : K)))) / (n2 : K)
      = (tend - ti) / ((n1 + n2 : Int) : K) := by
    have q12 : (n1 : K) + (n2 : K) ≠ 0 := by linarith
    push_cast
    field_simp
    ring
  have hnat : (n1 + n2).toNat = n1.toNat + n2.toNat := by omega
  refine ⟨?_, hh1, hh2, ?_⟩
  · rw [rk4_integrate_eq_steps, rk4_integrate_eq_steps, hh1, hnat, forLoop_add]
    cases hs : forLoop n1.toNat
        (rk4.loopBody m_dyn ti ((tend - ti) / ((n1 + n2 : Int) : K)) x0.length)
        { x := x0, xtemp := x0, k1 := x0, k2 := x0, k3 := x0, k4 := x0 } with
    | error e => rfl
    | ok r =>
      obtain ⟨lx, lxt⟩ := rk4_steps_lengths m_dyn ti _ x0 _ r hs
      simp only [Except.ok_bind_eq]
      rw [rk4_integrate_eq_steps, hh2, lx]
      have hbody : rk4.loopBody m_dyn (ti + (n1 : K) * ((tend - ti) / ((n1 + n2 : Int) : K)))
            ((tend - ti) / ((n1 + n2 : Int) : K)) x0.length
          = fun i => rk4.loopBody m_dyn ti ((tend - ti) / ((n1 + n2 : Int) : K)) x0.length
              (n1.toNat + i) := by
        funext i s
        exact rk4_loopBody_shift m_dyn ti _ _ x0.length n1.toNat i s (by rw [c1])
      rw [hbody]
      exact rk4_steps_congr
        (fun i => rk4.loopBody m_dyn ti ((tend - ti) / ((n1 + n2 : Int) : K)) x0.length
          (n1.toNat + i)) x0.length
        (fun i s s1 hx hl hl1 => rk4_loopBody_congr m_dyn ti _ x0.length _ s s1 hx hl hl1)
        (fun i s s1 hb => (rk4_loopBody_lengths m_dyn ti _ x0.length _ s s1 hb).2)
        r { x := r.x, xtemp := r.x, k1 := r.x, k2 := r.x, k3 := r.x, k4 := r.x } rfl lxt lx
        n2.toNat
  · intro i
    constructor
    · rw [← c1]; push_cast; ring
    · rw [← c1]; push_cast; ring

theorem rk4_integrate_composes_witness :
    (1 : Int) ≤ 1 ∧ (1 : Int) ≤ 2
      ∧ rk4.integrate (Dyn.total (fun (t : ℚ) x => x.map (fun a => t * a))) 0 3 (1 + 2) [1] []
        = (rk4.integrate (Dyn.total (fun (t : ℚ) x => x.map (fun a => t * a))) 0
            (0 + ((1 : Int) : ℚ) * ((3 - 0) / ((1 + 2 : Int) : ℚ))) 1 [1] [] >>= fun y =>
          rk4.integrate (Dyn.total (fun (t : ℚ) x => x.map (fun a => t * a)))
            (0 + ((1 : Int) : ℚ) * ((3 - 0) / ((1 + 2 : Int) : ℚ))) 3 2 y []) :=
  ⟨by decide, by decide,
    (rk4_integrate_composes (Dyn.total (fun (t : ℚ) x => x.map (fun a => t * a))) 0 3 1 2
      (by decide) (by decide) [1] [] [] []).1⟩

section SymplecticRange
variable {K : Type} [LinearOrderedField K]

/-- With an empty `m_c`, at least one sub-stage and at least one degree of freedom, the
first sub-stage reads `m_c[0]` beyond the size of `m_c`. -/
theorem symplectic_stageBody_empty_c (name : String) (n : Nat) (hn : 1 ≤ n) (order : Int)
    (DHq DHp : K → List K → List K → List K) (ti tau : K)
    (s : base_symplectic.Locals K) (hq : s.q.length = n) :
    base_symplectic.stageBody
        (base_symplectic.new name (base_hamiltonian.total n DHq DHp) order) ti tau n 0 s
      = .error Fault.outOfRange := by
  have h0 : (0 : Nat) < s.q.length := by omega
  have hloop : forLoop n
      (fun i q => do
        vset q i ((← vget q i) + (← vget ([] : List K) 0) * tau
          * (← vget (DHp ti s.q0 s.p0) i))) s.q = .error Fault.outOfRange := by
    refine forLoop_error _ s.q s.q Fault.outOfRange 0 n (by omega) rfl ?_
    simp [vget, List.getElem?_eq_getElem h0]
  simp only [base_symplectic.stageBody, base_symplectic.new, base_hamiltonian.total,
    Except.ok_bind_eq, hloop, Except.error_bind_eq]

end SymplecticRange

/-- C32. If `x0` has length `2n` with `n = m_dyn->get_dim()`, `m_c` and `m_d` have at least
`m_order` entries and `DHp`, `DHq` return `n`-component vectors, then
`base_symplectic::integration_step` succeeds, so that no index it uses is out of range, and
its result has length exactly `2n`.  The constructor of `base_symplectic` sets the name, the
dynamics and the order and leaves `m_c` and `m_d` empty; on an object left that way, with
`n >= 1` and `m_order >= 1`, the step reads `m_c[0]` out of range. -/
theorem symplectic_step_in_range {K : Type} [LinearOrderedField K] (n order : Nat)
    (c d : List K) (DHq DHp : K → List K → List K → List K)
    (hhq : ∀ t q p, q.length = n → p.length = n → (DHq t q p).length = n)
    (hhp : ∀ t q p, q.length = n → p.length = n → (DHp t q p).length = n)
    (hc : order ≤ c.length) (hd : order ≤ d.length) (ti tau : K) (x0 : List K)
    (hx0 : x0.length = 2 * n) (xfinal : List K) (name : String) (dyn : base_hamiltonian K)
    (ord : Int) :
    (∃ r, base_symplectic.integration_step
          { m_name := name, m_dyn := base_hamiltonian.total n DHq DHp,
            m_order := (order : Int), m_c := c, m_d := d } ti tau x0 xfinal = .ok r
        ∧ r.length = 2 * n)
      ∧ ((base_symplectic.new name dyn ord : base_symplectic K).m_name = name
        ∧ (base_symplectic.new name dyn ord : base_symplectic K).m_dyn = dyn
        ∧ (base_symplectic.new name dyn ord : base_symplectic K).m_order = ord
        ∧ (base_symplectic.new name dyn ord : base_symplectic K).m_c = []
        ∧ (base_symplectic.new name dyn ord : base_symplectic K).m_d = [])
      ∧ (1 ≤ n → 1 ≤ order →
          base_symplectic.integration_step
              (base_symplectic.new name (base_hamiltonian.total n DHq DHp) (order : Int))
              ti tau x0 xfinal
            = .error Fault.outOfRange) := by
  refine ⟨?_, ⟨rfl, rfl, rfl, rfl, rfl⟩, ?_⟩
  · have hl := symplecticFold_length DHq DHp n hhq hhp ti tau c d order
      (x0.take n, x0.drop n) (by simp; omega) (by simp; omega)
    refine ⟨_, symplectic_step_total n order c d DHq DHp hhq hhp hc hd ti tau x0 hx0 xfinal,
      ?_⟩
    rw [List.length_append, hl.1, hl.2]
    omega
  · intro hn ho
    have hstage := symplectic_stageBody_empty_c name n hn (order : Int) DHq DHp ti tau
      { q0 := x0.take n, p0 := x0.drop n, q := x0.take n, p := x0.drop n, dq := x0.take n,
        dp := x0.drop n } (by simp; omega)
    have hloop := forLoop_error
      (base_symplectic.stageBody
        (base_symplectic.new name (base_hamiltonian.total n DHq DHp) (order : Int)) ti tau n)
      _ _ Fault.outOfRange 0 order (by omega) rfl hstage
    simp only [base_symplectic.integration_step, base_symplectic.new, base_hamiltonian.total,
      Int.toNat_ofNat, symplectic_split n x0 hx0, Except.ok_bind_eq]
    simp only [base_symplectic.new, base_hamiltonian.total] at hloop
    rw [hloop, Except.error_bind_eq]

theorem symplectic_step_in_range_witness :
    (∀ (t : ℚ) (q p : List ℚ), q.length = 1 → p.length = 1 →
        ((fun _ q _ => q) t q p).length = 1)
      ∧ (∀ (t : ℚ) (q p : List ℚ), q.length = 1 → p.length = 1 →
        ((fun _ _ p => p) t q p).length = 1)
      ∧ 2 ≤ ([1, 1] : List ℚ).length ∧ 2 ≤ ([1, 1, 5] : List ℚ).length
      ∧ ([1, 2] : List ℚ).length = 2 * 1
      ∧ (∃ r, base_symplectic.integration_step
            { m_name := "scheme",
              m_dyn := base_hamiltonian.total 1 (fun (_ : ℚ) q _ => q) (fun _ _ p => p),
              m_order := ((2 : Nat) : Int), m_c := [1, 1], m_d := [1, 1, 5] } 0 1 [1, 2] []
            = .ok r ∧ r.length = 2 * 1)
      ∧ base_symplectic.integration_step
          (base_symplectic.new "scheme"
            (base_hamiltonian.total 1 (fun (_ : ℚ) q _ => q) (fun _ _ p => p))
            ((2 : Nat) : Int)) 0 1 [1, 2] []
        = .error Fault.outOfRange := by
  obtain ⟨h1, _, h3⟩ := symplectic_step_in_range 1 2 [1, 1] [1, 1, 5]
    (fun (_ : ℚ) q _ => q) (fun _ _ p => p) (fun _ _ _ h _ => h) (fun _ _ _ _ h => h)
    (by simp) (by simp) 0 1 [1, 2] (by simp) [] "scheme"
    (base_hamiltonian.total 1 (fun (_ : ℚ) q _ => q) (fun _ _ p => p)) 2
  exact ⟨fun _ _ _ h _ => h, fun _ _ _ _ h => h, by simp, by simp, by simp, h1,
    h3 (le_refl 1) (by omega)⟩

section TwobodyDefault
variable {K : Type} [LinearOrderedField K]

theorem vdiv_ok (a b : K) (hb : b ≠ 0) : vdiv a b = .ok (a / b) := by
  simp [vdiv, hb]

theorem vdiv_zero (a : K) : vdiv a 0 = .error Fault.divisionByZero := by
  simp [vdiv]

/-- With the default parameters and scaling factors and a non-zero radius, the guarded
computation stops at the division by `m_param[5]` in the atmospheric model. -/
theorem twobody_guarded_default (sqrtT expT : K → K) (x y z vx vy vz m : K)
    (hr : sqrtT (x * x + y * y + z * z) ≠ 0) :
    twobody.derivative_guarded sqrtT expT
        { m_param := List.replicate 10 (0 : K), m_t_scale := 1, m_r_scale := 1 }
        [x, y, z, vx, vy, vz, m] = .error Fault.divisionByZero := by
  have h3 : sqrtT (x * x + y * y + z * z) ^ 3 ≠ 0 := pow_ne_zero 3 hr
  simp only [twobody.derivative_guarded, one_pow, vdiv_ok _ (1 : K) one_ne_zero,
    Except.ok_bind_eq, div_one, vget, List.getElem?_cons_zero, List.getElem?_cons_succ,
    vdiv_ok _ _ h3, List.replicate, vdiv_zero, Except.error_bind_eq]

/-- When no divisor is zero the guarded computation returns what `twobody.derivative`
returns. -/
theorem twobody_guarded_eq (sqrtT expT : K → K) (ts rs : K) (hts : ts ≠ 0) (hrs : rs ≠ 0)
    (p0 p1 p2 p3 p4 p5 p6 p7 p8 p9 : K) (hp5 : p5 ≠ 0) (x y z vx vy vz m : K) (hm : m ≠ 0)
    (hr : sqrtT (x * x + y * y + z * z) ≠ 0) :
    twobody.derivative_guarded sqrtT expT
        { m_param := [p0, p1, p2, p3, p4, p5, p6, p7, p8, p9], m_t_scale := ts,
          m_r_scale := rs } [x, y, z, vx, vy, vz, m]
      = twobody.derivative sqrtT expT
        { m_param := [p0, p1, p2, p3, p4, p5, p6, p7, p8, p9], m_t_scale := ts,
          m_r_scale := rs } [x, y, z, vx, vy, vz, m] := by
  have h3 : sqrtT (x * x + y * y + z * z) ^ 3 ≠ 0 := pow_ne_zero 3 hr
  have hsc : rs ^ 3 / ts ^ 2 ≠ 0 := div_ne_zero (pow_ne_zero 3 hrs) (pow_ne_zero 2 hts)
  simp only [twobody.derivative_guarded, twobody.derivative, vdiv_ok _ rs hrs,
    vdiv_ok _ (ts ^ 2) (pow_ne_zero 2 hts), vdiv_ok _ _ hsc, Except.ok_bind_eq, vget,
    List.getElem?_cons_zero, List.getElem?_cons_succ, vdiv_ok _ _ h3, vdiv_ok _ p5 hp5,
    vdiv_ok _ m hm]

end TwobodyDefault

/-- C33. The default-constructed `twobody` (ten zero parameters, unit scaling factors) is
accepted by the constructor, and `evaluate` at `t = 0` on the state with position
`(7000000, 0, 0)`, velocity `(0, 7500, 0)` and mass `1000` (radius and mass non-zero) passes
its checks and returns 0; read with its divisions guarded, the computation divides by zero:
the atmospheric model divides by `m_param[5] = 0`. -/
theorem twobody_default_divides_by_zero :
    (twobody.newDefault : Except Fault (twobody ℝ))
        = .ok { m_param := List.replicate 10 (0 : ℝ), m_t_scale := 1, m_r_scale := 1 }
      ∧ (twobody.evaluate Real.sqrt Real.exp
          { m_param := List.replicate 10 (0 : ℝ), m_t_scale := 1, m_r_scale := 1 }
          0 [7000000, 0, 0, 0, 7500, 0, 1000] []).1 = .ok 0
      ∧ Real.sqrt ((7000000 : ℝ) * 7000000 + 0 * 0 + 0 * 0) ≠ 0
      ∧ (1000 : ℝ) ≠ 0
      ∧ twobody.derivative_guarded Real.sqrt Real.exp
          { m_param := List.replicate 10 (0 : ℝ), m_t_scale := 1, m_r_scale := 1 }
          [7000000, 0, 0, 0, 7500, 0, 1000] = .error Fault.divisionByZero := by
  have hnew : (twobody.newDefault : Except Fault (twobody ℝ))
      = .ok { m_param := List.replicate 10 (0 : ℝ), m_t_scale := 1, m_r_scale := 1 } := by
    simp [twobody.newDefault, twobody.new]
  have hr : Real.sqrt ((7000000 : ℝ) * 7000000 + 0 * 0 + 0 * 0) ≠ 0 := by
    rw [show (7000000 : ℝ) * 7000000 + 0 * 0 + 0 * 0 = 7000000 * 7000000 by ring,
      Real.sqrt_mul_self (by norm_num)]
    norm_num
  refine ⟨hnew, ?_, hr, by norm_num, ?_⟩
  · exact (twobody_valid Real.sqrt Real.exp _ 1 1 _ hnew 0 _ [] (by simp)).1
  · exact twobody_guarded_default Real.sqrt Real.exp 7000000 0 0 0 7500 0 1000 hr

section Rounded
variable {K : Type} [LinearOrderedField K]

/-- Without rounding the definitions with rounded `double` arithmetic are the exact ones. -/
theorem rounded_id (m_dyn : Dyn K) (integration_step : Step K) (ti tend t h : K)
    (nsteps : Int) (x0 xfinal : List K) (x_history : List (List K)) (t_history : List K) :
    rk3.integration_step_rounded id m_dyn t h x0 xfinal
        = rk3.integration_step m_dyn t h x0 xfinal
      ∧ base_rungekutta.integrate_rounded id integration_step ti tend nsteps x0 x_history
          t_history
        = base_rungekutta.integrate integration_step ti tend nsteps x0 x_history t_history
      ∧ rk4.integrate_rounded id m_dyn ti tend nsteps x0 xfinal
        = rk4.integrate m_dyn ti tend nsteps x0 xfinal :=
  ⟨rfl, rfl, rfl⟩

end Rounded

